import Mathlib

/-!
# AES-128 block cipher and Keccak sponge: a verification development

Shallow embedding of `AES128/aes.c` and `Keccak (SHA-3)/sha3.c`.

Conventions of the embedding.
* A C byte buffer (`unsigned char *`, `UINT8[]`) is a `List Nat`; a read `a[i]` is
  `a.getD i 0`, a store `a[i] = v` is `a.set i v`.
* Machine integers are natural numbers; a reduction modulo `2^w` is written wherever a C
  operation can leave the range of its type (shifts, stores of a wider value).
* Global or caller-owned buffers that a function mutates are passed in and returned.
* A bounded `for` loop is a `List.foldl` over the list of values its counter takes.
-/

set_option maxRecDepth 100000

namespace AES128

/-- The constant `MAX_LENGTH` of `aes.h`. -/
abbrev MAX_LENGTH : Nat := 16

/-- FIPS 197 substitution table `S_Box` of `aes.c`. -/
def S_Box : List Nat :=
  [
     0x63, 0x7c, 0x77, 0x7b, 0xf2, 0x6b, 0x6f, 0xc5, 0x30, 0x01, 0x67, 0x2b, 0xfe, 0xd7, 0xab, 0x76,
     0xca, 0x82, 0xc9, 0x7d, 0xfa, 0x59, 0x47, 0xf0, 0xad, 0xd4, 0xa2, 0xaf, 0x9c, 0xa4, 0x72, 0xc0,
     0xb7, 0xfd, 0x93, 0x26, 0x36, 0x3f, 0xf7, 0xcc, 0x34, 0xa5, 0xe5, 0xf1, 0x71, 0xd8, 0x31, 0x15,
     0x04, 0xc7, 0x23, 0xc3, 0x18, 0x96, 0x05, 0x9a, 0x07, 0x12, 0x80, 0xe2, 0xeb, 0x27, 0xb2, 0x75,
     0x09, 0x83, 0x2c, 0x1a, 0x1b, 0x6e, 0x5a, 0xa0, 0x52, 0x3b, 0xd6, 0xb3, 0x29, 0xe3, 0x2f, 0x84,
     0x53, 0xd1, 0x00, 0xed, 0x20, 0xfc, 0xb1, 0x5b, 0x6a, 0xcb, 0xbe, 0x39, 0x4a, 0x4c, 0x58, 0xcf,
     0xd0, 0xef, 0xaa, 0xfb, 0x43, 0x4d, 0x33, 0x85, 0x45, 0xf9, 0x02, 0x7f, 0x50, 0x3c, 0x9f, 0xa8,
     0x51, 0xa3, 0x40, 0x8f, 0x92, 0x9d, 0x38, 0xf5, 0xbc, 0xb6, 0xda, 0x21, 0x10, 0xff, 0xf3, 0xd2,
     0xcd, 0x0c, 0x13, 0xec, 0x5f, 0x97, 0x44, 0x17, 0xc4, 0xa7, 0x7e, 0x3d, 0x64, 0x5d, 0x19, 0x73,
     0x60, 0x81, 0x4f, 0xdc, 0x22, 0x2a, 0x90, 0x88, 0x46, 0xee, 0xb8, 0x14, 0xde, 0x5e, 0x0b, 0xdb,
     0xe0, 0x32, 0x3a, 0x0a, 0x49, 0x06, 0x24, 0x5c, 0xc2, 0xd3, 0xac, 0x62, 0x91, 0x95, 0xe4, 0x79,
     0xe7, 0xc8, 0x37, 0x6d, 0x8d, 0xd5, 0x4e, 0xa9, 0x6c, 0x56, 0xf4, 0xea, 0x65, 0x7a, 0xae, 0x08,
     0xba, 0x78, 0x25, 0x2e, 0x1c, 0xa6, 0xb4, 0xc6, 0xe8, 0xdd, 0x74, 0x1f, 0x4b, 0xbd, 0x8b, 0x8a,
     0x70, 0x3e, 0xb5, 0x66, 0x48, 0x03, 0xf6, 0x0e, 0x61, 0x35, 0x57, 0xb9, 0x86, 0xc1, 0x1d, 0x9e,
     0xe1, 0xf8, 0x98, 0x11, 0x69, 0xd9, 0x8e, 0x94, 0x9b, 0x1e, 0x87, 0xe9, 0xce, 0x55, 0x28, 0xdf,
     0x8c, 0xa1, 0x89, 0x0d, 0xbf, 0xe6, 0x42, 0x68, 0x41, 0x99, 0x2d, 0x0f, 0xb0, 0x54, 0xbb, 0x16 ]

/-- Inverse substitution table `inv_S_Box` of `aes.c`. -/
def inv_S_Box : List Nat :=
  [
     0x52, 0x09, 0x6a, 0xd5, 0x30, 0x36, 0xa5, 0x38, 0xbf, 0x40, 0xa3, 0x9e, 0x81, 0xf3, 0xd7, 0xfb,
     0x7c, 0xe3, 0x39, 0x82, 0x9b, 0x2f, 0xff, 0x87, 0x34, 0x8e, 0x43, 0x44, 0xc4, 0xde, 0xe9, 0xcb,
     0x54, 0x7b, 0x94, 0x32, 0xa6, 0xc2, 0x23, 0x3d, 0xee, 0x4c, 0x95, 0x0b, 0x42, 0xfa, 0xc3, 0x4e,
     0x08, 0x2e, 0xa1, 0x66, 0x28, 0xd9, 0x24, 0xb2, 0x76, 0x5b, 0xa2, 0x49, 0x6d, 0x8b, 0xd1, 0x25,
     0x72, 0xf8, 0xf6, 0x64, 0x86, 0x68, 0x98, 0x16, 0xd4, 0xa4, 0x5c, 0xcc, 0x5d, 0x65, 0xb6, 0x92,
     0x6c, 0x70, 0x48, 0x50, 0xfd, 0xed, 0xb9, 0xda, 0x5e, 0x15, 0x46, 0x57, 0xa7, 0x8d, 0x9d, 0x84,
     0x90, 0xd8, 0xab, 0x00, 0x8c, 0xbc, 0xd3, 0x0a, 0xf7, 0xe4, 0x58, 0x05, 0xb8, 0xb3, 0x45, 0x06,
     0xd0, 0x2c, 0x1e, 0x8f, 0xca, 0x3f, 0x0f, 0x02, 0xc1, 0xaf, 0xbd, 0x03, 0x01, 0x13, 0x8a, 0x6b,
     0x3a, 0x91, 0x11, 0x41, 0x4f, 0x67, 0xdc, 0xea, 0x97, 0xf2, 0xcf, 0xce, 0xf0, 0xb4, 0xe6, 0x73,
     0x96, 0xac, 0x74, 0x22, 0xe7, 0xad, 0x35, 0x85, 0xe2, 0xf9, 0x37, 0xe8, 0x1c, 0x75, 0xdf, 0x6e,
     0x47, 0xf1, 0x1a, 0x71, 0x1d, 0x29, 0xc5, 0x89, 0x6f, 0xb7, 0x62, 0x0e, 0xaa, 0x18, 0xbe, 0x1b,
     0xfc, 0x56, 0x3e, 0x4b, 0xc6, 0xd2, 0x79, 0x20, 0x9a, 0xdb, 0xc0, 0xfe, 0x78, 0xcd, 0x5a, 0xf4,
     0x1f, 0xdd, 0xa8, 0x33, 0x88, 0x07, 0xc7, 0x31, 0xb1, 0x12, 0x10, 0x59, 0x27, 0x80, 0xec, 0x5f,
     0x60, 0x51, 0x7f, 0xa9, 0x19, 0xb5, 0x4a, 0x0d, 0x2d, 0xe5, 0x7a, 0x9f, 0x93, 0xc9, 0x9c, 0xef,
     0xa0, 0xe0, 0x3b, 0x4d, 0xae, 0x2a, 0xf5, 0xb0, 0xc8, 0xeb, 0xbb, 0x3c, 0x83, 0x53, 0x99, 0x61,
     0x17, 0x2b, 0x04, 0x7e, 0xba, 0x77, 0xd6, 0x26, 0xe1, 0x69, 0x14, 0x63, 0x55, 0x21, 0x0c, 0x7d ]

/-- Round constants `R_Con` of `aes.c`. -/
def R_Con : List Nat := [0x8d, 0x01, 0x02, 0x04, 0x08, 0x10, 0x20, 0x40, 0x80, 0x1b, 0x36]

/-- The key table of the external header `crypto_keys.h`, which is not part of the
sources: the two 16-byte arrays `Base_Key` and `Key1` are taken as parameters. -/
structure CryptoKeys where
  Base_Key : List Nat
  Key1 : List Nat

/-- A C buffer of `n` unsigned bytes. -/
def IsBytes (n : Nat) (l : List Nat) : Prop := l.length = n ∧ ∀ x ∈ l, x < 256

instance (n : Nat) (l : List Nat) : Decidable (IsBytes n l) := by
  unfold IsBytes; infer_instance

/-- Well-formed key table: both keys are 16 unsigned bytes. -/
def CryptoKeys.WF (keys : CryptoKeys) : Prop := IsBytes 16 keys.Base_Key ∧ IsBytes 16 keys.Key1

/-- First loop of `Generate_Key`: load the key selected by `KeyIndex` into `KeyGen[0..15]`. -/
def Generate_Key_load (keys : CryptoKeys) (KeyGen : List Nat) (KeyIndex : Nat) : List Nat :=
  (List.range MAX_LENGTH).foldl (fun KeyGen ii =>
    match KeyIndex with
    | 0 => KeyGen.set ii (keys.Base_Key.getD ii 0)
    | 1 => KeyGen.set ii (keys.Key1.getD ii 0)
    | _ => KeyGen.set ii (keys.Base_Key.getD ii 0)) KeyGen

/-- Body of the second loop of `Generate_Key` for round `ii`. -/
def Generate_Key_round (KeyGen : List Nat) (ii : Nat) : List Nat :=
  let temp_byte0 := KeyGen.getD (ii * MAX_LENGTH - 4) 0
  let KeyGen := KeyGen.set (ii * MAX_LENGTH + 0)
    (S_Box.getD (KeyGen.getD (ii * MAX_LENGTH - 3) 0) 0
      ^^^ KeyGen.getD ((ii - 1) * MAX_LENGTH + 0) 0 ^^^ R_Con.getD ii 0)
  -- for (x = 1; x < 3; x++)
  let KeyGen := [1, 2].foldl (fun KeyGen x =>
    KeyGen.set (ii * MAX_LENGTH + x)
      (S_Box.getD (KeyGen.getD (ii * MAX_LENGTH - (3 - x)) 0) 0
        ^^^ KeyGen.getD ((ii - 1) * MAX_LENGTH + x) 0)) KeyGen
  let KeyGen := KeyGen.set (ii * MAX_LENGTH + 3)
    (S_Box.getD temp_byte0 0 ^^^ KeyGen.getD ((ii - 1) * MAX_LENGTH + 3) 0)
  -- for (x = 4; x < MAX_LENGTH; x++)
  [4, 5, 6, 7, 8, 9, 10, 11, 12, 13, 14, 15].foldl (fun KeyGen x =>
    KeyGen.set (ii * MAX_LENGTH + x)
      (KeyGen.getD ((ii - 1) * MAX_LENGTH + x) 0 ^^^ KeyGen.getD (ii * MAX_LENGTH + (x - 4)) 0))
    KeyGen

/-- The function `Generate_Key`: expands the selected key into the 176-byte global `KeyGen`,
given its prior contents, and returns the new contents. -/
def Generate_Key (keys : CryptoKeys) (KeyGen : List Nat) (KeyIndex : Nat) : List Nat :=
  -- for (ii = 1; ii < 11; ii++)
  [1, 2, 3, 4, 5, 6, 7, 8, 9, 10].foldl Generate_Key_round (Generate_Key_load keys KeyGen KeyIndex)

/-- The function `G_Multiply`: doubling in GF(2^8); the shifted value is stored in an
`unsigned char`, hence the reduction modulo 256. -/
def G_Multiply (value : Nat) : Nat :=
  if value &&& 0x80 ≠ 0 then
    ((value <<< 1) % 256) ^^^ 0x1b
  else
    (value <<< 1) % 256

/-- Body of the loop of `mix_column` for the column starting at byte `x`. -/
def mix_column_step (Plain_Data : List Nat) (x : Nat) : List Nat :=
  let temp_byte0 := Plain_Data.getD x 0 ^^^ Plain_Data.getD (x + 1) 0
    ^^^ Plain_Data.getD (x + 2) 0 ^^^ Plain_Data.getD (x + 3) 0
  let temp_byte1 := Plain_Data.getD x 0
  let temp_byte2 := Plain_Data.getD x 0 ^^^ Plain_Data.getD (x + 1) 0
  let temp_byte2 := G_Multiply temp_byte2
  let Plain_Data := Plain_Data.set (x + 0) (Plain_Data.getD (x + 0) 0 ^^^ temp_byte2 ^^^ temp_byte0)
  let temp_byte2 := Plain_Data.getD (x + 1) 0 ^^^ Plain_Data.getD (x + 2) 0
  let temp_byte2 := G_Multiply temp_byte2
  let Plain_Data := Plain_Data.set (x + 1) (Plain_Data.getD (x + 1) 0 ^^^ temp_byte2 ^^^ temp_byte0)
  let temp_byte2 := Plain_Data.getD (x + 2) 0 ^^^ Plain_Data.getD (x + 3) 0
  let temp_byte2 := G_Multiply temp_byte2
  let Plain_Data := Plain_Data.set (x + 2) (Plain_Data.getD (x + 2) 0 ^^^ temp_byte2 ^^^ temp_byte0)
  let temp_byte2 := Plain_Data.getD (x + 3) 0 ^^^ temp_byte1
  let temp_byte2 := G_Multiply temp_byte2
  Plain_Data.set (x + 3) (Plain_Data.getD (x + 3) 0 ^^^ temp_byte2 ^^^ temp_byte0)

/-- The function `mix_column`. -/
def mix_column (Plain_Data : List Nat) : List Nat :=
  -- for (x = 0; x < 15; x += 4)
  [0, 4, 8, 12].foldl mix_column_step Plain_Data

/-- The function `add_S_Box_and_shift`: add round key, shift rows and substitute, fused.
`KeyGen` is the global key schedule it reads. -/
def add_S_Box_and_shift (KeyGen : List Nat) (Plain_Data : List Nat) (turn : Nat) : List Nat :=
  -- row 0: for (x = 0; x < 15; x += 4)
  let Plain_Data := [0, 4, 8, 12].foldl (fun Plain_Data x =>
    Plain_Data.set x
      (S_Box.getD (Plain_Data.getD x 0 ^^^ KeyGen.getD ((turn * MAX_LENGTH) + x) 0) 0)) Plain_Data
  -- row 1
  let temp_byte0 := Plain_Data.getD 1 0 ^^^ KeyGen.getD ((turn * MAX_LENGTH) + 1) 0
  -- for (x = 1; x < 12; x += 4)
  let Plain_Data := [1, 5, 9].foldl (fun Plain_Data x =>
    Plain_Data.set x
      (S_Box.getD (Plain_Data.getD (x + 4) 0 ^^^ KeyGen.getD ((turn * MAX_LENGTH) + x + 4) 0) 0))
    Plain_Data
  let Plain_Data := Plain_Data.set 13 (S_Box.getD temp_byte0 0)
  -- row 2
  let temp_byte0 := Plain_Data.getD 2 0 ^^^ KeyGen.getD ((turn * MAX_LENGTH) + 2) 0
  let temp_byte1 := Plain_Data.getD 6 0 ^^^ KeyGen.getD ((turn * MAX_LENGTH) + 6) 0
  let Plain_Data := Plain_Data.set 2
    (S_Box.getD (Plain_Data.getD 10 0 ^^^ KeyGen.getD ((turn * MAX_LENGTH) + 10) 0) 0)
  let Plain_Data := Plain_Data.set 6
    (S_Box.getD (Plain_Data.getD 14 0 ^^^ KeyGen.getD ((turn * MAX_LENGTH) + 14) 0) 0)
  let Plain_Data := Plain_Data.set 10 (S_Box.getD temp_byte0 0)
  let Plain_Data := Plain_Data.set 14 (S_Box.getD temp_byte1 0)
  -- row 3
  let temp_byte0 := Plain_Data.getD 15 0 ^^^ KeyGen.getD ((turn * MAX_LENGTH) + 15) 0
  -- for (x = 15; x > 3; x -= 4)
  let Plain_Data := [15, 11, 7].foldl (fun Plain_Data x =>
    Plain_Data.set x
      (S_Box.getD (Plain_Data.getD (x - 4) 0 ^^^ KeyGen.getD ((turn * MAX_LENGTH) + x - 4) 0) 0))
    Plain_Data
  Plain_Data.set 3 (S_Box.getD temp_byte0 0)

/-- The function `inv_add_S_Box_and_shift`: the inverse of `add_S_Box_and_shift`. -/
def inv_add_S_Box_and_shift (KeyGen : List Nat) (Plain_Data : List Nat) (turn : Nat) : List Nat :=
  -- row 0: for (x = 0; x < 15; x += 4)
  let Plain_Data := [0, 4, 8, 12].foldl (fun Plain_Data x =>
    Plain_Data.set x
      (inv_S_Box.getD (Plain_Data.getD x 0) 0 ^^^ KeyGen.getD ((turn * MAX_LENGTH) + x) 0))
    Plain_Data
  -- row 1
  let temp_byte0 := inv_S_Box.getD (Plain_Data.getD 13 0) 0 ^^^ KeyGen.getD ((turn * MAX_LENGTH) + 1) 0
  -- for (x = 13; x > 1; x -= 4)
  let Plain_Data := [13, 9, 5].foldl (fun Plain_Data x =>
    Plain_Data.set x
      (inv_S_Box.getD (Plain_Data.getD (x - 4) 0) 0 ^^^ KeyGen.getD ((turn * MAX_LENGTH) + x) 0))
    Plain_Data
  let Plain_Data := Plain_Data.set 1 temp_byte0
  -- row 2
  let temp_byte0 := inv_S_Box.getD (Plain_Data.getD 2 0) 0 ^^^ KeyGen.getD ((turn * MAX_LENGTH) + 10) 0
  let temp_byte1 := inv_S_Box.getD (Plain_Data.getD 6 0) 0 ^^^ KeyGen.getD ((turn * MAX_LENGTH) + 14) 0
  let Plain_Data := Plain_Data.set 2
    (inv_S_Box.getD (Plain_Data.getD 10 0) 0 ^^^ KeyGen.getD ((turn * MAX_LENGTH) + 2) 0)
  let Plain_Data := Plain_Data.set 6
    (inv_S_Box.getD (Plain_Data.getD 14 0) 0 ^^^ KeyGen.getD ((turn * MAX_LENGTH) + 6) 0)
  let Plain_Data := Plain_Data.set 10 temp_byte0
  let Plain_Data := Plain_Data.set 14 temp_byte1
  -- row 3
  let temp_byte0 := inv_S_Box.getD (Plain_Data.getD 3 0) 0 ^^^ KeyGen.getD ((turn * MAX_LENGTH) + 15) 0
  -- for (x = 3; x < 15; x += 4)
  let Plain_Data := [3, 7, 11].foldl (fun Plain_Data x =>
    Plain_Data.set x
      (inv_S_Box.getD (Plain_Data.getD (x + 4) 0) 0 ^^^ KeyGen.getD ((turn * MAX_LENGTH) + x) 0))
    Plain_Data
  Plain_Data.set 15 temp_byte0

/-- The loop `Plain_Data[x] ^= KeyGen[160 + x]` for `x = 0 .. 15`, which is the last step
of `cipher_AES` (last add round key) and the first of `decipher_AES`. -/
def add_last_key (KeyGen : List Nat) (Plain_Data : List Nat) : List Nat :=
  (List.range 16).foldl (fun Plain_Data x =>
    Plain_Data.set x (Plain_Data.getD x 0 ^^^ KeyGen.getD (160 + x) 0)) Plain_Data

/-- The function `cipher_AES`: returns the new contents of the global `KeyGen` and of the
block `Plain_Data`. -/
def cipher_AES (keys : CryptoKeys) (KeyGen : List Nat) (Plain_Data : List Nat) (KeyIndex : Nat) :
    List Nat × List Nat :=
  let KeyGen := Generate_Key keys KeyGen KeyIndex
  -- for (turn = 0; turn < 9; turn++)
  let Plain_Data := (List.range 9).foldl (fun Plain_Data turn =>
    mix_column (add_S_Box_and_shift KeyGen Plain_Data turn)) Plain_Data
  -- 10th turn without mixcols; the counter is 9 after the loop
  let Plain_Data := add_S_Box_and_shift KeyGen Plain_Data 9
  (KeyGen, add_last_key KeyGen Plain_Data)

/-- The doubling pre-step of the loop body of `decipher_AES`, applied before `mix_column`. -/
def inv_mix_prestep (Plain_Data : List Nat) : List Nat :=
  -- for (x = 0; x < 16; x += 4) for (y = 0; y < 2; y++)
  [0, 4, 8, 12].foldl (fun Plain_Data x =>
    [0, 1].foldl (fun Plain_Data y =>
      let temp_byte0 :=
        G_Multiply (G_Multiply (Plain_Data.getD (x + y) 0 ^^^ Plain_Data.getD (x + y + 2) 0))
      let Plain_Data := Plain_Data.set (x + y) (Plain_Data.getD (x + y) 0 ^^^ temp_byte0)
      Plain_Data.set (x + y + 2) (Plain_Data.getD (x + y + 2) 0 ^^^ temp_byte0)) Plain_Data)
    Plain_Data

/-- Body of the main loop of `decipher_AES` for round `turn`. -/
def decipher_round (KeyGen : List Nat) (Plain_Data : List Nat) (turn : Nat) : List Nat :=
  inv_add_S_Box_and_shift KeyGen (mix_column (inv_mix_prestep Plain_Data)) turn

/-- The main loop of `decipher_AES`, `for (turn = 8; turn >= 0; turn--)`. The counter is an
`unsigned char`, so the loop condition always holds; the loop is left by the `break` taken
after the body has run for `turn == 0`. -/
def decipher_loop (KeyGen : List Nat) : Nat → List Nat → List Nat
  | 0, Plain_Data => decipher_round KeyGen Plain_Data 0
  | turn + 1, Plain_Data => decipher_loop KeyGen turn (decipher_round KeyGen Plain_Data (turn + 1))

/-- The function `decipher_AES`: returns the new contents of the global `KeyGen` and of the
block `Plain_Data`. -/
def decipher_AES (keys : CryptoKeys) (KeyGen : List Nat) (Plain_Data : List Nat) (KeyIndex : Nat) :
    List Nat × List Nat :=
  let KeyGen := Generate_Key keys KeyGen KeyIndex
  -- turn = 9
  let Plain_Data := add_last_key KeyGen Plain_Data
  let Plain_Data := inv_add_S_Box_and_shift KeyGen Plain_Data 9
  (KeyGen, decipher_loop KeyGen 8 Plain_Data)

end AES128

namespace SHA3

/-- The function `load64` applied to the pointer `x + off`: little-endian load of a lane. -/
def load64 (x : List Nat) (off : Nat) : Nat :=
  -- for (i = 7; i >= 0; --i)
  [7, 6, 5, 4, 3, 2, 1, 0].foldl (fun u i => ((u <<< 8) % 2 ^ 64) ||| x.getD (off + i) 0) 0

/-- The function `store64` applied to the pointer `x + off`; each byte store truncates `u`. -/
def store64 (x : List Nat) (off : Nat) (u : Nat) : List Nat :=
  -- for (i = 0; i < 8; ++i)
  ((List.range 8).foldl (fun (s : List Nat × Nat) i =>
    (s.1.set (off + i) (s.2 % 256), s.2 >>> 8)) (x, u)).1

/-- The function `xor64` applied to the pointer `x + off`; each byte store truncates. -/
def xor64 (x : List Nat) (off : Nat) (u : Nat) : List Nat :=
  -- for (i = 0; i < 8; ++i)
  ((List.range 8).foldl (fun (s : List Nat × Nat) i =>
    (s.1.set (off + i) ((s.1.getD (off + i) 0 ^^^ s.2) % 256), s.2 >>> 8)) (x, u)).1

/-- The macro `ROL64` on 64-bit operands. -/
def ROL64 (a offset : Nat) : Nat :=
  ((a <<< offset) % 2 ^ 64) ^^^ (a >>> (64 - offset))

/-- The lane index macro `i(x, y)`. -/
def laneIndex (x y : Nat) : Nat := x + 5 * y

/-- The macro `readLane` (the variant compiled when `LITTLE_ENDIAN` is not defined). -/
def readLane (state : List Nat) (x y : Nat) : Nat := load64 state (8 * laneIndex x y)

/-- The macro `writeLane`. -/
def writeLane (state : List Nat) (x y lane : Nat) : List Nat :=
  store64 state (8 * laneIndex x y) lane

/-- The macro `XORLane`. -/
def XORLane (state : List Nat) (x y lane : Nat) : List Nat :=
  xor64 state (8 * laneIndex x y) lane

/-- The function `LFSR86540`: returns the output bit (as the C `int` 0 or 1) and the new
contents of the 8-bit register. -/
def LFSR86540 (LFSR : Nat) : Nat × Nat :=
  let result := if LFSR &&& 0x01 ≠ 0 then 1 else 0
  if LFSR &&& 0x80 ≠ 0 then
    (result, ((LFSR <<< 1) ^^^ 0x71) % 256)
  else
    (result, (LFSR <<< 1) % 256)

/-- The theta step of one round of `KeccakF1600_StatePermute`. -/
def theta (state : List Nat) : List Nat :=
  let C := (List.range 5).map (fun x =>
    readLane state x 0 ^^^ readLane state x 1 ^^^ readLane state x 2
      ^^^ readLane state x 3 ^^^ readLane state x 4)
  (List.range 5).foldl (fun state x =>
    let D := C.getD ((x + 4) % 5) 0 ^^^ ROL64 (C.getD ((x + 1) % 5) 0) 1
    (List.range 5).foldl (fun state y => XORLane state x y D) state) state

/-- One iteration `t` of the rho and pi loop, on the variables `x`, `y`, `current` and the
state. -/
def rhoPiStep (s : Nat × Nat × Nat × List Nat) (t : Nat) : Nat × Nat × Nat × List Nat :=
  let (x, y, current, state) := s
  let r := ((t + 1) * (t + 2) / 2) % 64
  let Y := (2 * x + 3 * y) % 5
  let x := y
  let y := Y
  let temp := readLane state x y
  let state := writeLane state x y (ROL64 current r)
  (x, y, temp, state)

/-- The rho and pi steps of one round of `KeccakF1600_StatePermute`. -/
def rhoPi (state : List Nat) : List Nat :=
  ((List.range 24).foldl rhoPiStep (1, 0, readLane state 1 0, state)).2.2.2

/-- The chi step of one round of `KeccakF1600_StatePermute`; `~` is the complement of a
64-bit lane. -/
def chi (state : List Nat) : List Nat :=
  (List.range 5).foldl (fun state y =>
    let temp := (List.range 5).map (fun x => readLane state x y)
    (List.range 5).foldl (fun state x =>
      writeLane state x y
        (temp.getD x 0 ^^^ ((2 ^ 64 - 1 - temp.getD ((x + 1) % 5) 0) &&& temp.getD ((x + 2) % 5) 0)))
      state) state

/-- The iota step of one round, on the LFSR register and the state. -/
def iota (s : Nat × List Nat) : Nat × List Nat :=
  (List.range 7).foldl (fun (s : Nat × List Nat) j =>
    let bitPosition := (1 <<< j) - 1
    let (result, LFSRstate) := LFSR86540 s.1
    if result ≠ 0 then
      (LFSRstate, XORLane s.2 0 0 ((1 <<< bitPosition) % 2 ^ 64))
    else
      (LFSRstate, s.2)) s

/-- One round of `KeccakF1600_StatePermute`, on the LFSR register and the state. -/
def keccakRound (s : Nat × List Nat) : Nat × List Nat :=
  iota (s.1, chi (rhoPi (theta s.2)))

/-- The loop `for (round = 0; round < 24; round++)` of `KeccakF1600_StatePermute`, on the
LFSR register and the state. -/
def KeccakF1600_rounds (s : Nat × List Nat) : Nat × List Nat :=
  (List.range 24).foldl (fun s _ => keccakRound s) s

/-- The state left by the round loop (the LFSR register is a local variable). -/
def roundState (s : Nat × List Nat) : List Nat := s.2

/-- The function `KeccakF1600_StatePermute`. -/
def KeccakF1600_StatePermute (state : List Nat) : List Nat :=
  -- LFSRstate = 0x01
  roundState (KeccakF1600_rounds (0x01, state))

/-- The validation test of `Keccak` on 32-bit unsigned `rate` and `capacity`: true when the
call is rejected. -/
def Keccak_rejects (rate capacity : Nat) : Bool :=
  decide ((rate + capacity) % 2 ^ 32 ≠ 1600) || decide (rate % 8 ≠ 0)

/-- The loop `for (i = 0; i < blockSize; i++) state[i] ^= input[i];` of `Keccak`. The array
`state` has 200 bytes: a store at an index of 200 or more, which in C is outside the array,
leaves the list as it is, so this agrees with the code for `blockSize <= 200`. -/
def Keccak_xorBlock (state input : List Nat) (blockSize : Nat) : List Nat :=
  (List.range blockSize).foldl (fun state i =>
    state.set i (state.getD i 0 ^^^ input.getD i 0)) state

/-- The absorbing loop `while (inputByteLen > 0)` of `Keccak`, run for at most `fuel`
iterations: `none` when the loop has not ended by then, else the state and `blockSize`. -/
def Keccak_absorb (rateInBytes : Nat) :
    Nat → List Nat → List Nat → Nat → Nat → Option (List Nat × Nat)
  | 0, state, _, inputByteLen, blockSize =>
    if inputByteLen > 0 then none else some (state, blockSize)
  | fuel + 1, state, input, inputByteLen, blockSize =>
    if inputByteLen > 0 then
      let blockSize := min inputByteLen rateInBytes
      let state := Keccak_xorBlock state input blockSize
      let input := input.drop blockSize
      let inputByteLen := inputByteLen - blockSize
      if blockSize = rateInBytes then
        Keccak_absorb rateInBytes fuel (KeccakF1600_StatePermute state) input inputByteLen 0
      else
        Keccak_absorb rateInBytes fuel state input inputByteLen blockSize
    else some (state, blockSize)

/-- The padding part of `Keccak`; `rateInBytes - 1` is computed on 32-bit unsigned values.
A store at an index of 200 or more, which in C is outside `state[200]`, leaves the list as
it is, so this agrees with the code for `rateInBytes` in 1..200. -/
def Keccak_pad (rateInBytes : Nat) (state : List Nat) (blockSize delimitedSuffix : Nat) :
    List Nat :=
  let state := state.set blockSize (state.getD blockSize 0 ^^^ delimitedSuffix)
  let state :=
    if delimitedSuffix &&& 0x80 ≠ 0 ∧ blockSize = (rateInBytes + 2 ^ 32 - 1) % 2 ^ 32 then
      KeccakF1600_StatePermute state
    else state
  let state := state.set ((rateInBytes + 2 ^ 32 - 1) % 2 ^ 32)
    (state.getD ((rateInBytes + 2 ^ 32 - 1) % 2 ^ 32) 0 ^^^ 0x80)
  KeccakF1600_StatePermute state

/-- The call `memcpy(output + pos, state, n)` on the caller's buffer `output`. A read of
`state` at an index of 200 or more, which in C is outside the array, gives 0 here, so this
agrees with the code for `n <= 200`. -/
def memcpy (output : List Nat) (pos : Nat) (state : List Nat) (n : Nat) : List Nat :=
  (List.range n).foldl (fun output i => output.set (pos + i) (state.getD i 0)) output

/-- The squeezing loop `while (outputByteLen > 0)` of `Keccak`, run for at most `fuel`
iterations; `pos` is the distance the pointer `output` has advanced in the caller's buffer. -/
def Keccak_squeeze (rateInBytes : Nat) :
    Nat → List Nat → List Nat → Nat → Nat → Option (List Nat)
  | 0, _, output, _, outputByteLen =>
    if outputByteLen > 0 then none else some output
  | fuel + 1, state, output, pos, outputByteLen =>
    if outputByteLen > 0 then
      let blockSize := min outputByteLen rateInBytes
      let output := memcpy output pos state blockSize
      let pos := pos + blockSize
      let outputByteLen := outputByteLen - blockSize
      if outputByteLen > 0 then
        Keccak_squeeze rateInBytes fuel (KeccakF1600_StatePermute state) output pos outputByteLen
      else
        Keccak_squeeze rateInBytes fuel state output pos outputByteLen
    else some output

/-- The function `Keccak`. It returns `void`: the only thing a caller observes is the
contents of the buffer `output` afterwards, which is the result here. Each of the two `while`
loops is run for at most `fuel` iterations, and the result is `none` when one of them has not
ended by then. The array `state` is a list of 200 bytes, so the definition agrees with the
code when the rate in bytes is in 1..200; the validation also accepts `rate = 0` and pairs
whose 32-bit sum wraps, for which the code indexes `state` outside its bounds. -/
def Keccak (fuel : Nat) (rate capacity : Nat) (input : List Nat) (inputByteLen : Nat)
    (delimitedSuffix : Nat) (output : List Nat) (outputByteLen : Nat) : Option (List Nat) :=
  let rateInBytes := rate / 8
  if Keccak_rejects rate capacity then
    some output
  else
    -- memset(state, 0, sizeof(state))
    let state := List.replicate 200 0
    match Keccak_absorb rateInBytes fuel state input inputByteLen 0 with
    | none => none
    | some (state, blockSize) =>
      let state := Keccak_pad rateInBytes state blockSize delimitedSuffix
      Keccak_squeeze rateInBytes fuel state output 0 outputByteLen

/-- Conversion of the `int` argument `outputByteLen` of the SHAKE wrappers to the
`unsigned long long` parameter of `Keccak`. -/
def toULL (n : Int) : Nat := (n % 2 ^ 64).toNat

/-- The function `FIPS202_SHAKE128`. -/
def FIPS202_SHAKE128 (fuel : Nat) (input : List Nat) (inputByteLen : Nat) (output : List Nat)
    (outputByteLen : Int) : Option (List Nat) :=
  Keccak fuel 1344 256 input inputByteLen 0x1F output (toULL outputByteLen)

/-- The function `FIPS202_SHAKE256`. -/
def FIPS202_SHAKE256 (fuel : Nat) (input : List Nat) (inputByteLen : Nat) (output : List Nat)
    (outputByteLen : Int) : Option (List Nat) :=
  Keccak fuel 1088 512 input inputByteLen 0x1F output (toULL outputByteLen)

/-- The function `FIPS202_SHA3_224`. -/
def FIPS202_SHA3_224 (fuel : Nat) (input : List Nat) (inputByteLen : Nat) (output : List Nat) :
    Option (List Nat) :=
  Keccak fuel 1152 448 input inputByteLen 0x06 output 28

/-- The function `FIPS202_SHA3_256`. -/
def FIPS202_SHA3_256 (fuel : Nat) (input : List Nat) (inputByteLen : Nat) (output : List Nat) :
    Option (List Nat) :=
  Keccak fuel 1088 512 input inputByteLen 0x06 output 32

/-- The function `FIPS202_SHA3_384`. -/
def FIPS202_SHA3_384 (fuel : Nat) (input : List Nat) (inputByteLen : Nat) (output : List Nat) :
    Option (List Nat) :=
  Keccak fuel 832 768 input inputByteLen 0x06 output 48

/-- The function `FIPS202_SHA3_512`. -/
def FIPS202_SHA3_512 (fuel : Nat) (input : List Nat) (inputByteLen : Nat) (output : List Nat) :
    Option (List Nat) :=
  Keccak fuel 576 1024 input inputByteLen 0x06 output 64

end SHA3

namespace AES128

/-- The key that `Generate_Key` loads for a key index: `Key1` for index 1 and `Base_Key`
for every other index (case 0 and the `default` case of the `switch`). -/
def selectedKey (keys : CryptoKeys) (KeyIndex : Nat) : List Nat :=
  match KeyIndex with
  | 0 => keys.Base_Key
  | 1 => keys.Key1
  | _ => keys.Base_Key

/-- Two buffers of the same length that hold the same bytes at all indices below `n`. -/
def Agree (n : Nat) (a b : List Nat) : Prop :=
  a.length = b.length ∧ ∀ j < n, a.getD j 0 = b.getD j 0

/-- One output byte of a column of `mix_column`: `a` is the byte, `b` the next byte of the
column and `t` the XOR of the four bytes of the column. -/
def mixByte (a b t : Nat) : Nat := a ^^^ G_Multiply (a ^^^ b) ^^^ t

/-- The value `temp_byte0` of the doubling pre-step of `decipher_AES` for the pair `a`, `c`. -/
def dbl2 (a c : Nat) : Nat := G_Multiply (G_Multiply (a ^^^ c))

end AES128

namespace AES128

instance (keys : CryptoKeys) : Decidable keys.WF := by
  unfold CryptoKeys.WF; infer_instance

/-- The FIPS-197 (appendix C.1) reference key `000102030405060708090a0b0c0d0e0f`. -/
def fipsKey : List Nat :=
  [0x00, 0x01, 0x02, 0x03, 0x04, 0x05, 0x06, 0x07, 0x08, 0x09, 0x0a, 0x0b, 0x0c, 0x0d, 0x0e, 0x0f]

/-- The FIPS-197 reference plaintext `00112233445566778899aabbccddeeff`. -/
def fipsPlain : List Nat :=
  [0x00, 0x11, 0x22, 0x33, 0x44, 0x55, 0x66, 0x77, 0x88, 0x99, 0xaa, 0xbb, 0xcc, 0xdd, 0xee, 0xff]

/-- The FIPS-197 reference ciphertext `69c4e0d86a7b0430d8cdb78070b4c55a`. -/
def fipsCipher : List Nat :=
  [0x69, 0xc4, 0xe0, 0xd8, 0x6a, 0x7b, 0x04, 0x30, 0xd8, 0xcd, 0xb7, 0x80, 0x70, 0xb4, 0xc5, 0x5a]

end AES128

namespace SHA3

/-! ### Lane view of the state

The state of `KeccakF1600_StatePermute` is a buffer of 200 bytes that the lane macros read
and write eight bytes at a time. The definitions below describe the same computation on the
list of the 25 lanes; the theorems relate the two views. -/

/-- The eight bytes of a lane, least significant first. -/
def bytesOfLane (v : Nat) : List Nat := (List.range 8).map (fun i => (v >>> (8 * i)) % 256)

/-- The byte buffer that holds the given lanes. -/
def bytesOfLanes : List Nat → List Nat
  | [] => []
  | v :: L => bytesOfLane v ++ bytesOfLanes L

/-- A list of 25 lanes of 64 bits. -/
def Lanes (L : List Nat) : Prop := L.length = 25 ∧ ∀ v ∈ L, v < 2 ^ 64

/-- The byte view `S` and the lane view `L` of the same state. -/
def Sim (S L : List Nat) : Prop := S = bytesOfLanes L ∧ Lanes L

/-- Relation between the variables of the rho and pi loop in the two views. -/
def SimRhoPi (s t : Nat × Nat × Nat × List Nat) : Prop :=
  s.1 = t.1 ∧ s.2.1 = t.2.1 ∧ s.2.2.1 = t.2.2.1 ∧ Sim s.2.2.2 t.2.2.2 ∧ s.1 < 5 ∧ s.2.1 < 5

/-- Relation between the LFSR register and state of a round in the two views. -/
def SimRound (s t : Nat × List Nat) : Prop := s.1 = t.1 ∧ Sim s.2 t.2

/-- Lane view of `readLane`. -/
def readL (L : List Nat) (x y : Nat) : Nat := L.getD (laneIndex x y) 0

/-- Lane view of `writeLane`. -/
def writeL (L : List Nat) (x y lane : Nat) : List Nat := L.set (laneIndex x y) (lane % 2 ^ 64)

/-- Lane view of `XORLane`. -/
def xorL (L : List Nat) (x y lane : Nat) : List Nat :=
  L.set (laneIndex x y) (L.getD (laneIndex x y) 0 ^^^ (lane % 2 ^ 64))

/-- Lane view of `theta`. -/
def thetaL (L : List Nat) : List Nat :=
  let C := (List.range 5).map (fun x =>
    readL L x 0 ^^^ readL L x 1 ^^^ readL L x 2 ^^^ readL L x 3 ^^^ readL L x 4)
  (List.range 5).foldl (fun L x =>
    let D := C.getD ((x + 4) % 5) 0 ^^^ ROL64 (C.getD ((x + 1) % 5) 0) 1
    (List.range 5).foldl (fun L y => xorL L x y D) L) L

/-- Lane view of `rhoPiStep`. -/
def rhoPiStepL (s : Nat × Nat × Nat × List Nat) (t : Nat) : Nat × Nat × Nat × List Nat :=
  let (x, y, current, L) := s
  let r := ((t + 1) * (t + 2) / 2) % 64
  let Y := (2 * x + 3 * y) % 5
  let x := y
  let y := Y
  let temp := readL L x y
  let L := writeL L x y (ROL64 current r)
  (x, y, temp, L)

/-- Lane view of `rhoPi`. -/
def rhoPiL (L : List Nat) : List Nat :=
  ((List.range 24).foldl rhoPiStepL (1, 0, readL L 1 0, L)).2.2.2

/-- Lane view of `chi`. -/
def chiL (L : List Nat) : List Nat :=
  (List.range 5).foldl (fun L y =>
    let temp := (List.range 5).map (fun x => readL L x y)
    (List.range 5).foldl (fun L x =>
      writeL L x y
        (temp.getD x 0 ^^^ ((2 ^ 64 - 1 - temp.getD ((x + 1) % 5) 0) &&& temp.getD ((x + 2) % 5) 0)))
      L) L

/-- Lane view of `iota`. -/
def iotaL (s : Nat × List Nat) : Nat × List Nat :=
  (List.range 7).foldl (fun (s : Nat × List Nat) j =>
    let bitPosition := (1 <<< j) - 1
    let (result, LFSRstate) := LFSR86540 s.1
    if result ≠ 0 then
      (LFSRstate, xorL s.2 0 0 ((1 <<< bitPosition) % 2 ^ 64))
    else
      (LFSRstate, s.2)) s

/-- Lane view of `keccakRound`. -/
def keccakRoundL (s : Nat × List Nat) : Nat × List Nat :=
  iotaL (s.1, chiL (rhoPiL (thetaL s.2)))

/-- Lane view of `KeccakF1600_rounds`. -/
def roundsL (s : Nat × List Nat) : Nat × List Nat :=
  (List.range 24).foldl (fun s _ => keccakRoundL s) s

/-- Lane view of `KeccakF1600_StatePermute`. -/
def permuteL (L : List Nat) : List Nat :=
  roundState (roundsL (0x01, L))

end SHA3

namespace SHA3

instance (L : List Nat) : Decidable (Lanes L) := by
  unfold Lanes; infer_instance

/-- The bytes that the squeezing loop of `Keccak` copies out, in order, when it is run for
at most `fuel` iterations from the given state with `outputByteLen` bytes still to produce. -/
def squeezeBytes (rateInBytes : Nat) : Nat → List Nat → Nat → List Nat
  | 0, _, _ => []
  | fuel + 1, state, outputByteLen =>
    if outputByteLen > 0 then
      (List.range (min outputByteLen rateInBytes)).map (fun i => state.getD i 0) ++
        (if outputByteLen - min outputByteLen rateInBytes > 0 then
          squeezeBytes rateInBytes fuel (KeccakF1600_StatePermute state)
            (outputByteLen - min outputByteLen rateInBytes)
        else [])
    else []

/-- The 200 bytes of the Keccak-f[1600] image of the all-zero state, as published with the
Keccak reference (lanes `F1258F7940E1DDE7`, `84D5CCF933C0478A`, ... stored least significant
byte first). -/
def zeroStateImage : List Nat :=
  [0xE7, 0xDD, 0xE1, 0x40, 0x79, 0x8F, 0x25, 0xF1, 0x8A, 0x47, 0xC0, 0x33, 0xF9, 0xCC, 0xD5, 0x84,
   0xEE, 0xA9, 0x5A, 0xA6, 0x1E, 0x26, 0x98, 0xD5, 0x4D, 0x49, 0x80, 0x6F, 0x30, 0x47, 0x15, 0xBD,
   0x57, 0xD0, 0x53, 0x62, 0x05, 0x4E, 0x28, 0x8B, 0xD4, 0x6F, 0x8E, 0x7F, 0x2D, 0xA4, 0x97, 0xFF,
   0xC4, 0x47, 0x46, 0xA4, 0xA0, 0xE5, 0xFE, 0x90, 0x76, 0x2E, 0x19, 0xD6, 0x0C, 0xDA, 0x5B, 0x8C,
   0x9C, 0x05, 0x19, 0x1B, 0xF7, 0xA6, 0x30, 0xAD, 0x64, 0xFC, 0x8F, 0xD0, 0xB7, 0x5A, 0x93, 0x30,
   0x35, 0xD6, 0x17, 0x23, 0x3F, 0xA9, 0x5A, 0xEB, 0x03, 0x21, 0x71, 0x0D, 0x26, 0xE6, 0xA6, 0xA9,
   0x5F, 0x55, 0xCF, 0xDB, 0x16, 0x7C, 0xA5, 0x81, 0x26, 0xC8, 0x47, 0x03, 0xCD, 0x31, 0xB8, 0x43,
   0x9F, 0x56, 0xA5, 0x11, 0x1A, 0x2F, 0xF2, 0x01, 0x61, 0xAE, 0xD9, 0x21, 0x5A, 0x63, 0xE5, 0x05,
   0xF2, 0x70, 0xC9, 0x8C, 0xF2, 0xFE, 0xBE, 0x64, 0x11, 0x66, 0xC4, 0x7B, 0x95, 0x70, 0x36, 0x61,
   0xCB, 0x0E, 0xD0, 0x4F, 0x55, 0x5A, 0x7C, 0xB8, 0xC8, 0x32, 0xCF, 0x1C, 0x8A, 0xE8, 0x3E, 0x8C,
   0x14, 0x26, 0x3A, 0xAE, 0x22, 0x79, 0x0C, 0x94, 0xE4, 0x09, 0xC5, 0xA2, 0x24, 0xF9, 0x41, 0x18,
   0xC2, 0x65, 0x04, 0xE7, 0x26, 0x35, 0xF5, 0x16, 0x3B, 0xA1, 0x30, 0x7F, 0xE9, 0x44, 0xF6, 0x75,
   0x49, 0xA2, 0xEC, 0x5C, 0x7B, 0xFF, 0xF1, 0xEA]

/-- The FIPS-202 digest SHA3-256("abc"):
`3a985da74fe225b2045c172d6bd390bd855f086e3e9d525b46bfe24511431532`. -/
def sha3_256_abc : List Nat :=
  [0x3a, 0x98, 0x5d, 0xa7, 0x4f, 0xe2, 0x25, 0xb2, 0x04, 0x5c, 0x17, 0x2d, 0x6b, 0xd3, 0x90, 0xbd,
   0x85, 0x5f, 0x08, 0x6e, 0x3e, 0x9d, 0x52, 0x5b, 0x46, 0xbf, 0xe2, 0x45, 0x11, 0x43, 0x15, 0x32]

/-- The 25 lanes of `zeroStateImage`. -/
def zeroImageLanes : List Nat :=
  [0xF1258F7940E1DDE7, 0x84D5CCF933C0478A, 0xD598261EA65AA9EE, 0xBD1547306F80494D,
   0x8B284E056253D057, 0xFF97A42D7F8E6FD4, 0x90FEE5A0A44647C4, 0x8C5BDA0CD6192E76,
   0xAD30A6F71B19059C, 0x30935AB7D08FFC64, 0xEB5AA93F2317D635, 0xA9A6E6260D712103,
   0x81A57C16DBCF555F, 0x43B831CD0347C826, 0x01F22F1A11A5569F, 0x05E5635A21D9AE61,
   0x64BEFEF28CC970F2, 0x613670957BC46611, 0xB87C5A554FD00ECB, 0x8C3EE88A1CCF32C8,
   0x940C7922AE3A2614, 0x1841F924A2C509E4, 0x16F53526E70465C2, 0x75F644E97F30A13B,
   0xEAF1FF7B5CECA249]

/-- The lanes of the state of SHA3-256 for the message "abc" after absorbing and padding:
the bytes `61 62 63 06` at offsets 0..3 and `80` at offset 135. -/
def abcLanes : List Nat :=
  [0x06636261, 0, 0, 0, 0, 0, 0, 0, 0, 0, 0, 0, 0, 0, 0, 0, 0x8000000000000000, 0, 0, 0, 0, 0,
   0, 0, 0]

/-- The 25 lanes of the Keccak-f[1600] image of `abcLanes`. -/
def abcImageLanes : List Nat :=
  [0xB225E24FA75D983A, 0xBD90D36B2D175C04, 0x5B529D3E6E085F85, 0x3215431145E2BF46,
   0xF81092FB22F636D1, 0x2097C8AAD6603E27, 0x31F2C561623FB1F7, 0x8FDF74F3F204DF9C,
   0x9F5E838DB186C4AC, 0xA80A1C04BC11BAA2, 0xBF130581A54EF742, 0x3092FCCECDA9F8BF,
   0x1A8B8B2A4AF00862, 0x60C4CC90D90CA705, 0x1F24793254851E4E, 0x631239DCA84621EF,
   0x4B3F7866395FE1BD, 0x30BEF91BFFC67D8A, 0xD272513DD6DD06C9, 0x25A3AF600AECB585,
   0x5FC53E5CB938BEC8, 0x02FC22DCACBC3CC1, 0x668094928C4B6CC3, 0xD5C25129AE161A7D,
   0xB5D89C9E96E91041]

/-- The lanes of the state of `Keccak` with `rate = 1000` for the message "abc" and suffix
`0x06` after absorbing and padding: the bytes `61 62 63 06` at offsets 0..3 and `80` at
offset 124. -/
def abcLanes1000 : List Nat :=
  [0x06636261, 0, 0, 0, 0, 0, 0, 0, 0, 0, 0, 0, 0, 0, 0, 0x0000008000000000, 0, 0, 0, 0, 0, 0,
   0, 0, 0]

/-- The 25 lanes of the Keccak-f[1600] image of `abcLanes1000`. -/
def abcImageLanes1000 : List Nat :=
  [0xC8182B47B027BFC9, 0xA54F03B110CAFDDC, 0x052D8CA673E5E032, 0xA0C0C590E6205051,
   0xDA2F3CDBD95EA4CA, 0x8BCDBDE6ECF76BCE, 0xEC7B9E0ED912F6DE, 0xE4D5C4CCFF1170C4,
   0x167796A4ECD59775, 0xB149ADA12A78915E, 0x3C1BB9284B5BD557, 0x8C4D6FFF69015170,
   0xD8A98AFB9F769616, 0x31FD7630C635F65C, 0x01631AE00A567DE3, 0x8863DE31448B1226,
   0xA4944D46C939310F, 0x80D9FE5286604575, 0xB345708E9E13EDFC, 0x38C7A22DCFC5C470,
   0x06C6936B1DC0A0B7, 0xEEC6D395320D6B31, 0x91B5F9DA0EFF5D67, 0xB6D2606517D9E624,
   0x37A18C264D72374F]

end SHA3

/-! ## AES-128: the FIPS-197 reference definitions and auxiliary definitions -/

namespace AES128

/-- Product of two polynomials over GF(2), each given by the bits of a byte (no carries). -/
def clmul (a b : Nat) : Nat :=
  (List.range 8).foldl (fun acc i => if b.testBit i then acc ^^^ (a <<< i) else acc) 0

/-- Remainder of a polynomial of degree at most 14 modulo `x^8 + x^4 + x^3 + x + 1`, which
is `0x11B`: the terms of degree 14 down to 8 are cancelled in turn. -/
def polyReduce (p : Nat) : Nat :=
  [6, 5, 4, 3, 2, 1, 0].foldl (fun p k =>
    if p.testBit (8 + k) then p ^^^ (0x11B <<< k) else p) p

/-- Multiplication in GF(2^8) as FIPS-197 defines it: the polynomial product reduced modulo
`0x11B`. -/
def gfMul (a b : Nat) : Nat := polyReduce (clmul a b)

/-- The 9-bit value `2 * v` reduced by `0x11B`. -/
def reduce9 (v : Nat) : Nat := if 256 ≤ 2 * v then (2 * v) ^^^ 0x11B else 2 * v

/-- The byte that `Generate_Key` stores at index `j` of the schedule, as a function of the
selected key and of the bytes of the schedule below `j`. -/
def schedByte (key kg : List Nat) (j : Nat) : Nat :=
  if j < 16 then key.getD j 0
  else if j % 16 = 0 then
    S_Box.getD (kg.getD (j - 3) 0) 0 ^^^ kg.getD (j - 16) 0 ^^^ R_Con.getD (j / 16) 0
  else if j % 16 < 3 then S_Box.getD (kg.getD (j - 3) 0) 0 ^^^ kg.getD (j - 16) 0
  else if j % 16 = 3 then S_Box.getD (kg.getD (j - 7) 0) 0 ^^^ kg.getD (j - 16) 0
  else kg.getD (j - 16) 0 ^^^ kg.getD (j - 4) 0

/-- Every byte of `kg` below `n` is the one `E` gives from `kg`. -/
def Filled (E : List Nat → Nat → Nat) (n : Nat) (kg : List Nat) : Prop :=
  ∀ j < n, kg.getD j 0 = E kg j

/-- Word `i` of a byte string viewed as four-byte words (FIPS-197 `w[i]`). -/
def word (w : List Nat) (i : Nat) : List Nat :=
  [w.getD (4 * i) 0, w.getD (4 * i + 1) 0, w.getD (4 * i + 2) 0, w.getD (4 * i + 3) 0]

/-- FIPS-197 `RotWord`: `[a0, a1, a2, a3]` becomes `[a1, a2, a3, a0]`. -/
def RotWord (w : List Nat) : List Nat := [w.getD 1 0, w.getD 2 0, w.getD 3 0, w.getD 0 0]

/-- FIPS-197 `SubWord`: the S-box applied to each byte of a word. -/
def SubWord (w : List Nat) : List Nat := w.map (fun b => S_Box.getD b 0)

/-- Bytewise XOR of two words. -/
def xorWord (a b : List Nat) : List Nat := List.zipWith (fun p q => p ^^^ q) a b

/-- The FIPS-197 round constants `Rcon[1..10]` (first byte of the constant word). -/
def Rcon : Nat → Nat
  | 1 => 0x01
  | 2 => 0x02
  | 3 => 0x04
  | 4 => 0x08
  | 5 => 0x10
  | 6 => 0x20
  | 7 => 0x40
  | 8 => 0x80
  | 9 => 0x1b
  | 10 => 0x36
  | _ => 0

/-- The rule of the spec for the first word of round key `r`: the byte-rotated, substituted
last word of round key `r - 1`, XORed with the first word of the round key `back` rounds
back and with `R_Con[r]` in its first byte. -/
def firstWordRule (w : List Nat) (r back : Nat) : List Nat :=
  xorWord (xorWord (SubWord (RotWord (word w (4 * r - 1)))) (word w (4 * (r - back))))
    [R_Con.getD r 0, 0, 0, 0]

/-- FIPS-197 `KeyExpansion` for AES-128 (`Nk = 4`, 44 words), following the pseudo code of
the standard: the words are kept as a byte string that starts as the key and grows by one
word per step `i = 4 .. 43`. -/
def KeyExpansion (key : List Nat) : List Nat :=
  (List.range' 4 40).foldl (fun w i =>
    let temp := word w (i - 1)
    let temp :=
      if i % 4 = 0 then xorWord (SubWord (RotWord temp)) [Rcon (i / 4), 0, 0, 0] else temp
    w ++ xorWord (word w (i - 4)) temp) key

/-- Round key `r` of a schedule: its bytes `16 r .. 16 r + 15`. -/
def roundKey (w : List Nat) (r : Nat) : List Nat :=
  (List.range 16).map (fun x => w.getD (16 * r + x) 0)

/-- FIPS-197 `AddRoundKey`: bytewise XOR of the state with a round key. -/
def AddRoundKey (state rk : List Nat) : List Nat := List.zipWith (fun p q => p ^^^ q) state rk

/-- FIPS-197 `SubBytes`: the S-box applied to every byte of the state. -/
def SubBytes (state : List Nat) : List Nat := state.map (fun b => S_Box.getD b 0)

/-- FIPS-197 `ShiftRows` on the column-major 4x4 state (byte `4 c + k` is row `k`, column
`c`): row `k` is rotated left by `k` positions. -/
def ShiftRows (state : List Nat) : List Nat :=
  (List.range 16).map (fun n => state.getD (4 * ((n / 4 + n % 4) % 4) + n % 4) 0)

/-- FIPS-197 `MixColumns`: each column is multiplied by the matrix with rows
`2 3 1 1`, `1 2 3 1`, `1 1 2 3`, `3 1 1 2` over GF(2^8). -/
def MixColumns (state : List Nat) : List Nat :=
  (List.range 16).map (fun n =>
    gfMul 2 (state.getD (4 * (n / 4) + n % 4) 0)
      ^^^ gfMul 3 (state.getD (4 * (n / 4) + (n % 4 + 1) % 4) 0)
      ^^^ state.getD (4 * (n / 4) + (n % 4 + 2) % 4) 0
      ^^^ state.getD (4 * (n / 4) + (n % 4 + 3) % 4) 0)

/-- FIPS-197 `Cipher` for AES-128 built from the separate steps, on the schedule `w`. -/
def Cipher (input w : List Nat) : List Nat :=
  let state := AddRoundKey input (roundKey w 0)
  let state := [1, 2, 3, 4, 5, 6, 7, 8, 9].foldl (fun state r =>
    AddRoundKey (MixColumns (ShiftRows (SubBytes state))) (roundKey w r)) state
  AddRoundKey (ShiftRows (SubBytes state)) (roundKey w 10)

/-- Decryption as the spec describes it, for a list of round indices `rounds`: AddRoundKey
with round key 10, the fused inverse final round, then for each round of the list, in
order, the inverse diffusion (doubling pre-step and `mix_column`) followed by the fused
inverse step with that round's key. -/
def decipher_by_rounds (KeyGen P : List Nat) (rounds : List Nat) : List Nat :=
  let state := AddRoundKey P (roundKey KeyGen 10)
  let state := inv_add_S_Box_and_shift KeyGen state 9
  rounds.foldl (fun state t =>
    inv_add_S_Box_and_shift KeyGen (mix_column (inv_mix_prestep state)) t) state

end AES128

/-! ## Keccak: round constants, lanes of a byte state, coordinates of rho and pi -/

namespace SHA3

/-- The LFSR register after `n` calls of `LFSR86540`, starting from `LFSRstate`. -/
def LFSRsteps (n : Nat) (LFSRstate : Nat) : Nat :=
  (List.range n).foldl (fun l _ => (LFSR86540 l).2) LFSRstate

/-- The iota loop of one round on the LFSR register alone: the register after the seven
calls, and the XOR of the values `1 << bitPosition` that the loop XORs into lane (0,0). -/
def iotaMask (LFSRstate : Nat) : Nat × Nat :=
  (List.range 7).foldl (fun (s : Nat × Nat) j =>
    let bitPosition := (1 <<< j) - 1
    let (result, LFSRstate) := LFSR86540 s.1
    if result ≠ 0 then (LFSRstate, s.2 ^^^ ((1 <<< bitPosition) % 2 ^ 64))
    else (LFSRstate, s.2)) (LFSRstate, 0)

/-- The round constants `RC[0..23]` of FIPS-202. -/
def RC : List Nat :=
  [0x1, 0x8082, 0x800000000000808a,
   0x8000000080008000, 0x808b, 0x80000001,
   0x8000000080008081, 0x8000000000008009, 0x8a,
   0x88, 0x80008009, 0x8000000a,
   0x8000808b, 0x800000000000008b, 0x8000000000008089,
   0x8000000000008003, 0x8000000000008002, 0x8000000000000080,
   0x800a, 0x800000008000000a, 0x8000000080008081,
   0x8000000000008080, 0x80000001, 0x8000000080008008]

/-- The lane of eight bytes of `S` from offset `off`, least significant byte first. -/
def laneOfBytes (S : List Nat) (off : Nat) : Nat :=
  S.getD off 0 + 256 * (S.getD (off + 1) 0 + 256 * (S.getD (off + 2) 0
    + 256 * (S.getD (off + 3) 0 + 256 * (S.getD (off + 4) 0 + 256 * (S.getD (off + 5) 0
    + 256 * (S.getD (off + 6) 0 + 256 * S.getD (off + 7) 0))))))

/-- The 25 lanes of a 200-byte state. -/
def lanesOfBytes (S : List Nat) : List Nat :=
  (List.range 25).map (fun k => laneOfBytes S (8 * k))

/-- The move of the rho and pi loop on the coordinates: `(x, y)` becomes
`(y, (2 x + 3 y) mod 5)`. -/
def piMove (p : Nat × Nat) : Nat × Nat := (p.2, (2 * p.1 + 3 * p.2) % 5)

/-- The `t`-th coordinate that the rho and pi loop visits, starting from `(1, 0)`. -/
def rhoPiCoord : Nat → Nat × Nat
  | 0 => (1, 0)
  | t + 1 => piMove (rhoPiCoord t)

end SHA3

namespace SHA3

/-- The rotation offset `r` of iteration `t` of the rho and pi loop. -/
def rhoOffset (t : Nat) : Nat := ((t + 1) * (t + 2) / 2) % 64

end SHA3

namespace SHA3

/-- Sponge absorption of whole blocks: the first `k` blocks of `r` bytes of the message are
XORed into the state in turn, each followed by the permutation. -/
def absorbBlocks (r : Nat) (msg : List Nat) (k : Nat) (state : List Nat) : List Nat :=
  (List.range k).foldl (fun state i =>
    KeccakF1600_StatePermute (Keccak_xorBlock state (msg.drop (i * r)) r)) state

end SHA3

/-! ## AES-128: auxiliary lemmas -/

namespace AES128

theorem getD_set_eq (l : List Nat) (i j v : Nat) :
    (l.set i v).getD j 0 = if i = j ∧ i < l.length then v else l.getD j 0 := by
  simp only [List.getD_eq_getElem?_getD, List.getElem?_set]
  by_cases h : i = j
  · subst h
    by_cases h2 : i < l.length
    · simp [h2]
    · simp [h2, List.getElem?_eq_none (Nat.le_of_not_lt h2)]
  · simp [h]

theorem isBytes_set {n : Nat} {l : List Nat} (h : IsBytes n l) (i : Nat) {v : Nat}
    (hv : v < 256) : IsBytes n (l.set i v) := by
  refine ⟨by rw [List.length_set]; exact h.1, ?_⟩
  intro x hx
  rcases List.mem_or_eq_of_mem_set hx with hx | hx
  · exact h.2 x hx
  · rw [hx]; exact hv

theorem isBytes_getD {n : Nat} {l : List Nat} (h : IsBytes n l) (i : Nat) :
    l.getD i 0 < 256 := by
  rw [List.getD_eq_getElem?_getD]
  by_cases hi : i < l.length
  · rw [List.getElem?_eq_getElem hi]
    exact h.2 _ (List.getElem_mem hi)
  · rw [List.getElem?_eq_none (Nat.le_of_not_lt hi)]
    decide

theorem isBytes_foldl_set {n : Nat} (idx : Nat → Nat) (f : List Nat → Nat → Nat)
    (hf : ∀ kg x, IsBytes n kg → f kg x < 256) (xs : List Nat) :
    ∀ kg, IsBytes n kg → IsBytes n (xs.foldl (fun kg x => kg.set (idx x) (f kg x)) kg) := by
  induction xs with
  | nil => intro kg h; exact h
  | cons x xs ih =>
    intro kg h
    rw [List.foldl_cons]
    exact ih _ (isBytes_set h _ (hf kg x h))

theorem xor_lt_256 {a b : Nat} (ha : a < 256) (hb : b < 256) : a ^^^ b < 256 :=
  Nat.xor_lt_two_pow (n := 8) ha hb

theorem S_Box_all_lt : ∀ x ∈ S_Box, x < 256 := by decide

theorem R_Con_all_lt : ∀ x ∈ R_Con, x < 256 := by decide

theorem S_Box_getD_lt (x : Nat) : S_Box.getD x 0 < 256 :=
  isBytes_getD (show IsBytes 256 S_Box from ⟨by decide, S_Box_all_lt⟩) x

theorem R_Con_getD_lt (x : Nat) : R_Con.getD x 0 < 256 :=
  isBytes_getD (show IsBytes 11 R_Con from ⟨by decide, R_Con_all_lt⟩) x

theorem agree_refl_of_length {a b : List Nat} (h : a.length = b.length) : Agree 0 a b :=
  ⟨h, fun j hj => absurd hj (Nat.not_lt_zero j)⟩

theorem agree_getD {n : Nat} {a b : List Nat} (h : Agree n a b) {j : Nat} (hj : j < n) :
    a.getD j 0 = b.getD j 0 := h.2 j hj

theorem agree_set {n : Nat} {a b : List Nat} (h : Agree n a b) (v : Nat) :
    Agree (n + 1) (a.set n v) (b.set n v) := by
  refine ⟨by simp only [List.length_set]; exact h.1, ?_⟩
  intro j hj
  rw [getD_set_eq, getD_set_eq, h.1]
  by_cases hjn : n = j
  · subst hjn
    by_cases hl : n < b.length
    · rw [if_pos ⟨rfl, hl⟩, if_pos ⟨rfl, hl⟩]
    · rw [if_neg (fun c => hl c.2), if_neg (fun c => hl c.2), List.getD_eq_default,
        List.getD_eq_default]
      · exact Nat.le_of_not_lt hl
      · rw [h.1]; exact Nat.le_of_not_lt hl
  · rw [if_neg (fun c => hjn c.1), if_neg (fun c => hjn c.1)]
    exact h.2 j (by omega)

theorem agree_eq {n : Nat} {a b : List Nat} (h : Agree n a b) (hn : a.length ≤ n) : a = b := by
  apply List.ext_getElem h.1
  intro i h1 h2
  have := h.2 i (by omega)
  rw [List.getD_eq_getElem?_getD, List.getD_eq_getElem?_getD, List.getElem?_eq_getElem h1,
    List.getElem?_eq_getElem h2] at this
  simpa using this

/-- Sequential fill: a loop that stores at `base + x` for `x = s, s+1, ...` a value computed
from bytes below the store keeps two buffers in agreement. -/
theorem agree_fill (base : Nat) (f : List Nat → Nat → Nat) (s0 : Nat)
    (hf : ∀ a b x, s0 ≤ x → Agree (base + x) a b → f a x = f b x) :
    ∀ (len s : Nat) (a b : List Nat), s0 ≤ s → Agree (base + s) a b →
      Agree (base + s + len)
        ((List.range' s len).foldl (fun kg x => kg.set (base + x) (f kg x)) a)
        ((List.range' s len).foldl (fun kg x => kg.set (base + x) (f kg x)) b) := by
  intro len
  induction len with
  | zero => intro s a b _ h; simpa using h
  | succ len ih =>
    intro s a b hs h
    rw [List.range'_succ, List.foldl_cons, List.foldl_cons, hf a b s hs h]
    have h1 := agree_set h (f b s)
    have h2 := ih (s + 1) _ _ (by omega) h1
    have e : base + (s + 1) + len = base + s + (len + 1) := by omega
    rw [← e]
    exact h2

end AES128

namespace AES128

theorem Generate_Key_load_eq (keys : CryptoKeys) (kg : List Nat) (K : Nat) :
    Generate_Key_load keys kg K =
      (List.range' 0 16).foldl (fun kg x => kg.set (0 + x) ((selectedKey keys K).getD x 0)) kg := by
  have e : List.range MAX_LENGTH = List.range' 0 16 := by decide
  unfold Generate_Key_load
  rw [e]
  rcases K with _ | _ | K <;> simp only [selectedKey, Nat.zero_add]

theorem Generate_Key_load_agree (keys keys' : CryptoKeys) (K K' : Nat) (a b : List Nat)
    (hk : selectedKey keys K = selectedKey keys' K') (h : a.length = b.length) :
    Agree 16 (Generate_Key_load keys a K) (Generate_Key_load keys' b K') := by
  rw [Generate_Key_load_eq, Generate_Key_load_eq, hk]
  exact agree_fill 0 (fun _ x => (selectedKey keys' K').getD x 0) 0 (fun _ _ _ _ _ => rfl)
    16 0 a b (Nat.le_refl 0) (agree_refl_of_length h)

theorem agree_set_of_eq {n m i : Nat} {A B : List Nat} {va vb : Nat} (h : Agree n A B)
    (hv : Agree n A B → va = vb) (hi : i = n) (hm : m = n + 1) :
    Agree m (A.set i va) (B.set i vb) := by
  subst hi hm
  rw [hv h]
  exact agree_set h vb

theorem Generate_Key_round_agree {ii : Nat} (h1 : 1 ≤ ii) {a b : List Nat}
    (h : Agree (ii * 16) a b) :
    Agree (ii * 16 + 16) (Generate_Key_round a ii) (Generate_Key_round b ii) := by
  simp only [Generate_Key_round, MAX_LENGTH]
  have e : ii * 16 + 16 = ii * 16 + 4 + 12 := by omega
  rw [e]
  refine agree_fill (ii * 16) _ 4 ?_ 12 4 _ _ (Nat.le_refl 4) ?_
  · intro a b x hx hab
    rw [agree_getD hab (show (ii - 1) * 16 + x < ii * 16 + x by omega),
      agree_getD hab (show ii * 16 + (x - 4) < ii * 16 + x by omega)]
  refine agree_set_of_eq (n := ii * 16 + 3) ?_ ?_ rfl rfl
  · have e2 : ii * 16 + 3 = ii * 16 + 1 + 2 := by omega
    rw [e2]
    refine agree_fill (ii * 16) _ 1 ?_ 2 1 _ _ (Nat.le_refl 1) ?_
    · intro a b x hx hab
      rw [agree_getD hab (show ii * 16 - (3 - x) < ii * 16 + x by omega),
        agree_getD hab (show (ii - 1) * 16 + x < ii * 16 + x by omega)]
    · refine agree_set_of_eq (n := ii * 16) h ?_ rfl rfl
      intro _
      rw [agree_getD h (show ii * 16 - 3 < ii * 16 by omega),
        agree_getD h (show (ii - 1) * 16 + 0 < ii * 16 by omega)]
  · intro hAB
    rw [agree_getD h (show ii * 16 - 4 < ii * 16 by omega),
      agree_getD hAB (show (ii - 1) * 16 + 3 < ii * 16 + 3 by omega)]

theorem Generate_Key_rounds_agree :
    ∀ (len s : Nat) (a b : List Nat), 1 ≤ s → Agree (s * 16) a b →
      Agree ((s + len) * 16) ((List.range' s len).foldl Generate_Key_round a)
        ((List.range' s len).foldl Generate_Key_round b) := by
  intro len
  induction len with
  | zero => intro s a b _ h; simpa using h
  | succ len ih =>
    intro s a b hs h
    rw [List.range'_succ, List.foldl_cons, List.foldl_cons]
    have h1 := Generate_Key_round_agree hs h
    have e1 : s * 16 + 16 = (s + 1) * 16 := by omega
    rw [e1] at h1
    have h2 := ih (s + 1) _ _ (by omega) h1
    have e2 : (s + 1 + len) * 16 = (s + (len + 1)) * 16 := by omega
    rw [← e2]
    exact h2

theorem Generate_Key_eq_foldl (keys : CryptoKeys) (kg : List Nat) (K : Nat) :
    Generate_Key keys kg K =
      (List.range' 1 10).foldl Generate_Key_round (Generate_Key_load keys kg K) := rfl

theorem Generate_Key_round_length (kg : List Nat) (ii : Nat) :
    (Generate_Key_round kg ii).length = kg.length := by
  simp only [Generate_Key_round, List.foldl_cons, List.foldl_nil, List.length_set]

theorem foldl_length_eq {ι : Type} (f : List Nat → ι → List Nat)
    (hf : ∀ l x, (f l x).length = l.length) (xs : List ι) :
    ∀ l, (xs.foldl f l).length = l.length := by
  induction xs with
  | nil => intro l; rfl
  | cons x xs ih => intro l; rw [List.foldl_cons, ih, hf]

theorem Generate_Key_length (keys : CryptoKeys) (kg : List Nat) (K : Nat) :
    (Generate_Key keys kg K).length = kg.length := by
  unfold Generate_Key
  rw [foldl_length_eq _ Generate_Key_round_length, Generate_Key_load_eq,
    foldl_length_eq _ (fun l x => List.length_set l _ _)]

/-- The schedule depends only on the selected key, not on the prior contents of `KeyGen`. -/
theorem Generate_Key_congr (keys keys' : CryptoKeys) (K K' : Nat) (a b : List Nat)
    (hk : selectedKey keys K = selectedKey keys' K') (ha : a.length = 176)
    (hb : b.length = 176) :
    Generate_Key keys a K = Generate_Key keys' b K' := by
  have h0 := Generate_Key_load_agree keys keys' K K' a b hk (by rw [ha, hb])
  have h1 := Generate_Key_rounds_agree 10 1 _ _ (Nat.le_refl 1) h0
  rw [Generate_Key_eq_foldl, Generate_Key_eq_foldl]
  refine agree_eq h1 ?_
  rw [← Generate_Key_eq_foldl, Generate_Key_length, ha]

end AES128

namespace AES128

theorem selectedKey_isBytes (keys : CryptoKeys) (hk : keys.WF) (K : Nat) :
    IsBytes 16 (selectedKey keys K) := by
  rcases K with _ | _ | K
  · exact hk.1
  · exact hk.2
  · exact hk.1

theorem isBytes_set_of {n : Nat} {l : List Nat} (h : IsBytes n l) (i : Nat) {v : Nat}
    (hv : IsBytes n l → v < 256) : IsBytes n (l.set i v) := isBytes_set h i (hv h)

theorem Generate_Key_round_isBytes {n : Nat} (kg : List Nat) (ii : Nat) (h : IsBytes n kg) :
    IsBytes n (Generate_Key_round kg ii) := by
  simp only [Generate_Key_round, MAX_LENGTH]
  refine isBytes_foldl_set _ _ ?_ _ _ ?_
  · intro kg x hkg
    exact xor_lt_256 (isBytes_getD hkg _) (isBytes_getD hkg _)
  refine isBytes_set_of ?_ _ (fun hA => xor_lt_256 (S_Box_getD_lt _) (isBytes_getD hA _))
  refine isBytes_foldl_set _ _ ?_ _ _ ?_
  · intro kg x hkg
    exact xor_lt_256 (S_Box_getD_lt _) (isBytes_getD hkg _)
  · exact isBytes_set h _
      (xor_lt_256 (xor_lt_256 (S_Box_getD_lt _) (isBytes_getD h _)) (R_Con_getD_lt _))

theorem isBytes_foldl {ι : Type} {n : Nat} (f : List Nat → ι → List Nat)
    (hf : ∀ l x, IsBytes n l → IsBytes n (f l x)) (xs : List ι) :
    ∀ l, IsBytes n l → IsBytes n (xs.foldl f l) := by
  induction xs with
  | nil => intro l h; exact h
  | cons x xs ih => intro l h; rw [List.foldl_cons]; exact ih _ (hf l x h)

theorem Generate_Key_isBytes (keys : CryptoKeys) (hk : keys.WF) (kg : List Nat) (K : Nat)
    (h : IsBytes 176 kg) : IsBytes 176 (Generate_Key keys kg K) := by
  unfold Generate_Key
  refine isBytes_foldl _ (fun l x hl => Generate_Key_round_isBytes l x hl) _ _ ?_
  rw [Generate_Key_load_eq]
  exact isBytes_foldl_set _ _ (fun _ x _ => isBytes_getD (selectedKey_isBytes keys hk K) x) _ _ h

theorem exists_of_length_16 (pd : List Nat) (h : pd.length = 16) :
    ∃ a0 a1 a2 a3 a4 a5 a6 a7 a8 a9 a10 a11 a12 a13 a14 a15,
      pd = [a0, a1, a2, a3, a4, a5, a6, a7, a8, a9, a10, a11, a12, a13, a14, a15] := by
  match pd, h with
  | [a0, a1, a2, a3, a4, a5, a6, a7, a8, a9, a10, a11, a12, a13, a14, a15], _ =>
    exact ⟨a0, a1, a2, a3, a4, a5, a6, a7, a8, a9, a10, a11, a12, a13, a14, a15, rfl⟩

theorem inv_S_Box_S_Box : ∀ x < 256, inv_S_Box.getD (S_Box.getD x 0) 0 = x := by decide!

theorem sub_inv {a k : Nat} (ha : a < 256) (hk : k < 256) :
    inv_S_Box.getD (S_Box.getD (a ^^^ k) 0) 0 ^^^ k = a := by
  rw [inv_S_Box_S_Box _ (xor_lt_256 ha hk), Nat.xor_cancel_right]

theorem inv_add_add (kg pd : List Nat) (t : Nat) (hpd : IsBytes 16 pd)
    (hkg : ∀ i, kg.getD i 0 < 256) :
    inv_add_S_Box_and_shift kg (add_S_Box_and_shift kg pd t) t = pd := by
  obtain ⟨hl, hb⟩ := hpd
  obtain ⟨a0, a1, a2, a3, a4, a5, a6, a7, a8, a9, a10, a11, a12, a13, a14, a15, rfl⟩ :=
    exists_of_length_16 pd hl
  simp only [List.mem_cons, List.mem_singleton, forall_eq_or_imp, forall_eq, List.not_mem_nil,
    IsEmpty.forall_iff, implies_true, and_true] at hb
  obtain ⟨h0, h1, h2, h3, h4, h5, h6, h7, h8, h9, h10, h11, h12, h13, h14, h15⟩ := hb
  simp only [add_S_Box_and_shift, inv_add_S_Box_and_shift, List.foldl_cons, List.foldl_nil,
    List.set_cons_zero, List.set_cons_succ, List.getD_cons_zero, List.getD_cons_succ, MAX_LENGTH,
    Nat.add_zero, Nat.add_assoc, Nat.reduceAdd]
  rw [show t * 16 + 7 - 4 = t * 16 + 3 by omega, show t * 16 + 11 - 4 = t * 16 + 7 by omega,
    show t * 16 + 15 - 4 = t * 16 + 11 by omega]
  simp only [sub_inv, hkg, h0, h1, h2, h3, h4, h5, h6, h7, h8, h9, h10, h11, h12, h13, h14, h15]

theorem add_S_Box_and_shift_isBytes (kg pd : List Nat) (t : Nat) (h : pd.length = 16) :
    IsBytes 16 (add_S_Box_and_shift kg pd t) := by
  obtain ⟨a0, a1, a2, a3, a4, a5, a6, a7, a8, a9, a10, a11, a12, a13, a14, a15, rfl⟩ :=
    exists_of_length_16 pd h
  simp only [add_S_Box_and_shift, List.foldl_cons, List.foldl_nil,
    List.set_cons_zero, List.set_cons_succ, List.getD_cons_zero, List.getD_cons_succ]
  simp only [IsBytes, List.length_cons, List.length_nil, List.mem_cons, List.mem_singleton,
    forall_eq_or_imp, forall_eq, List.not_mem_nil, IsEmpty.forall_iff, implies_true, and_true,
    S_Box_getD_lt, Nat.reduceAdd]

end AES128

namespace AES128

theorem and_two_pow_eq (v n : Nat) : v &&& 2 ^ n = if v.testBit n then 2 ^ n else 0 := by
  apply Nat.eq_of_testBit_eq
  intro i
  rw [Nat.testBit_and, Nat.testBit_two_pow]
  by_cases h : n = i
  · subst h
    cases hv : v.testBit n <;> simp [Nat.testBit_two_pow]
  · cases hv : v.testBit n <;> simp [h, Nat.testBit_two_pow]

theorem G_Multiply_eq (v : Nat) :
    G_Multiply v = ((v <<< 1) % 256) ^^^ (if v.testBit 7 then 0x1b else 0) := by
  unfold G_Multiply
  have h := and_two_pow_eq v 7
  rw [show (0x80 : Nat) = 2 ^ 7 from rfl, h]
  cases v.testBit 7 <;> simp

theorem shl1_xor (p q : Nat) :
    ((p ^^^ q) <<< 1) % 256 = ((p <<< 1) % 256) ^^^ ((q <<< 1) % 256) := by
  apply Nat.eq_of_testBit_eq
  intro i
  simp only [show (256 : Nat) = 2 ^ 8 from rfl, Nat.testBit_mod_two_pow, Nat.testBit_xor,
    Nat.testBit_shiftLeft]
  cases decide (i < 8) <;> cases decide (i ≥ 1) <;> simp

theorem xor_left_comm (a b c : Nat) : a ^^^ (b ^^^ c) = b ^^^ (a ^^^ c) := by
  rw [← Nat.xor_assoc, ← Nat.xor_assoc, Nat.xor_comm a b]

/-- Doubling in GF(2^8) is linear over XOR. -/
theorem G_Multiply_xor (p q : Nat) : G_Multiply (p ^^^ q) = G_Multiply p ^^^ G_Multiply q := by
  simp only [G_Multiply_eq, shl1_xor, Nat.testBit_xor]
  cases p.testBit 7 <;> cases q.testBit 7 <;>
    simp [Nat.xor_assoc, Nat.xor_comm, xor_left_comm, Nat.xor_cancel_left]

theorem G_Multiply_lt (v : Nat) : G_Multiply v < 256 := by
  unfold G_Multiply
  split
  · exact xor_lt_256 (Nat.mod_lt _ (by decide)) (by decide)
  · exact Nat.mod_lt _ (by decide)

theorem inv_mix_prestep_explicit (a0 a1 a2 a3 a4 a5 a6 a7 a8 a9 a10 a11 a12 a13 a14 a15 : Nat) :
    inv_mix_prestep [a0, a1, a2, a3, a4, a5, a6, a7, a8, a9, a10, a11, a12, a13, a14, a15] =
      [a0 ^^^ dbl2 a0 a2, a1 ^^^ dbl2 a1 a3, a2 ^^^ dbl2 a0 a2, a3 ^^^ dbl2 a1 a3,
       a4 ^^^ dbl2 a4 a6, a5 ^^^ dbl2 a5 a7, a6 ^^^ dbl2 a4 a6, a7 ^^^ dbl2 a5 a7,
       a8 ^^^ dbl2 a8 a10, a9 ^^^ dbl2 a9 a11, a10 ^^^ dbl2 a8 a10, a11 ^^^ dbl2 a9 a11,
       a12 ^^^ dbl2 a12 a14, a13 ^^^ dbl2 a13 a15, a14 ^^^ dbl2 a12 a14, a15 ^^^ dbl2 a13 a15] := by
  simp only [inv_mix_prestep, dbl2, List.foldl_cons, List.foldl_nil,
    List.set_cons_zero, List.set_cons_succ, List.getD_cons_zero, List.getD_cons_succ,
    Nat.add_zero, Nat.zero_add, Nat.reduceAdd]

theorem mix_column_explicit (a0 a1 a2 a3 a4 a5 a6 a7 a8 a9 a10 a11 a12 a13 a14 a15 : Nat) :
    mix_column [a0, a1, a2, a3, a4, a5, a6, a7, a8, a9, a10, a11, a12, a13, a14, a15] =
      [mixByte a0 a1 (a0 ^^^ a1 ^^^ a2 ^^^ a3), mixByte a1 a2 (a0 ^^^ a1 ^^^ a2 ^^^ a3),
       mixByte a2 a3 (a0 ^^^ a1 ^^^ a2 ^^^ a3), mixByte a3 a0 (a0 ^^^ a1 ^^^ a2 ^^^ a3),
       mixByte a4 a5 (a4 ^^^ a5 ^^^ a6 ^^^ a7), mixByte a5 a6 (a4 ^^^ a5 ^^^ a6 ^^^ a7),
       mixByte a6 a7 (a4 ^^^ a5 ^^^ a6 ^^^ a7), mixByte a7 a4 (a4 ^^^ a5 ^^^ a6 ^^^ a7),
       mixByte a8 a9 (a8 ^^^ a9 ^^^ a10 ^^^ a11), mixByte a9 a10 (a8 ^^^ a9 ^^^ a10 ^^^ a11),
       mixByte a10 a11 (a8 ^^^ a9 ^^^ a10 ^^^ a11), mixByte a11 a8 (a8 ^^^ a9 ^^^ a10 ^^^ a11),
       mixByte a12 a13 (a12 ^^^ a13 ^^^ a14 ^^^ a15), mixByte a13 a14 (a12 ^^^ a13 ^^^ a14 ^^^ a15),
       mixByte a14 a15 (a12 ^^^ a13 ^^^ a14 ^^^ a15), mixByte a15 a12 (a12 ^^^ a13 ^^^ a14 ^^^ a15)] := by
  simp only [mix_column, mix_column_step, mixByte, List.foldl_cons, List.foldl_nil,
    List.set_cons_zero, List.set_cons_succ, List.getD_cons_zero, List.getD_cons_succ,
    Nat.add_zero, Nat.zero_add, Nat.reduceAdd]

theorem xor_pairs_cancel (p q r w u v : Nat) :
    (p ^^^ u) ^^^ (q ^^^ v) ^^^ (r ^^^ u) ^^^ (w ^^^ v) = p ^^^ q ^^^ r ^^^ w := by
  simp only [Nat.xor_assoc, Nat.xor_comm, xor_left_comm, Nat.xor_self, Nat.xor_zero,
    Nat.xor_cancel_left]

theorem mix_xor_02 (a b c d : Nat) :
    mixByte a b (a ^^^ b ^^^ c ^^^ d) ^^^ mixByte c d (a ^^^ b ^^^ c ^^^ d)
      = a ^^^ c ^^^ G_Multiply (a ^^^ b ^^^ c ^^^ d) := by
  simp only [mixByte, G_Multiply_xor, Nat.xor_assoc]
  simp only [Nat.xor_comm, xor_left_comm, Nat.xor_self, Nat.xor_zero, Nat.xor_cancel_left]

theorem mix_xor_13 (a b c d : Nat) :
    mixByte b c (a ^^^ b ^^^ c ^^^ d) ^^^ mixByte d a (a ^^^ b ^^^ c ^^^ d)
      = b ^^^ d ^^^ G_Multiply (a ^^^ b ^^^ c ^^^ d) := by
  simp only [mixByte, G_Multiply_xor, Nat.xor_assoc]
  simp only [Nat.xor_comm, xor_left_comm, Nat.xor_self, Nat.xor_zero, Nat.xor_cancel_left]

theorem mix_xor_all (a b c d : Nat) :
    mixByte a b (a ^^^ b ^^^ c ^^^ d) ^^^ mixByte b c (a ^^^ b ^^^ c ^^^ d)
      ^^^ mixByte c d (a ^^^ b ^^^ c ^^^ d) ^^^ mixByte d a (a ^^^ b ^^^ c ^^^ d)
      = a ^^^ b ^^^ c ^^^ d := by
  simp only [mixByte, G_Multiply_xor, Nat.xor_assoc]
  simp only [Nat.xor_comm, xor_left_comm, Nat.xor_self, Nat.xor_zero, Nat.xor_cancel_left]

theorem inv_mix_col0 (a b c d : Nat) :
    mixByte
      (mixByte a b (a ^^^ b ^^^ c ^^^ d) ^^^ dbl2 (mixByte a b (a ^^^ b ^^^ c ^^^ d)) (mixByte c d (a ^^^ b ^^^ c ^^^ d)))
      (mixByte b c (a ^^^ b ^^^ c ^^^ d) ^^^ dbl2 (mixByte b c (a ^^^ b ^^^ c ^^^ d)) (mixByte d a (a ^^^ b ^^^ c ^^^ d)))
      ((mixByte a b (a ^^^ b ^^^ c ^^^ d) ^^^ dbl2 (mixByte a b (a ^^^ b ^^^ c ^^^ d)) (mixByte c d (a ^^^ b ^^^ c ^^^ d))) ^^^
       (mixByte b c (a ^^^ b ^^^ c ^^^ d) ^^^ dbl2 (mixByte b c (a ^^^ b ^^^ c ^^^ d)) (mixByte d a (a ^^^ b ^^^ c ^^^ d))) ^^^
       (mixByte c d (a ^^^ b ^^^ c ^^^ d) ^^^ dbl2 (mixByte a b (a ^^^ b ^^^ c ^^^ d)) (mixByte c d (a ^^^ b ^^^ c ^^^ d))) ^^^
       (mixByte d a (a ^^^ b ^^^ c ^^^ d) ^^^ dbl2 (mixByte b c (a ^^^ b ^^^ c ^^^ d)) (mixByte d a (a ^^^ b ^^^ c ^^^ d)))) = a := by
  rw [xor_pairs_cancel, mix_xor_all]
  simp only [dbl2]
  rw [mix_xor_02, mix_xor_13]
  simp only [mixByte, G_Multiply_xor, Nat.xor_assoc]
  simp only [Nat.xor_comm, xor_left_comm, Nat.xor_self, Nat.xor_zero, Nat.xor_cancel_left]

theorem inv_mix_col1 (a b c d : Nat) :
    mixByte
      (mixByte b c (a ^^^ b ^^^ c ^^^ d) ^^^ dbl2 (mixByte b c (a ^^^ b ^^^ c ^^^ d)) (mixByte d a (a ^^^ b ^^^ c ^^^ d)))
      (mixByte c d (a ^^^ b ^^^ c ^^^ d) ^^^ dbl2 (mixByte a b (a ^^^ b ^^^ c ^^^ d)) (mixByte c d (a ^^^ b ^^^ c ^^^ d)))
      ((mixByte a b (a ^^^ b ^^^ c ^^^ d) ^^^ dbl2 (mixByte a b (a ^^^ b ^^^ c ^^^ d)) (mixByte c d (a ^^^ b ^^^ c ^^^ d))) ^^^
       (mixByte b c (a ^^^ b ^^^ c ^^^ d) ^^^ dbl2 (mixByte b c (a ^^^ b ^^^ c ^^^ d)) (mixByte d a (a ^^^ b ^^^ c ^^^ d))) ^^^
       (mixByte c d (a ^^^ b ^^^ c ^^^ d) ^^^ dbl2 (mixByte a b (a ^^^ b ^^^ c ^^^ d)) (mixByte c d (a ^^^ b ^^^ c ^^^ d))) ^^^
       (mixByte d a (a ^^^ b ^^^ c ^^^ d) ^^^ dbl2 (mixByte b c (a ^^^ b ^^^ c ^^^ d)) (mixByte d a (a ^^^ b ^^^ c ^^^ d)))) = b := by
  rw [xor_pairs_cancel, mix_xor_all]
  simp only [dbl2]
  rw [mix_xor_02, mix_xor_13]
  simp only [mixByte, G_Multiply_xor, Nat.xor_assoc]
  simp only [Nat.xor_comm, xor_left_comm, Nat.xor_self, Nat.xor_zero, Nat.xor_cancel_left]

theorem inv_mix_col2 (a b c d : Nat) :
    mixByte
      (mixByte c d (a ^^^ b ^^^ c ^^^ d) ^^^ dbl2 (mixByte a b (a ^^^ b ^^^ c ^^^ d)) (mixByte c d (a ^^^ b ^^^ c ^^^ d)))
      (mixByte d a (a ^^^ b ^^^ c ^^^ d) ^^^ dbl2 (mixByte b c (a ^^^ b ^^^ c ^^^ d)) (mixByte d a (a ^^^ b ^^^ c ^^^ d)))
      ((mixByte a b (a ^^^ b ^^^ c ^^^ d) ^^^ dbl2 (mixByte a b (a ^^^ b ^^^ c ^^^ d)) (mixByte c d (a ^^^ b ^^^ c ^^^ d))) ^^^
       (mixByte b c (a ^^^ b ^^^ c ^^^ d) ^^^ dbl2 (mixByte b c (a ^^^ b ^^^ c ^^^ d)) (mixByte d a (a ^^^ b ^^^ c ^^^ d))) ^^^
       (mixByte c d (a ^^^ b ^^^ c ^^^ d) ^^^ dbl2 (mixByte a b (a ^^^ b ^^^ c ^^^ d)) (mixByte c d (a ^^^ b ^^^ c ^^^ d))) ^^^
       (mixByte d a (a ^^^ b ^^^ c ^^^ d) ^^^ dbl2 (mixByte b c (a ^^^ b ^^^ c ^^^ d)) (mixByte d a (a ^^^ b ^^^ c ^^^ d)))) = c := by
  rw [xor_pairs_cancel, mix_xor_all]
  simp only [dbl2]
  rw [mix_xor_02, mix_xor_13]
  simp only [mixByte, G_Multiply_xor, Nat.xor_assoc]
  simp only [Nat.xor_comm, xor_left_comm, Nat.xor_self, Nat.xor_zero, Nat.xor_cancel_left]

theorem inv_mix_col3 (a b c d : Nat) :
    mixByte
      (mixByte d a (a ^^^ b ^^^ c ^^^ d) ^^^ dbl2 (mixByte b c (a ^^^ b ^^^ c ^^^ d)) (mixByte d a (a ^^^ b ^^^ c ^^^ d)))
      (mixByte a b (a ^^^ b ^^^ c ^^^ d) ^^^ dbl2 (mixByte a b (a ^^^ b ^^^ c ^^^ d)) (mixByte c d (a ^^^ b ^^^ c ^^^ d)))
      ((mixByte a b (a ^^^ b ^^^ c ^^^ d) ^^^ dbl2 (mixByte a b (a ^^^ b ^^^ c ^^^ d)) (mixByte c d (a ^^^ b ^^^ c ^^^ d))) ^^^
       (mixByte b c (a ^^^ b ^^^ c ^^^ d) ^^^ dbl2 (mixByte b c (a ^^^ b ^^^ c ^^^ d)) (mixByte d a (a ^^^ b ^^^ c ^^^ d))) ^^^
       (mixByte c d (a ^^^ b ^^^ c ^^^ d) ^^^ dbl2 (mixByte a b (a ^^^ b ^^^ c ^^^ d)) (mixByte c d (a ^^^ b ^^^ c ^^^ d))) ^^^
       (mixByte d a (a ^^^ b ^^^ c ^^^ d) ^^^ dbl2 (mixByte b c (a ^^^ b ^^^ c ^^^ d)) (mixByte d a (a ^^^ b ^^^ c ^^^ d)))) = d := by
  rw [xor_pairs_cancel, mix_xor_all]
  simp only [dbl2]
  rw [mix_xor_02, mix_xor_13]
  simp only [mixByte, G_Multiply_xor, Nat.xor_assoc]
  simp only [Nat.xor_comm, xor_left_comm, Nat.xor_self, Nat.xor_zero, Nat.xor_cancel_left]

/-- The pre-step followed by `mix_column` undoes `mix_column`. -/
theorem mix_prestep_mix (pd : List Nat) (h : pd.length = 16) :
    mix_column (inv_mix_prestep (mix_column pd)) = pd := by
  obtain ⟨a0, a1, a2, a3, a4, a5, a6, a7, a8, a9, a10, a11, a12, a13, a14, a15, rfl⟩ :=
    exists_of_length_16 pd h
  rw [mix_column_explicit, inv_mix_prestep_explicit, mix_column_explicit]
  simp only [inv_mix_col0, inv_mix_col1, inv_mix_col2, inv_mix_col3]

theorem mixByte_lt {a b t : Nat} (ha : a < 256) (ht : t < 256) : mixByte a b t < 256 :=
  xor_lt_256 (xor_lt_256 ha (G_Multiply_lt _)) ht

theorem mix_column_isBytes (pd : List Nat) (h : IsBytes 16 pd) : IsBytes 16 (mix_column pd) := by
  obtain ⟨hl, hb⟩ := h
  obtain ⟨a0, a1, a2, a3, a4, a5, a6, a7, a8, a9, a10, a11, a12, a13, a14, a15, rfl⟩ :=
    exists_of_length_16 pd hl
  simp only [List.mem_cons, List.mem_singleton, forall_eq_or_imp, forall_eq, List.not_mem_nil,
    IsEmpty.forall_iff, implies_true, and_true] at hb
  obtain ⟨h0, h1, h2, h3, h4, h5, h6, h7, h8, h9, h10, h11, h12, h13, h14, h15⟩ := hb
  rw [mix_column_explicit]
  simp only [IsBytes, List.length_cons, List.length_nil, List.mem_cons, List.mem_singleton,
    forall_eq_or_imp, forall_eq, List.not_mem_nil, IsEmpty.forall_iff, implies_true, and_true,
    Nat.reduceAdd, true_and]
  refine ⟨?_, ?_, ?_, ?_, ?_, ?_, ?_, ?_, ?_, ?_, ?_, ?_, ?_, ?_, ?_, ?_⟩ <;>
    apply mixByte_lt <;> first | assumption | (repeat apply xor_lt_256) <;> assumption

theorem add_last_key_explicit (kg : List Nat)
    (a0 a1 a2 a3 a4 a5 a6 a7 a8 a9 a10 a11 a12 a13 a14 a15 : Nat) :
    add_last_key kg [a0, a1, a2, a3, a4, a5, a6, a7, a8, a9, a10, a11, a12, a13, a14, a15] =
      [a0 ^^^ kg.getD 160 0, a1 ^^^ kg.getD 161 0, a2 ^^^ kg.getD 162 0, a3 ^^^ kg.getD 163 0,
       a4 ^^^ kg.getD 164 0, a5 ^^^ kg.getD 165 0, a6 ^^^ kg.getD 166 0, a7 ^^^ kg.getD 167 0,
       a8 ^^^ kg.getD 168 0, a9 ^^^ kg.getD 169 0, a10 ^^^ kg.getD 170 0, a11 ^^^ kg.getD 171 0,
       a12 ^^^ kg.getD 172 0, a13 ^^^ kg.getD 173 0, a14 ^^^ kg.getD 174 0,
       a15 ^^^ kg.getD 175 0] := by
  have e : List.range 16 = [0, 1, 2, 3, 4, 5, 6, 7, 8, 9, 10, 11, 12, 13, 14, 15] := by decide
  simp only [add_last_key, e, List.foldl_cons, List.foldl_nil,
    List.set_cons_zero, List.set_cons_succ, List.getD_cons_zero, List.getD_cons_succ,
    Nat.add_zero, Nat.reduceAdd]

theorem add_last_key_involutive (kg pd : List Nat) (h : pd.length = 16) :
    add_last_key kg (add_last_key kg pd) = pd := by
  obtain ⟨a0, a1, a2, a3, a4, a5, a6, a7, a8, a9, a10, a11, a12, a13, a14, a15, rfl⟩ :=
    exists_of_length_16 pd h
  rw [add_last_key_explicit, add_last_key_explicit]
  simp only [Nat.xor_cancel_right]

/-- One cipher round followed by the matching decipher round is the identity. -/
theorem decipher_round_cipher_round (kg pd : List Nat) (t : Nat) (hpd : IsBytes 16 pd)
    (hkg : ∀ i, kg.getD i 0 < 256) :
    decipher_round kg (mix_column (add_S_Box_and_shift kg pd t)) t = pd := by
  unfold decipher_round
  rw [mix_prestep_mix _ (add_S_Box_and_shift_isBytes kg pd t hpd.1).1, inv_add_add kg pd t hpd hkg]

theorem cipher_round_isBytes (kg pd : List Nat) (t : Nat) (hpd : IsBytes 16 pd) :
    IsBytes 16 (mix_column (add_S_Box_and_shift kg pd t)) :=
  mix_column_isBytes _ (add_S_Box_and_shift_isBytes kg pd t hpd.1)

theorem decipher_loop_cipher_rounds (kg : List Nat) (hkg : ∀ i, kg.getD i 0 < 256) :
    ∀ (n : Nat) (pd : List Nat), IsBytes 16 pd →
      decipher_loop kg n ((List.range (n + 1)).foldl (fun Plain_Data turn =>
        mix_column (add_S_Box_and_shift kg Plain_Data turn)) pd) = pd := by
  intro n
  induction n with
  | zero =>
    intro pd hpd
    simp only [List.range_succ, List.range_zero, List.nil_append, List.foldl_cons, List.foldl_nil,
      decipher_loop]
    exact decipher_round_cipher_round kg pd 0 hpd hkg
  | succ n ih =>
    intro pd hpd
    rw [List.range_succ, List.foldl_append, List.foldl_cons, List.foldl_nil, decipher_loop,
      decipher_round_cipher_round kg _ (n + 1) ?_ hkg]
    · exact ih pd hpd
    · exact isBytes_foldl _ (fun l x hl => cipher_round_isBytes kg l x hl) _ _ hpd

end AES128

/-! ## AES-128: the claims -/

namespace AES128

theorem cipher_AES_fst (keys : CryptoKeys) (kg pd : List Nat) (K : Nat) :
    (cipher_AES keys kg pd K).1 = Generate_Key keys kg K := by
  simp only [cipher_AES]

theorem decipher_AES_fst (keys : CryptoKeys) (kg pd : List Nat) (K : Nat) :
    (decipher_AES keys kg pd K).1 = Generate_Key keys kg K := by
  simp only [decipher_AES]

theorem cipher_AES_snd (keys : CryptoKeys) (kg pd : List Nat) (K : Nat) :
    (cipher_AES keys kg pd K).2 =
      add_last_key (Generate_Key keys kg K)
        (add_S_Box_and_shift (Generate_Key keys kg K)
          ((List.range 9).foldl (fun Plain_Data turn =>
            mix_column (add_S_Box_and_shift (Generate_Key keys kg K) Plain_Data turn)) pd) 9) := by
  simp only [cipher_AES]

theorem decipher_AES_snd (keys : CryptoKeys) (kg pd : List Nat) (K : Nat) :
    (decipher_AES keys kg pd K).2 =
      decipher_loop (Generate_Key keys kg K) 8
        (inv_add_S_Box_and_shift (Generate_Key keys kg K)
          (add_last_key (Generate_Key keys kg K) pd) 9) := by
  simp only [decipher_AES]

/-- C1: for every 16-byte block `P`, every key index `K` and every content of the key table
(two 16-byte keys), `decipher_AES` run on the outcome of `cipher_AES` with the same key index
gives back exactly `P`; the global schedule is left as `cipher_AES` built it. -/
theorem decipher_cipher_roundtrip (keys : CryptoKeys) (KeyGen P : List Nat) (K : Nat)
    (hkeys : keys.WF) (hKeyGen : IsBytes 176 KeyGen) (hP : IsBytes 16 P) :
    decipher_AES keys (cipher_AES keys KeyGen P K).1 (cipher_AES keys KeyGen P K).2 K
      = (Generate_Key keys KeyGen K, P) := by
  have hG := Generate_Key_isBytes keys hkeys KeyGen K hKeyGen
  have hidem : Generate_Key keys (Generate_Key keys KeyGen K) K = Generate_Key keys KeyGen K :=
    Generate_Key_congr keys keys K K _ _ rfl hG.1 hKeyGen.1
  have hkg : ∀ i, (Generate_Key keys KeyGen K).getD i 0 < 256 := fun i => isBytes_getD hG i
  have hR := isBytes_foldl (n := 16) _
    (fun l x hl => cipher_round_isBytes (Generate_Key keys KeyGen K) l x hl)
    (List.range 9) P hP
  have hloop := decipher_loop_cipher_rounds _ hkg 8 P hP
  rw [show (8 : Nat) + 1 = 9 from rfl] at hloop
  apply Prod.ext
  · rw [decipher_AES_fst, cipher_AES_fst, hidem]
  · rw [decipher_AES_snd, cipher_AES_fst, cipher_AES_snd, hidem,
      add_last_key_involutive _ _ (add_S_Box_and_shift_isBytes _ _ 9 hR.1).1,
      inv_add_add _ _ 9 hR hkg]
    exact hloop

theorem decipher_cipher_roundtrip_witness :
    CryptoKeys.WF ⟨fipsKey, fipsCipher⟩ ∧ IsBytes 176 (List.replicate 176 0) ∧
      IsBytes 16 fipsPlain ∧
      decipher_AES ⟨fipsKey, fipsCipher⟩
        (cipher_AES ⟨fipsKey, fipsCipher⟩ (List.replicate 176 0) fipsPlain 1).1
        (cipher_AES ⟨fipsKey, fipsCipher⟩ (List.replicate 176 0) fipsPlain 1).2 1
      = (Generate_Key ⟨fipsKey, fipsCipher⟩ (List.replicate 176 0) 1, fipsPlain) :=
  ⟨by decide, by decide, by decide,
    decipher_cipher_roundtrip ⟨fipsKey, fipsCipher⟩ (List.replicate 176 0) fipsPlain 1
      (by decide) (by decide) (by decide)⟩

theorem cipher_AES_fips_eval :
    (cipher_AES ⟨fipsKey, fipsKey⟩ (List.replicate 176 0) fipsPlain 0).2 = fipsCipher := by
  decide!

/-- C2: whenever the key selected by the key index is the FIPS-197 reference key,
`cipher_AES` turns the FIPS-197 reference plaintext into the reference ciphertext
`69c4e0d86a7b0430d8cdb78070b4c55a`, whatever the schedule buffer held before. -/
theorem cipher_AES_fips197_vector (keys : CryptoKeys) (KeyGen : List Nat) (K : Nat)
    (hlen : KeyGen.length = 176) (hsel : selectedKey keys K = fipsKey) :
    (cipher_AES keys KeyGen fipsPlain K).2 = fipsCipher := by
  have h : Generate_Key keys KeyGen K
      = Generate_Key ⟨fipsKey, fipsKey⟩ (List.replicate 176 0) 0 :=
    Generate_Key_congr keys ⟨fipsKey, fipsKey⟩ K 0 _ _ (by rw [hsel]; rfl) hlen (by decide)
  rw [cipher_AES_snd, h, ← cipher_AES_snd]
  exact cipher_AES_fips_eval

theorem cipher_AES_fips197_vector_witness :
    (List.replicate 176 7).length = 176 ∧
      selectedKey ⟨fipsPlain, fipsKey⟩ 1 = fipsKey ∧
      (cipher_AES ⟨fipsPlain, fipsKey⟩ (List.replicate 176 7) fipsPlain 1).2 = fipsCipher :=
  ⟨by decide, by decide,
    cipher_AES_fips197_vector ⟨fipsPlain, fipsKey⟩ (List.replicate 176 7) 1 (by decide)
      (by decide)⟩

theorem Generate_Key_default (keys : CryptoKeys) (KeyGen : List Nat) (K : Nat) (h0 : K ≠ 0)
    (h1 : K ≠ 1) : Generate_Key keys KeyGen K = Generate_Key keys KeyGen 0 := by
  unfold Generate_Key
  rw [Generate_Key_load_eq, Generate_Key_load_eq]
  rcases K with _ | _ | K
  · exact absurd rfl h0
  · exact absurd rfl h1
  · rfl

/-- C5: every key index other than 0 and 1 gives the schedule of index 0 (the default key
`Base_Key`), hence the same `cipher_AES` and `decipher_AES` results as index 0; no index is
rejected, the functions return a schedule and a block for each of them. -/
theorem unknown_key_index_falls_back (keys : CryptoKeys) (KeyGen Block : List Nat) (K : Nat)
    (h0 : K ≠ 0) (h1 : K ≠ 1) :
    Generate_Key keys KeyGen K = Generate_Key keys KeyGen 0 ∧
      cipher_AES keys KeyGen Block K = cipher_AES keys KeyGen Block 0 ∧
      decipher_AES keys KeyGen Block K = decipher_AES keys KeyGen Block 0 := by
  have h := Generate_Key_default keys KeyGen K h0 h1
  refine ⟨h, ?_, ?_⟩
  · exact Prod.ext (by rw [cipher_AES_fst, cipher_AES_fst, h])
      (by rw [cipher_AES_snd, cipher_AES_snd, h])
  · exact Prod.ext (by rw [decipher_AES_fst, decipher_AES_fst, h])
      (by rw [decipher_AES_snd, decipher_AES_snd, h])

theorem unknown_key_index_falls_back_witness :
    (200 : Nat) ≠ 0 ∧ (200 : Nat) ≠ 1 ∧
      Generate_Key ⟨fipsKey, fipsCipher⟩ (List.replicate 176 0) 200
        = Generate_Key ⟨fipsKey, fipsCipher⟩ (List.replicate 176 0) 0 ∧
      cipher_AES ⟨fipsKey, fipsCipher⟩ (List.replicate 176 0) fipsPlain 200
        = cipher_AES ⟨fipsKey, fipsCipher⟩ (List.replicate 176 0) fipsPlain 0 ∧
      decipher_AES ⟨fipsKey, fipsCipher⟩ (List.replicate 176 0) fipsPlain 200
        = decipher_AES ⟨fipsKey, fipsCipher⟩ (List.replicate 176 0) fipsPlain 0 :=
  ⟨by decide, by decide,
    unknown_key_index_falls_back ⟨fipsKey, fipsCipher⟩ (List.replicate 176 0) fipsPlain 200
      (by decide) (by decide)⟩

/-- C6: `Generate_Key` overwrites the whole 176-byte schedule with bytes that depend only on
the key table and the key index: from any two prior contents of `KeyGen` it gives the same
176 bytes, a repeated call changes nothing, and the outcomes of `cipher_AES` and
`decipher_AES` on a block do not depend on the prior contents either. -/
theorem Generate_Key_deterministic (keys : CryptoKeys) (K : Nat)
    (KeyGen1 KeyGen2 Block : List Nat) (h1 : KeyGen1.length = 176)
    (h2 : KeyGen2.length = 176) :
    Generate_Key keys KeyGen1 K = Generate_Key keys KeyGen2 K ∧
      (Generate_Key keys KeyGen1 K).length = 176 ∧
      Generate_Key keys (Generate_Key keys KeyGen1 K) K = Generate_Key keys KeyGen1 K ∧
      cipher_AES keys KeyGen1 Block K = cipher_AES keys KeyGen2 Block K ∧
      decipher_AES keys KeyGen1 Block K = decipher_AES keys KeyGen2 Block K := by
  have h := Generate_Key_congr keys keys K K KeyGen1 KeyGen2 rfl h1 h2
  have hl : (Generate_Key keys KeyGen1 K).length = 176 := by rw [Generate_Key_length, h1]
  refine ⟨h, hl, Generate_Key_congr keys keys K K _ _ rfl hl h1, ?_, ?_⟩
  · exact Prod.ext (by rw [cipher_AES_fst, cipher_AES_fst, h])
      (by rw [cipher_AES_snd, cipher_AES_snd, h])
  · exact Prod.ext (by rw [decipher_AES_fst, decipher_AES_fst, h])
      (by rw [decipher_AES_snd, decipher_AES_snd, h])

theorem Generate_Key_deterministic_witness :
    (List.replicate 176 0).length = 176 ∧ (List.replicate 176 255).length = 176 ∧
      (Generate_Key ⟨fipsKey, fipsCipher⟩ (List.replicate 176 0) 1
          = Generate_Key ⟨fipsKey, fipsCipher⟩ (List.replicate 176 255) 1 ∧
        (Generate_Key ⟨fipsKey, fipsCipher⟩ (List.replicate 176 0) 1).length = 176 ∧
        Generate_Key ⟨fipsKey, fipsCipher⟩
            (Generate_Key ⟨fipsKey, fipsCipher⟩ (List.replicate 176 0) 1) 1
          = Generate_Key ⟨fipsKey, fipsCipher⟩ (List.replicate 176 0) 1 ∧
        cipher_AES ⟨fipsKey, fipsCipher⟩ (List.replicate 176 0) fipsPlain 1
          = cipher_AES ⟨fipsKey, fipsCipher⟩ (List.replicate 176 255) fipsPlain 1 ∧
        decipher_AES ⟨fipsKey, fipsCipher⟩ (List.replicate 176 0) fipsPlain 1
          = decipher_AES ⟨fipsKey, fipsCipher⟩ (List.replicate 176 255) fipsPlain 1) :=
  ⟨by decide, by decide,
    Generate_Key_deterministic ⟨fipsKey, fipsCipher⟩ 1 (List.replicate 176 0)
      (List.replicate 176 255) fipsPlain (by decide) (by decide)⟩

end AES128

/-! ## Keccak: the byte view and the lane view of the state -/

namespace SHA3

theorem store64_getD (S : List Nat) (off u j : Nat) (h : off + 8 ≤ S.length) :
    (store64 S off u).getD j 0 =
      if off ≤ j ∧ j < off + 8 then (u >>> (8 * (j - off))) % 256 else S.getD j 0 := by
  have e : List.range 8 = [0, 1, 2, 3, 4, 5, 6, 7] := by decide
  simp only [store64, e, List.foldl_cons, List.foldl_nil, AES128.getD_set_eq, List.length_set,
    ← Nat.shiftRight_add, Nat.reduceAdd]
  by_cases hj : off ≤ j ∧ j < off + 8
  · obtain ⟨k, rfl⟩ : ∃ k, j = off + k := ⟨j - off, by omega⟩
    have hk : k < 8 := by omega
    rw [if_pos hj]
    interval_cases k <;> simp <;> omega
  · rw [if_neg hj]
    simp only [not_and_or, not_le, not_lt] at hj
    repeat rw [if_neg (by omega)]

theorem xor64_getD (S : List Nat) (off u j : Nat) (h : off + 8 ≤ S.length) :
    (xor64 S off u).getD j 0 =
      if off ≤ j ∧ j < off + 8 then (S.getD j 0 ^^^ (u >>> (8 * (j - off)))) % 256
      else S.getD j 0 := by
  have e : List.range 8 = [0, 1, 2, 3, 4, 5, 6, 7] := by decide
  simp only [xor64, e, List.foldl_cons, List.foldl_nil, AES128.getD_set_eq, List.length_set,
    ← Nat.shiftRight_add, Nat.reduceAdd]
  by_cases hj : off ≤ j ∧ j < off + 8
  · obtain ⟨k, rfl⟩ : ∃ k, j = off + k := ⟨j - off, by omega⟩
    have hk : k < 8 := by omega
    rw [if_pos hj]
    interval_cases k <;> simp <;> omega
  · rw [if_neg hj]
    simp only [not_and_or, not_le, not_lt] at hj
    repeat rw [if_neg (by omega)]

theorem store64_length (S : List Nat) (off u : Nat) : (store64 S off u).length = S.length := by
  have e : List.range 8 = [0, 1, 2, 3, 4, 5, 6, 7] := by decide
  simp only [store64, e, List.foldl_cons, List.foldl_nil, List.length_set]

theorem xor64_length (S : List Nat) (off u : Nat) : (xor64 S off u).length = S.length := by
  have e : List.range 8 = [0, 1, 2, 3, 4, 5, 6, 7] := by decide
  simp only [xor64, e, List.foldl_cons, List.foldl_nil, List.length_set]

theorem bytesOfLane_length (v : Nat) : (bytesOfLane v).length = 8 := by
  simp [bytesOfLane]

theorem bytesOfLane_getD (v j : Nat) (hj : j < 8) :
    (bytesOfLane v).getD j 0 = (v >>> (8 * j)) % 256 := by
  have e : List.range 8 = [0, 1, 2, 3, 4, 5, 6, 7] := by decide
  simp only [bytesOfLane, e, List.map_cons, List.map_nil]
  interval_cases j <;> rfl

theorem bytesOfLanes_length (L : List Nat) : (bytesOfLanes L).length = 8 * L.length := by
  induction L with
  | nil => rfl
  | cons v L ih =>
    simp only [bytesOfLanes, List.length_append, bytesOfLane_length, ih, List.length_cons]
    omega

theorem bytesOfLanes_getD (L : List Nat) :
    ∀ j, (bytesOfLanes L).getD j 0 = (L.getD (j / 8) 0 >>> (8 * (j % 8))) % 256 := by
  induction L with
  | nil => intro j; simp [bytesOfLanes]
  | cons v L ih =>
    intro j
    by_cases hj : j < 8
    · have h1 : j / 8 = 0 := by omega
      have h2 : j % 8 = j := by omega
      rw [bytesOfLanes, List.getD_append _ _ _ _ (by rw [bytesOfLane_length]; exact hj),
        bytesOfLane_getD v j hj, h1, h2, List.getD_cons_zero]
    · have h1 : j / 8 = (j - 8) / 8 + 1 := by omega
      have h2 : j % 8 = (j - 8) % 8 := by omega
      rw [bytesOfLanes, List.getD_append_right _ _ _ _ (by rw [bytesOfLane_length]; omega),
        bytesOfLane_length, ih, h1, h2, List.getD_cons_succ]

theorem ext_getD {a b : List Nat} (hl : a.length = b.length)
    (h : ∀ j, a.getD j 0 = b.getD j 0) : a = b := by
  apply List.ext_getElem hl
  intro i h1 h2
  have := h i
  rw [List.getD_eq_getElem?_getD, List.getD_eq_getElem?_getD, List.getElem?_eq_getElem h1,
    List.getElem?_eq_getElem h2] at this
  simpa using this

theorem shl8_or (u b : Nat) (hb : b < 256) :
    ((u <<< 8) % 2 ^ 64) ||| b = 256 * (u % 2 ^ 56) + b := by
  have h1 : (u <<< 8) % 2 ^ 64 = 2 ^ 8 * (u % 2 ^ 56) := by
    rw [Nat.shiftLeft_eq]
    omega
  rw [h1, ← Nat.mul_add_lt_is_or (by simpa using hb)]

theorem load64_eq (S : List Nat) (off v : Nat) (hv : v < 2 ^ 64)
    (h : ∀ i < 8, S.getD (off + i) 0 = (v >>> (8 * i)) % 256) : load64 S off = v := by
  simp only [load64, List.foldl_cons, List.foldl_nil]
  rw [h 7 (by omega), h 6 (by omega), h 5 (by omega), h 4 (by omega), h 3 (by omega),
    h 2 (by omega), h 1 (by omega), h 0 (by omega)]
  simp only [shl8_or _ _ (Nat.mod_lt _ (by decide : 0 < 256)), Nat.shiftRight_eq_div_pow]
  norm_num
  omega

theorem byte_of_mod (v s : Nat) (hs : s + 8 ≤ 64) :
    ((v % 2 ^ 64) >>> s) % 256 = (v >>> s) % 256 := by
  apply Nat.eq_of_testBit_eq
  intro i
  simp only [show (256 : Nat) = 2 ^ 8 from rfl, Nat.testBit_mod_two_pow, Nat.testBit_shiftRight]
  by_cases hi : i < 8
  · have : s + i < 64 := by omega
    simp [hi, this]
  · simp [hi]

theorem byte_xor (a v s : Nat) (hs : s + 8 ≤ 64) :
    (((a >>> s) % 256) ^^^ (v >>> s)) % 256 = ((a ^^^ (v % 2 ^ 64)) >>> s) % 256 := by
  apply Nat.eq_of_testBit_eq
  intro i
  simp only [show (256 : Nat) = 2 ^ 8 from rfl, Nat.testBit_mod_two_pow, Nat.testBit_shiftRight,
    Nat.testBit_xor]
  by_cases hi : i < 8
  · have : s + i < 64 := by omega
    simp [hi, this]
  · simp [hi]

theorem lanes_getD_lt {L : List Nat} (hL : Lanes L) (k : Nat) : L.getD k 0 < 2 ^ 64 := by
  rw [List.getD_eq_getElem?_getD]
  by_cases hk : k < L.length
  · rw [List.getElem?_eq_getElem hk]
    exact hL.2 _ (List.getElem_mem hk)
  · rw [List.getElem?_eq_none (Nat.le_of_not_lt hk)]
    decide

theorem lanes_set {L : List Nat} (hL : Lanes L) (k : Nat) {v : Nat} (hv : v < 2 ^ 64) :
    Lanes (L.set k v) := by
  refine ⟨by rw [List.length_set]; exact hL.1, ?_⟩
  intro x hx
  rcases List.mem_or_eq_of_mem_set hx with hx | hx
  · exact hL.2 x hx
  · rw [hx]; exact hv

theorem load64_bytesOfLanes {L : List Nat} (hL : Lanes L) (k : Nat) :
    load64 (bytesOfLanes L) (8 * k) = L.getD k 0 := by
  apply load64_eq _ _ _ (lanes_getD_lt hL k)
  intro i hi
  rw [bytesOfLanes_getD, show (8 * k + i) / 8 = k by omega, show (8 * k + i) % 8 = i by omega]

theorem store64_bytesOfLanes (L : List Nat) (k v : Nat) (hk : k < L.length) :
    store64 (bytesOfLanes L) (8 * k) v = bytesOfLanes (L.set k (v % 2 ^ 64)) := by
  apply ext_getD
  · rw [store64_length, bytesOfLanes_length, bytesOfLanes_length, List.length_set]
  intro j
  rw [store64_getD _ _ _ _ (by rw [bytesOfLanes_length]; omega), bytesOfLanes_getD,
    bytesOfLanes_getD, AES128.getD_set_eq]
  by_cases hj : 8 * k ≤ j ∧ j < 8 * k + 8
  · have h1 : k = j / 8 := by omega
    have h2 : j - 8 * k = j % 8 := by omega
    rw [if_pos hj, if_pos ⟨h1, hk⟩, h2, byte_of_mod _ _ (by omega)]
  · have h1 : ¬ k = j / 8 := by omega
    rw [if_neg hj, if_neg (fun c => h1 c.1)]

theorem xor64_bytesOfLanes (L : List Nat) (k v : Nat) (hk : k < L.length) :
    xor64 (bytesOfLanes L) (8 * k) v
      = bytesOfLanes (L.set k (L.getD k 0 ^^^ (v % 2 ^ 64))) := by
  apply ext_getD
  · rw [xor64_length, bytesOfLanes_length, bytesOfLanes_length, List.length_set]
  intro j
  rw [xor64_getD _ _ _ _ (by rw [bytesOfLanes_length]; omega), bytesOfLanes_getD,
    bytesOfLanes_getD, AES128.getD_set_eq]
  by_cases hj : 8 * k ≤ j ∧ j < 8 * k + 8
  · have h1 : k = j / 8 := by omega
    have h2 : j - 8 * k = j % 8 := by omega
    rw [if_pos hj, if_pos ⟨h1, hk⟩, h2, ← h1, byte_xor _ _ _ (by omega)]
  · have h1 : ¬ k = j / 8 := by omega
    rw [if_neg hj, if_neg (fun c => h1 c.1)]

theorem sim_readLane {S L : List Nat} (h : Sim S L) (x y : Nat) :
    readLane S x y = readL L x y := by
  rw [h.1]
  exact load64_bytesOfLanes h.2 _

theorem sim_writeLane {S L : List Nat} (h : Sim S L) (x y v : Nat) (hxy : laneIndex x y < 25) :
    Sim (writeLane S x y v) (writeL L x y v) := by
  refine ⟨?_, lanes_set h.2 _ (Nat.mod_lt _ (by decide))⟩
  rw [h.1]
  exact store64_bytesOfLanes L _ v (by rw [h.2.1]; exact hxy)

theorem sim_XORLane {S L : List Nat} (h : Sim S L) (x y v : Nat) (hxy : laneIndex x y < 25) :
    Sim (XORLane S x y v) (xorL L x y v) := by
  refine ⟨?_, lanes_set h.2 _ (Nat.xor_lt_two_pow (lanes_getD_lt h.2 _) (Nat.mod_lt _ (by decide)))⟩
  rw [h.1]
  exact xor64_bytesOfLanes L _ v (by rw [h.2.1]; exact hxy)

theorem foldl_rel {σ τ ι : Type} (R : σ → τ → Prop) (f : σ → ι → σ) (g : τ → ι → τ)
    (xs : List ι) (h : ∀ s t i, i ∈ xs → R s t → R (f s i) (g t i)) :
    ∀ s t, R s t → R (xs.foldl f s) (xs.foldl g t) := by
  induction xs with
  | nil => intro s t hst; exact hst
  | cons x xs ih =>
    intro s t hst
    rw [List.foldl_cons, List.foldl_cons]
    exact ih (fun s t i hi => h s t i (List.mem_cons_of_mem _ hi)) _ _
      (h s t x (List.mem_cons_self _ _) hst)

theorem laneIndex_lt {x y : Nat} (hx : x < 5) (hy : y < 5) : laneIndex x y < 25 := by
  unfold laneIndex; omega

theorem sim_theta {S L : List Nat} (h : Sim S L) : Sim (theta S) (thetaL L) := by
  simp only [theta, thetaL, sim_readLane h]
  refine foldl_rel Sim _ _ _ ?_ _ _ h
  intro s t x hx hst
  refine foldl_rel Sim _ _ _ ?_ _ _ hst
  intro s t y hy hst
  exact sim_XORLane hst x y _ (laneIndex_lt (List.mem_range.1 hx) (List.mem_range.1 hy))

theorem sim_rhoPiStep (s t : Nat × Nat × Nat × List Nat) (i : Nat) (h : SimRhoPi s t) :
    SimRhoPi (rhoPiStep s i) (rhoPiStepL t i) := by
  obtain ⟨x, y, cur, S⟩ := s
  obtain ⟨x', y', cur', L⟩ := t
  obtain ⟨hx, hy, hc, hs, hx5, hy5⟩ := h
  simp only at hx hy hc hs hx5 hy5
  subst hx hy hc
  have hY : (2 * x + 3 * y) % 5 < 5 := Nat.mod_lt _ (by decide)
  exact ⟨rfl, rfl, sim_readLane hs _ _, sim_writeLane hs _ _ _ (laneIndex_lt hy5 hY), hy5, hY⟩

theorem sim_rhoPi {S L : List Nat} (h : Sim S L) : Sim (rhoPi S) (rhoPiL L) := by
  unfold rhoPi rhoPiL
  have h0 : SimRhoPi (1, 0, readLane S 1 0, S) (1, 0, readL L 1 0, L) :=
    ⟨rfl, rfl, sim_readLane h 1 0, h, (by decide : (1 : Nat) < 5), (by decide : (0 : Nat) < 5)⟩
  exact (foldl_rel SimRhoPi rhoPiStep rhoPiStepL _ (fun s t i _ hst => sim_rhoPiStep s t i hst)
    _ _ h0).2.2.2.1

theorem sim_chi {S L : List Nat} (h : Sim S L) : Sim (chi S) (chiL L) := by
  unfold chi chiL
  refine foldl_rel Sim _ _ _ ?_ _ _ h
  intro s t y hy hst
  simp only [sim_readLane hst]
  refine foldl_rel Sim _ _ _ ?_ _ _ hst
  intro s t x hx hst
  exact sim_writeLane hst x y _ (laneIndex_lt (List.mem_range.1 hx) (List.mem_range.1 hy))

theorem sim_iota (s t : Nat × List Nat) (h : SimRound s t) : SimRound (iota s) (iotaL t) := by
  unfold iota iotaL
  refine foldl_rel SimRound _ _ _ ?_ _ _ h
  intro s t j _ hst
  obtain ⟨h1, h2⟩ := hst
  simp only [← h1]
  split
  · exact ⟨rfl, sim_XORLane h2 0 0 _ (by decide)⟩
  · exact ⟨rfl, h2⟩

theorem sim_iota_pair (l : Nat) {S L : List Nat} (h : Sim S L) :
    SimRound (iota (l, S)) (iotaL (l, L)) := sim_iota (l, S) (l, L) (And.intro rfl h)

theorem sim_keccakRound (s t : Nat × List Nat) (h : SimRound s t) :
    SimRound (keccakRound s) (keccakRoundL t) := by
  obtain ⟨l, S⟩ := s
  obtain ⟨l2, L⟩ := t
  obtain ⟨h1, h2⟩ := h
  simp only at h1 h2
  subst h1
  simp only [keccakRound, keccakRoundL]
  exact sim_iota_pair l (sim_chi (sim_rhoPi (sim_theta h2)))

theorem sim_rounds (s t : Nat × List Nat) (h : SimRound s t) :
    SimRound (KeccakF1600_rounds s) (roundsL t) := by
  unfold KeccakF1600_rounds roundsL
  exact foldl_rel SimRound (fun s (_ : Nat) => keccakRound s)
    (fun s (_ : Nat) => keccakRoundL s) (List.range 24)
    (fun s t _ _ hst => sim_keccakRound s t hst) s t h

theorem sim_roundState (s t : Nat × List Nat) (h : SimRound s t) :
    Sim (roundState s) (roundState t) := h.2

/-- The permutation on the byte buffer is the lane view of the permutation. -/
theorem sim_permute {S L : List Nat} (h : Sim S L) :
    Sim (KeccakF1600_StatePermute S) (permuteL L) := by
  unfold KeccakF1600_StatePermute permuteL
  exact sim_roundState _ _ (sim_rounds (1, S) (1, L) (And.intro rfl h))

end SHA3

/-! ## Keccak: the sponge driver -/

namespace SHA3

theorem Keccak_rejects_iff (rate capacity : Nat) :
    Keccak_rejects rate capacity = true ↔ ((rate + capacity) % 2 ^ 32 ≠ 1600 ∨ rate % 8 ≠ 0) := by
  simp [Keccak_rejects]

theorem Keccak_of_rejects (fuel rate capacity : Nat) (input : List Nat) (inputByteLen : Nat)
    (delimitedSuffix : Nat) (output : List Nat) (outputByteLen : Nat)
    (h : Keccak_rejects rate capacity = true) :
    Keccak fuel rate capacity input inputByteLen delimitedSuffix output outputByteLen
      = some output := by
  unfold Keccak
  simp only [h, if_true]

theorem Keccak_of_absorb (fuel rate capacity : Nat) (input : List Nat) (inputByteLen : Nat)
    (delimitedSuffix : Nat) (output : List Nat) (outputByteLen : Nat) (state : List Nat)
    (blockSize : Nat) (h : Keccak_rejects rate capacity = false)
    (ha : Keccak_absorb (rate / 8) fuel (List.replicate 200 0) input inputByteLen 0
      = some (state, blockSize)) :
    Keccak fuel rate capacity input inputByteLen delimitedSuffix output outputByteLen
      = Keccak_squeeze (rate / 8) fuel (Keccak_pad (rate / 8) state blockSize delimitedSuffix)
          output 0 outputByteLen := by
  unfold Keccak
  simp only [h, ha, Bool.false_eq_true, if_false]

theorem Keccak_squeeze_zero (r fuel : Nat) (state output : List Nat) (pos : Nat) :
    Keccak_squeeze r fuel state output pos 0 = some output := by
  cases fuel <;> simp [Keccak_squeeze]

theorem Keccak_absorb_zero (r fuel : Nat) (state input : List Nat) (blockSize : Nat) :
    Keccak_absorb r fuel state input 0 blockSize = some (state, blockSize) := by
  cases fuel <;> simp [Keccak_absorb]

/-- The absorbing loop ends within `fuel` iterations when `fuel` blocks cover the input. -/
theorem Keccak_absorb_terminates (r : Nat) :
    ∀ (fuel : Nat) (state input : List Nat) (inputByteLen blockSize : Nat),
      inputByteLen ≤ fuel * r →
      ∃ res, Keccak_absorb r fuel state input inputByteLen blockSize = some res := by
  intro fuel
  induction fuel with
  | zero =>
    intro state input len bs h
    have h0 : len = 0 := by omega
    subst h0
    exact ⟨_, Keccak_absorb_zero r 0 state input bs⟩
  | succ f ih =>
    intro state input len bs h
    by_cases hl : len > 0
    · have hs : (f + 1) * r = f * r + r := Nat.succ_mul f r
      have hm : len - min len r ≤ f * r := by
        rcases Nat.le_total len r with h1 | h1
        · rw [Nat.min_eq_left h1]; omega
        · rw [Nat.min_eq_right h1]; omega
      simp only [Keccak_absorb, hl, if_true]
      split
      · exact ih _ _ _ _ hm
      · exact ih _ _ _ _ hm
    · have h0 : len = 0 := by omega
      subst h0
      exact ⟨_, Keccak_absorb_zero r (f + 1) state input bs⟩

/-- A last, partial block: the loop XORs it into the state and ends. -/
theorem Keccak_absorb_partial (r fuel : Nat) (state input : List Nat) (len blockSize : Nat)
    (h0 : 0 < len) (h1 : len < r) :
    Keccak_absorb r (fuel + 1) state input len blockSize
      = some (Keccak_xorBlock state input len, len) := by
  have hmin : min len r = len := Nat.min_eq_left (Nat.le_of_lt h1)
  have hne : ¬ len = r := by omega
  simp only [Keccak_absorb, h0, if_true, hmin, hne, if_false, Nat.sub_self]
  exact Keccak_absorb_zero r fuel _ _ len

theorem Keccak_zero_length (fuel rate capacity : Nat) (input : List Nat) (inputByteLen : Nat)
    (delimitedSuffix : Nat) (output : List Nat) (h : Keccak_rejects rate capacity = false)
    (hf : inputByteLen ≤ fuel * (rate / 8)) :
    Keccak fuel rate capacity input inputByteLen delimitedSuffix output 0 = some output := by
  obtain ⟨⟨state, blockSize⟩, ha⟩ :=
    Keccak_absorb_terminates (rate / 8) fuel (List.replicate 200 0) input inputByteLen 0 hf
  rw [Keccak_of_absorb fuel rate capacity input inputByteLen delimitedSuffix output 0 state
    blockSize h ha]
  exact Keccak_squeeze_zero _ _ _ _ _

theorem memcpy_succ (output : List Nat) (pos : Nat) (state : List Nat) (n : Nat) :
    memcpy output pos state (n + 1) = (memcpy output pos state n).set (pos + n) (state.getD n 0) := by
  unfold memcpy
  rw [List.range_succ, List.foldl_append, List.foldl_cons, List.foldl_nil]

theorem memcpy_eq (output state : List Nat) (pos : Nat) :
    ∀ n, pos + n ≤ output.length →
      memcpy output pos state n
        = output.take pos ++ (List.range n).map (fun i => state.getD i 0)
            ++ output.drop (pos + n) := by
  intro n
  induction n with
  | zero =>
    intro _
    simp [memcpy]
  | succ n ih =>
    intro h
    have hlen : (output.take pos ++ (List.range n).map (fun i => state.getD i 0)).length
        = pos + n := by
      rw [List.length_append, List.length_take, List.length_map, List.length_range]
      omega
    have hd : output.drop (pos + n) = output.getD (pos + n) 0 :: output.drop (pos + (n + 1)) := by
      rw [List.getD_eq_getElem?_getD, List.getElem?_eq_getElem (by omega : pos + n < output.length)]
      simpa [Nat.add_assoc] using (List.drop_eq_getElem_cons (by omega : pos + n < output.length))
    rw [memcpy_succ, ih (by omega), hd, List.set_append_right _ _ (by rw [hlen]), hlen,
      Nat.sub_self, List.set_cons_zero, List.range_succ, List.map_append, List.map_cons,
      List.map_nil]
    simp only [List.append_assoc, List.singleton_append]

theorem squeezeBytes_zero (r fuel : Nat) (state : List Nat) :
    squeezeBytes r fuel state 0 = [] := by
  cases fuel <;> simp [squeezeBytes]

theorem squeezeBytes_length (r : Nat) :
    ∀ (fuel : Nat) (state : List Nat) (n : Nat), n ≤ fuel * r →
      (squeezeBytes r fuel state n).length = n := by
  intro fuel
  induction fuel with
  | zero =>
    intro state n h
    have h0 : n = 0 := by omega
    subst h0
    rfl
  | succ f ih =>
    intro state n h
    by_cases hn : n > 0
    · have hs : (f + 1) * r = f * r + r := Nat.succ_mul f r
      have hm : n - min n r ≤ f * r := by
        rcases Nat.le_total n r with h1 | h1
        · rw [Nat.min_eq_left h1]; omega
        · rw [Nat.min_eq_right h1]; omega
      have hle : min n r ≤ n := Nat.min_le_left n r
      simp only [squeezeBytes, hn, if_true, List.length_append, List.length_map,
        List.length_range]
      split
      · rw [ih _ _ hm]; omega
      · rw [List.length_nil]; omega
    · have h0 : n = 0 := by omega
      subst h0
      rw [squeezeBytes_zero]
      rfl

theorem take_drop_of_append3 (A M B : List Nat) (p b k : Nat) (hA : A.length = p)
    (hM : M.length = b) :
    (A ++ M ++ B).take (p + b) = A ++ M ∧ (A ++ M ++ B).drop (p + b + k) = B.drop k := by
  have hAM : (A ++ M).length = p + b := by rw [List.length_append, hA, hM]
  constructor
  · rw [← hAM, List.take_left]
  · have e : p + b + k = (A ++ M).length + k := by omega
    rw [e, ← List.drop_drop, List.drop_left]

/-- The squeezing loop writes `squeezeBytes` at positions `pos .. pos + n - 1` of the output
buffer and nothing else, and ends within `fuel` iterations when `fuel` blocks cover `n`. -/
theorem Keccak_squeeze_eq (r : Nat) :
    ∀ (fuel : Nat) (state output : List Nat) (pos n : Nat), n ≤ fuel * r →
      pos + n ≤ output.length →
      Keccak_squeeze r fuel state output pos n
        = some (output.take pos ++ squeezeBytes r fuel state n ++ output.drop (pos + n)) := by
  intro fuel
  induction fuel with
  | zero =>
    intro state output pos n h _
    have h0 : n = 0 := by omega
    subst h0
    simp [Keccak_squeeze, squeezeBytes]
  | succ f ih =>
    intro state output pos n h hlen
    by_cases hn : n > 0
    · have hs : (f + 1) * r = f * r + r := Nat.succ_mul f r
      have hm : n - min n r ≤ f * r := by
        rcases Nat.le_total n r with h1 | h1
        · rw [Nat.min_eq_left h1]; omega
        · rw [Nat.min_eq_right h1]; omega
      have hle : min n r ≤ n := Nat.min_le_left n r
      have hcpy := memcpy_eq output state pos (min n r) (by omega)
      have hAl : (output.take pos).length = pos := by rw [List.length_take]; omega
      have hMl : ((List.range (min n r)).map (fun i => state.getD i 0)).length = min n r := by
        rw [List.length_map, List.length_range]
      have htd := take_drop_of_append3 (output.take pos)
        ((List.range (min n r)).map (fun i => state.getD i 0)) (output.drop (pos + min n r))
        pos (min n r) (n - min n r) hAl hMl
      have hlen1 : (memcpy output pos state (min n r)).length = output.length := by
        unfold memcpy
        exact AES128.foldl_length_eq _ (fun l x => List.length_set l _ _) _ _
      simp only [Keccak_squeeze, squeezeBytes, hn, if_true]
      by_cases hrest : n - min n r > 0
      · simp only [hrest, if_true]
        rw [ih _ _ _ _ hm (by rw [hlen1]; omega), hcpy, htd.1, htd.2, List.drop_drop]
        have e : pos + min n r + (n - min n r) = pos + n := by omega
        rw [e]
        simp only [List.append_assoc]
      · simp only [hrest, if_false]
        have e0 : n - min n r = 0 := by omega
        have e1 : min n r = n := by omega
        rw [e0, Keccak_squeeze_zero, hcpy, e1, List.append_nil]
    · have h0 : n = 0 := by omega
      subst h0
      rw [Keccak_squeeze_zero, squeezeBytes_zero]
      simp

end SHA3

/-! ## Keccak: the claims -/

namespace SHA3

theorem permute_of_lanes (L : List Nat) (hL : Lanes L) :
    KeccakF1600_StatePermute (bytesOfLanes L) = bytesOfLanes (permuteL L) :=
  (sim_permute (And.intro rfl hL)).1

theorem permuteL_zero : permuteL (List.replicate 25 0) = zeroImageLanes := by decide!

theorem permuteL_abc : permuteL abcLanes = abcImageLanes := by decide!

theorem KeccakF1600_zero : KeccakF1600_StatePermute (List.replicate 200 0) = zeroStateImage := by
  have e1 : List.replicate 200 0 = bytesOfLanes (List.replicate 25 0) := by decide
  have e2 : bytesOfLanes zeroImageLanes = zeroStateImage := by decide
  rw [e1, permute_of_lanes _ (by decide), permuteL_zero, e2]

/-- C4: `KeccakF1600_StatePermute` (24 rounds, LFSR seeded with 0x01) maps the all-zero
200-byte state to the published Keccak-f[1600] image of the zero state: its bytes begin
`E7 DD E1 40 79 8F 25 F1`, lane (0,0) is `0xF1258F7940E1DDE7` and lane (1,0) is
`0x84D5CCF933C0478A`. -/
theorem KeccakF1600_zero_state_vector :
    KeccakF1600_StatePermute (List.replicate 200 0) = zeroStateImage ∧
      (KeccakF1600_StatePermute (List.replicate 200 0)).take 8
        = [0xE7, 0xDD, 0xE1, 0x40, 0x79, 0x8F, 0x25, 0xF1] ∧
      readLane (KeccakF1600_StatePermute (List.replicate 200 0)) 0 0 = 0xF1258F7940E1DDE7 ∧
      readLane (KeccakF1600_StatePermute (List.replicate 200 0)) 1 0 = 0x84D5CCF933C0478A := by
  rw [KeccakF1600_zero]
  exact ⟨rfl, by decide, by decide, by decide⟩

end SHA3

namespace SHA3

theorem Keccak_xorBlock_three (a b c : Nat) (rest : List Nat) (x y z : Nat) (tail : List Nat) :
    Keccak_xorBlock (a :: b :: c :: rest) (x :: y :: z :: tail) 3
      = (a ^^^ x) :: (b ^^^ y) :: (c ^^^ z) :: rest := by
  have e : List.range 3 = [0, 1, 2] := by decide
  simp only [Keccak_xorBlock, e, List.foldl_cons, List.foldl_nil, List.set_cons_zero,
    List.set_cons_succ, List.getD_cons_zero, List.getD_cons_succ]

theorem Keccak_pad_abc :
    Keccak_pad 136 (0x61 :: 0x62 :: 0x63 :: List.replicate 197 0) 3 0x06
      = KeccakF1600_StatePermute (bytesOfLanes abcLanes) := by
  have c : ¬ ((0x06 : Nat) &&& 0x80 ≠ 0 ∧ (3 : Nat) = (136 + 2 ^ 32 - 1) % 2 ^ 32) := by decide
  simp only [Keccak_pad, c, if_false]
  congr 1

theorem Keccak_pad_abc1000 :
    Keccak_pad 125 (0x61 :: 0x62 :: 0x63 :: List.replicate 197 0) 3 0x06
      = KeccakF1600_StatePermute (bytesOfLanes abcLanes1000) := by
  have c : ¬ ((0x06 : Nat) &&& 0x80 ≠ 0 ∧ (3 : Nat) = (125 + 2 ^ 32 - 1) % 2 ^ 32) := by decide
  simp only [Keccak_pad, c, if_false]
  congr 1

theorem permuteL_abc1000 : permuteL abcLanes1000 = abcImageLanes1000 := by decide!

theorem squeezeBytes_single (r fuel : Nat) (state : List Nat) (n : Nat) (h0 : 0 < n)
    (h1 : n ≤ r) :
    squeezeBytes r (fuel + 1) state n = (List.range n).map (fun i => state.getD i 0) := by
  have hmin : min n r = n := Nat.min_eq_left h1
  simp only [squeezeBytes, h0, if_true, hmin, Nat.sub_self, Nat.lt_irrefl, if_false,
    List.append_nil, gt_iff_lt]

/-- A message "abc" shorter than one block, absorbed, padded, permuted once and squeezed
into at most one block of output. -/
theorem Keccak_abc_single_block (f rate capacity r : Nat) (tail : List Nat)
    (delimitedSuffix : Nat) (output : List Nat) (n : Nat) (L L2 : List Nat)
    (hr : rate / 8 = r) (hv : Keccak_rejects rate capacity = false) (h3 : 3 < r)
    (hn0 : 0 < n) (hn : n ≤ r) (hlen : n ≤ output.length)
    (hpad : Keccak_pad r (0x61 :: 0x62 :: 0x63 :: List.replicate 197 0) 3 delimitedSuffix
      = KeccakF1600_StatePermute (bytesOfLanes L))
    (hL : Lanes L) (hperm : permuteL L = L2) :
    Keccak (f + 1) rate capacity (0x61 :: 0x62 :: 0x63 :: tail) 3 delimitedSuffix output n
      = some ((List.range n).map (fun i => (bytesOfLanes L2).getD i 0) ++ output.drop n) := by
  have ha : Keccak_absorb (rate / 8) (f + 1) (List.replicate 200 0)
      (0x61 :: 0x62 :: 0x63 :: tail) 3 0
      = some (Keccak_xorBlock (List.replicate 200 0) (0x61 :: 0x62 :: 0x63 :: tail) 3, 3) :=
    Keccak_absorb_partial (rate / 8) f _ _ 3 0 (by decide) (by omega)
  have hz : List.replicate 200 0 = 0 :: 0 :: 0 :: List.replicate 197 0 := by decide
  have hx : Keccak_xorBlock (List.replicate 200 0) (0x61 :: 0x62 :: 0x63 :: tail) 3
      = 0x61 :: 0x62 :: 0x63 :: List.replicate 197 0 := by
    rw [hz, Keccak_xorBlock_three]
    rfl
  have hs : (f + 1) * r = f * r + r := Nat.succ_mul f r
  rw [Keccak_of_absorb _ _ _ _ _ _ _ _ _ _ hv ha, hx, hr, hpad, permute_of_lanes _ hL, hperm,
    Keccak_squeeze_eq r (f + 1) _ output 0 n (by omega) (by omega),
    squeezeBytes_single r f _ n hn0 hn]
  simp

/-- C3: `FIPS202_SHA3_256` on the 3-byte message "abc" (`61 62 63`, whatever follows it in
the input buffer) ends and overwrites the first 32 bytes of the output buffer with the
FIPS-202 digest `3a985da7 4fe225b2 045c172d 6bd390bd 855f086e 3e9d525b 46bfe245 11431532`,
leaving the rest of the buffer as it was. -/
theorem FIPS202_SHA3_256_abc (fuel : Nat) (tail output : List Nat) (hfuel : 1 ≤ fuel)
    (hlen : 32 ≤ output.length) :
    FIPS202_SHA3_256 fuel (0x61 :: 0x62 :: 0x63 :: tail) 3 output
      = some (sha3_256_abc ++ output.drop 32) := by
  obtain ⟨f, rfl⟩ : ∃ f, fuel = f + 1 := ⟨fuel - 1, by omega⟩
  have hd : (List.range 32).map (fun i => (bytesOfLanes abcImageLanes).getD i 0)
      = sha3_256_abc := by decide
  unfold FIPS202_SHA3_256
  rw [Keccak_abc_single_block f 1088 512 136 tail 0x06 output 32 abcLanes abcImageLanes
    (by decide) (by decide) (by decide) (by decide) (by decide) hlen Keccak_pad_abc (by decide)
    permuteL_abc, hd]

theorem FIPS202_SHA3_256_abc_witness :
    1 ≤ 1 ∧ 32 ≤ (List.replicate 64 0).length ∧
      FIPS202_SHA3_256 1 (0x61 :: 0x62 :: 0x63 :: List.replicate 13 0) 3 (List.replicate 64 0)
        = some (sha3_256_abc ++ (List.replicate 64 0).drop 32) :=
  ⟨by decide, by decide,
    FIPS202_SHA3_256_abc 1 (List.replicate 13 0) (List.replicate 64 0) (by decide) (by decide)⟩

/-- C7, as stated, fails on its own example: `rate = 1000`, `capacity = 600` has sum 1600 and
`1000 % 8 = 0`, so the validation of `Keccak` accepts it and the call writes output
(here the first two bytes of the buffer become `C9 BF`). -/
theorem Keccak_1000_600_writes_output :
    ((1000 + 600) % 2 ^ 32 = 1600 ∧ 1000 % 8 = 0) ∧ Keccak_rejects 1000 600 = false ∧
      Keccak 1 1000 600 [0x61, 0x62, 0x63] 3 0x06 [0, 0, 0, 0] 2
        = some [0xC9, 0xBF, 0, 0] := by
  have hd : (List.range 2).map (fun i => (bytesOfLanes abcImageLanes1000).getD i 0)
      ++ [0, 0, 0, 0].drop 2 = [0xC9, 0xBF, 0, 0] := by decide
  refine ⟨by decide, by decide, ?_⟩
  rw [Keccak_abc_single_block 0 1000 600 125 [] 0x06 [0, 0, 0, 0] 2 abcLanes1000
    abcImageLanes1000 (by decide) (by decide) (by decide) (by decide) (by decide) (by decide)
    Keccak_pad_abc1000 (by decide) permuteL_abc1000, hd]

/-- C7, amended: when the validation of `Keccak` fails, that is when the 32-bit sum
`rate + capacity` is not 1600 or `rate` is not a multiple of 8 (e.g. `rate = 1000`,
`capacity = 500`), the call returns with the output buffer unchanged, for every input,
suffix, buffer content and output length. -/
theorem Keccak_malformed_leaves_output (fuel rate capacity : Nat) (input : List Nat)
    (inputByteLen delimitedSuffix : Nat) (output : List Nat) (outputByteLen : Nat)
    (h : (rate + capacity) % 2 ^ 32 ≠ 1600 ∨ rate % 8 ≠ 0) :
    Keccak fuel rate capacity input inputByteLen delimitedSuffix output outputByteLen
      = some output :=
  Keccak_of_rejects fuel rate capacity input inputByteLen delimitedSuffix output outputByteLen
    ((Keccak_rejects_iff rate capacity).2 h)

theorem Keccak_malformed_leaves_output_witness :
    ((1000 + 500) % 2 ^ 32 ≠ 1600 ∨ 1000 % 8 ≠ 0) ∧
      Keccak 0 1000 500 [0x61, 0x62, 0x63] 3 0x06 [1, 2, 3, 4] 4 = some [1, 2, 3, 4] :=
  ⟨by decide,
    Keccak_malformed_leaves_output 0 1000 500 [0x61, 0x62, 0x63] 3 0x06 [1, 2, 3, 4] 4
      (by decide)⟩

/-- C8, as stated, fails: the rejected call `Keccak(1000, 500, ..)` and the accepted call
`Keccak(1088, 512, ..)` with `outputByteLen = 0` have the same observable result, the
untouched output buffer. -/
theorem Keccak_malformed_not_reported :
    Keccak_rejects 1000 500 = true ∧ Keccak_rejects 1088 512 = false ∧
      Keccak 1 1000 500 [0x61] 1 0x06 [7, 7] 2 = Keccak 1 1088 512 [0x61] 1 0x06 [7, 7] 0 := by
  refine ⟨by decide, by decide, ?_⟩
  rw [Keccak_of_rejects 1 1000 500 [0x61] 1 0x06 [7, 7] 2 (by decide),
    Keccak_zero_length 1 1088 512 [0x61] 1 0x06 [7, 7] (by decide) (by decide)]

theorem Keccak_rejects_of_valid (rate capacity : Nat) (hsum : rate + capacity = 1600)
    (hmul : rate % 8 = 0) : Keccak_rejects rate capacity = false := by
  cases hr : Keccak_rejects rate capacity
  · rfl
  · rcases (Keccak_rejects_iff rate capacity).1 hr with h | h
    · rw [hsum] at h; exact absurd rfl h
    · exact absurd hmul h

theorem rateInBytes_range_of_valid (rate capacity : Nat) (hsum : rate + capacity = 1600)
    (hr : 8 ≤ rate) : 1 ≤ rate / 8 ∧ rate / 8 ≤ 200 := by
  omega

/-- C8, amended: `Keccak` returns nothing, so a call with malformed parameters gives no failure
indicator: it leaves the output buffer unchanged, which is also the whole observable result
of every call with valid parameters (`rate + capacity = 1600` without wrap-around, `rate` a
multiple of 8 and at least 8, so that the rate in bytes is in 1..200) and
`outputByteLen = 0` on the same buffer. -/
theorem Keccak_malformed_same_as_zero_length (fuel rate capacity : Nat) (input : List Nat)
    (inputByteLen delimitedSuffix : Nat) (output : List Nat) (outputByteLen : Nat)
    (fuel2 rate2 capacity2 : Nat) (input2 : List Nat) (inputByteLen2 delimitedSuffix2 : Nat)
    (hbad : (rate + capacity) % 2 ^ 32 ≠ 1600 ∨ rate % 8 ≠ 0)
    (hok : rate2 + capacity2 = 1600 ∧ rate2 % 8 = 0 ∧ 8 ≤ rate2)
    (hfuel : inputByteLen2 ≤ fuel2 * (rate2 / 8)) :
    Keccak fuel rate capacity input inputByteLen delimitedSuffix output outputByteLen
      = some output ∧
    (1 ≤ rate2 / 8 ∧ rate2 / 8 ≤ 200) ∧
    Keccak fuel2 rate2 capacity2 input2 inputByteLen2 delimitedSuffix2 output 0
      = some output :=
  ⟨Keccak_of_rejects fuel rate capacity input inputByteLen delimitedSuffix
      output outputByteLen ((Keccak_rejects_iff rate capacity).2 hbad),
    rateInBytes_range_of_valid rate2 capacity2 hok.1 hok.2.2,
    Keccak_zero_length fuel2 rate2 capacity2 input2 inputByteLen2 delimitedSuffix2 output
      (Keccak_rejects_of_valid rate2 capacity2 hok.1 hok.2.1) hfuel⟩

theorem Keccak_malformed_same_as_zero_length_witness :
    ((1000 + 500) % 2 ^ 32 ≠ 1600 ∨ 1000 % 8 ≠ 0) ∧
      (1088 + 512 = 1600 ∧ 1088 % 8 = 0 ∧ 8 ≤ 1088) ∧ 1 ≤ 1 * (1088 / 8) ∧
      (Keccak 1 1000 500 [0x61] 1 0x06 [7, 7] 2 = some [7, 7] ∧
        (1 ≤ 1088 / 8 ∧ 1088 / 8 ≤ 200) ∧
        Keccak 1 1088 512 [0x61] 1 0x06 [7, 7] 0 = some [7, 7]) :=
  ⟨by decide, by decide, by decide,
    Keccak_malformed_same_as_zero_length 1 1000 500 [0x61] 1 0x06 [7, 7] 2 1 1088 512 [0x61] 1
      0x06 (by decide) (by decide) (by decide)⟩

theorem toULL_zero : toULL 0 = 0 := by decide

/-- C9: for every input message, `FIPS202_SHAKE128` and `FIPS202_SHAKE256` called with
`outputByteLen = 0` end (given one unit of fuel per input byte, which covers the absorbing
loop), produce no output byte and leave the output buffer as it was. -/
theorem SHAKE_zero_length_output (fuel : Nat) (input : List Nat) (inputByteLen : Nat)
    (output : List Nat) (hfuel : inputByteLen ≤ fuel) :
    FIPS202_SHAKE128 fuel input inputByteLen output 0 = some output ∧
      FIPS202_SHAKE256 fuel input inputByteLen output 0 = some output := by
  unfold FIPS202_SHAKE128 FIPS202_SHAKE256
  rw [toULL_zero]
  constructor
  · exact Keccak_zero_length fuel 1344 256 input inputByteLen 0x1F output (by decide)
      (by rw [show (1344 : Nat) / 8 = 168 from rfl]; omega)
  · exact Keccak_zero_length fuel 1088 512 input inputByteLen 0x1F output (by decide)
      (by rw [show (1088 : Nat) / 8 = 136 from rfl]; omega)

theorem SHAKE_zero_length_output_witness :
    3 ≤ 3 ∧
      (FIPS202_SHAKE128 3 [0x61, 0x62, 0x63] 3 [9, 9, 9, 9] 0 = some [9, 9, 9, 9] ∧
        FIPS202_SHAKE256 3 [0x61, 0x62, 0x63] 3 [9, 9, 9, 9] 0 = some [9, 9, 9, 9]) :=
  ⟨by decide, SHAKE_zero_length_output 3 [0x61, 0x62, 0x63] 3 [9, 9, 9, 9] (by decide)⟩

end SHA3

namespace SHA3

/-- An accepted call with enough fuel ends and overwrites exactly the first `n` bytes of the
output buffer, with bytes that do not depend on what the buffer held. -/
theorem Keccak_writes_exactly (fuel rate capacity : Nat) (input : List Nat)
    (inputByteLen delimitedSuffix n : Nat) (h : Keccak_rejects rate capacity = false)
    (hin : inputByteLen ≤ fuel * (rate / 8)) (hout : n ≤ fuel * (rate / 8)) :
    ∃ digest : List Nat, digest.length = n ∧ ∀ output : List Nat, n ≤ output.length →
      Keccak fuel rate capacity input inputByteLen delimitedSuffix output n
        = some (digest ++ output.drop n) := by
  obtain ⟨⟨state, blockSize⟩, ha⟩ :=
    Keccak_absorb_terminates (rate / 8) fuel (List.replicate 200 0) input inputByteLen 0 hin
  refine ⟨squeezeBytes (rate / 8) fuel (Keccak_pad (rate / 8) state blockSize delimitedSuffix) n,
    squeezeBytes_length _ _ _ _ hout, ?_⟩
  intro output hlen
  rw [Keccak_of_absorb fuel rate capacity input inputByteLen delimitedSuffix output n state
    blockSize h ha, Keccak_squeeze_eq (rate / 8) fuel _ output 0 n hout (by omega)]
  simp

theorem toULL_of_nonneg (n : Int) (h0 : 0 ≤ n) (h1 : n < 2 ^ 64) : toULL n = n.toNat := by
  unfold toULL
  rw [Int.emod_eq_of_lt h0 h1]

/-- C10: each of the six wrappers is the `Keccak` driver with the parameters of the table
(SHAKE128: 1344, 256, 0x1F; SHAKE256: 1088, 512, 0x1F; SHA3-224: 1152, 448, 0x06, 28;
SHA3-256: 1088, 512, 0x06, 32; SHA3-384: 832, 768, 0x06, 48; SHA3-512: 576, 1024, 0x06, 64);
each of these parameter sets passes the validation; and, with fuel for the input and the
output, for every input the SHA3 wrappers overwrite exactly the first 28, 32, 48 and 64 bytes
of the output buffer, while the SHAKE wrappers overwrite exactly the first `outputByteLen`
bytes for every `outputByteLen >= 0`. -/
theorem wrappers_parameters_and_output_length (fuel : Nat) (input : List Nat)
    (inputByteLen : Nat) (hin : inputByteLen ≤ fuel) (hfuel : 1 ≤ fuel) :
    ((∀ output n, FIPS202_SHAKE128 fuel input inputByteLen output n
          = Keccak fuel 1344 256 input inputByteLen 0x1F output (toULL n)) ∧
      (∀ output n, FIPS202_SHAKE256 fuel input inputByteLen output n
          = Keccak fuel 1088 512 input inputByteLen 0x1F output (toULL n)) ∧
      (∀ output, FIPS202_SHA3_224 fuel input inputByteLen output
          = Keccak fuel 1152 448 input inputByteLen 0x06 output 28) ∧
      (∀ output, FIPS202_SHA3_256 fuel input inputByteLen output
          = Keccak fuel 1088 512 input inputByteLen 0x06 output 32) ∧
      (∀ output, FIPS202_SHA3_384 fuel input inputByteLen output
          = Keccak fuel 832 768 input inputByteLen 0x06 output 48) ∧
      (∀ output, FIPS202_SHA3_512 fuel input inputByteLen output
          = Keccak fuel 576 1024 input inputByteLen 0x06 output 64)) ∧
    (Keccak_rejects 1344 256 = false ∧ Keccak_rejects 1088 512 = false ∧
      Keccak_rejects 1152 448 = false ∧ Keccak_rejects 832 768 = false ∧
      Keccak_rejects 576 1024 = false) ∧
    ((∃ digest : List Nat, digest.length = 28 ∧ ∀ output : List Nat, 28 ≤ output.length →
        FIPS202_SHA3_224 fuel input inputByteLen output = some (digest ++ output.drop 28)) ∧
      (∃ digest : List Nat, digest.length = 32 ∧ ∀ output : List Nat, 32 ≤ output.length →
        FIPS202_SHA3_256 fuel input inputByteLen output = some (digest ++ output.drop 32)) ∧
      (∃ digest : List Nat, digest.length = 48 ∧ ∀ output : List Nat, 48 ≤ output.length →
        FIPS202_SHA3_384 fuel input inputByteLen output = some (digest ++ output.drop 48)) ∧
      (∃ digest : List Nat, digest.length = 64 ∧ ∀ output : List Nat, 64 ≤ output.length →
        FIPS202_SHA3_512 fuel input inputByteLen output = some (digest ++ output.drop 64))) ∧
    (∀ outputByteLen : Int, 0 ≤ outputByteLen → outputByteLen < 2 ^ 64 →
      outputByteLen.toNat ≤ fuel →
      (∃ bytes : List Nat, bytes.length = outputByteLen.toNat ∧
        ∀ output : List Nat, outputByteLen.toNat ≤ output.length →
          FIPS202_SHAKE128 fuel input inputByteLen output outputByteLen
            = some (bytes ++ output.drop outputByteLen.toNat)) ∧
      (∃ bytes : List Nat, bytes.length = outputByteLen.toNat ∧
        ∀ output : List Nat, outputByteLen.toNat ≤ output.length →
          FIPS202_SHAKE256 fuel input inputByteLen output outputByteLen
            = some (bytes ++ output.drop outputByteLen.toNat))) := by
  refine ⟨⟨fun _ _ => rfl, fun _ _ => rfl, fun _ => rfl, fun _ => rfl, fun _ => rfl,
    fun _ => rfl⟩, ⟨by decide, by decide, by decide, by decide, by decide⟩, ⟨?_, ?_, ?_, ?_⟩, ?_⟩
  · exact Keccak_writes_exactly fuel 1152 448 input inputByteLen 0x06 28 (by decide)
      (by rw [show (1152 : Nat) / 8 = 144 from rfl]; omega)
      (by rw [show (1152 : Nat) / 8 = 144 from rfl]; omega)
  · exact Keccak_writes_exactly fuel 1088 512 input inputByteLen 0x06 32 (by decide)
      (by rw [show (1088 : Nat) / 8 = 136 from rfl]; omega)
      (by rw [show (1088 : Nat) / 8 = 136 from rfl]; omega)
  · exact Keccak_writes_exactly fuel 832 768 input inputByteLen 0x06 48 (by decide)
      (by rw [show (832 : Nat) / 8 = 104 from rfl]; omega)
      (by rw [show (832 : Nat) / 8 = 104 from rfl]; omega)
  · exact Keccak_writes_exactly fuel 576 1024 input inputByteLen 0x06 64 (by decide)
      (by rw [show (576 : Nat) / 8 = 72 from rfl]; omega)
      (by rw [show (576 : Nat) / 8 = 72 from rfl]; omega)
  · intro n h0 h1 hn
    have e := toULL_of_nonneg n h0 h1
    constructor
    · have h := Keccak_writes_exactly fuel 1344 256 input inputByteLen 0x1F n.toNat (by decide)
        (by rw [show (1344 : Nat) / 8 = 168 from rfl]; omega)
        (by rw [show (1344 : Nat) / 8 = 168 from rfl]; omega)
      unfold FIPS202_SHAKE128
      rw [e]
      exact h
    · have h := Keccak_writes_exactly fuel 1088 512 input inputByteLen 0x1F n.toNat (by decide)
        (by rw [show (1088 : Nat) / 8 = 136 from rfl]; omega)
        (by rw [show (1088 : Nat) / 8 = 136 from rfl]; omega)
      unfold FIPS202_SHAKE256
      rw [e]
      exact h

theorem wrappers_parameters_and_output_length_witness :
    3 ≤ 64 ∧ 1 ≤ 64 ∧
    (((∀ output n, FIPS202_SHAKE128 64 [0x61, 0x62, 0x63] 3 output n
          = Keccak 64 1344 256 [0x61, 0x62, 0x63] 3 0x1F output (toULL n)) ∧
      (∀ output n, FIPS202_SHAKE256 64 [0x61, 0x62, 0x63] 3 output n
          = Keccak 64 1088 512 [0x61, 0x62, 0x63] 3 0x1F output (toULL n)) ∧
      (∀ output, FIPS202_SHA3_224 64 [0x61, 0x62, 0x63] 3 output
          = Keccak 64 1152 448 [0x61, 0x62, 0x63] 3 0x06 output 28) ∧
      (∀ output, FIPS202_SHA3_256 64 [0x61, 0x62, 0x63] 3 output
          = Keccak 64 1088 512 [0x61, 0x62, 0x63] 3 0x06 output 32) ∧
      (∀ output, FIPS202_SHA3_384 64 [0x61, 0x62, 0x63] 3 output
          = Keccak 64 832 768 [0x61, 0x62, 0x63] 3 0x06 output 48) ∧
      (∀ output, FIPS202_SHA3_512 64 [0x61, 0x62, 0x63] 3 output
          = Keccak 64 576 1024 [0x61, 0x62, 0x63] 3 0x06 output 64)) ∧
    (Keccak_rejects 1344 256 = false ∧ Keccak_rejects 1088 512 = false ∧
      Keccak_rejects 1152 448 = false ∧ Keccak_rejects 832 768 = false ∧
      Keccak_rejects 576 1024 = false) ∧
    ((∃ digest : List Nat, digest.length = 28 ∧ ∀ output : List Nat, 28 ≤ output.length →
        FIPS202_SHA3_224 64 [0x61, 0x62, 0x63] 3 output = some (digest ++ output.drop 28)) ∧
      (∃ digest : List Nat, digest.length = 32 ∧ ∀ output : List Nat, 32 ≤ output.length →
        FIPS202_SHA3_256 64 [0x61, 0x62, 0x63] 3 output = some (digest ++ output.drop 32)) ∧
      (∃ digest : List Nat, digest.length = 48 ∧ ∀ output : List Nat, 48 ≤ output.length →
        FIPS202_SHA3_384 64 [0x61, 0x62, 0x63] 3 output = some (digest ++ output.drop 48)) ∧
      (∃ digest : List Nat, digest.length = 64 ∧ ∀ output : List Nat, 64 ≤ output.length →
        FIPS202_SHA3_512 64 [0x61, 0x62, 0x63] 3 output = some (digest ++ output.drop 64))) ∧
    (∀ outputByteLen : Int, 0 ≤ outputByteLen → outputByteLen < 2 ^ 64 →
      outputByteLen.toNat ≤ 64 →
      (∃ bytes : List Nat, bytes.length = outputByteLen.toNat ∧
        ∀ output : List Nat, outputByteLen.toNat ≤ output.length →
          FIPS202_SHAKE128 64 [0x61, 0x62, 0x63] 3 output outputByteLen
            = some (bytes ++ output.drop outputByteLen.toNat)) ∧
      (∃ bytes : List Nat, bytes.length = outputByteLen.toNat ∧
        ∀ output : List Nat, outputByteLen.toNat ≤ output.length →
          FIPS202_SHAKE256 64 [0x61, 0x62, 0x63] 3 output outputByteLen
            = some (bytes ++ output.drop outputByteLen.toNat)))) :=
  ⟨by decide, by decide,
    wrappers_parameters_and_output_length 64 [0x61, 0x62, 0x63] 3 (by decide) (by decide)⟩

end SHA3

/-! ## AES-128: the key schedule is the FIPS-197 key expansion -/

namespace AES128

theorem agree_mono {n m : Nat} {a b : List Nat} (h : Agree n a b) (hm : m ≤ n) : Agree m a b :=
  ⟨h.1, fun j hj => h.2 j (Nat.lt_of_lt_of_le hj hm)⟩

theorem agree_set_self (kg : List Nat) (n v : Nat) : Agree n kg (kg.set n v) := by
  refine ⟨by rw [List.length_set], ?_⟩
  intro j hj
  rw [getD_set_eq, if_neg]
  intro c
  omega

theorem agree_set_right {n i : Nat} {a b : List Nat} (h : Agree n a b) (hi : n ≤ i) (v : Nat) :
    Agree n a (b.set i v) := by
  refine ⟨by rw [List.length_set]; exact h.1, ?_⟩
  intro j hj
  rw [getD_set_eq, if_neg (fun c => by omega)]
  exact h.2 j hj

theorem agree_rfl (n : Nat) (a : List Nat) : Agree n a a := ⟨rfl, fun _ _ => rfl⟩

theorem schedByte_local (key : List Nat) (a b : List Nat) (j : Nat) (h : Agree j a b) :
    schedByte key a j = schedByte key b j := by
  unfold schedByte
  by_cases h16 : j < 16
  · rw [if_pos h16, if_pos h16]
  · rw [if_neg h16, if_neg h16]
    rw [agree_getD h (show j - 3 < j by omega), agree_getD h (show j - 16 < j by omega),
      agree_getD h (show j - 7 < j by omega), agree_getD h (show j - 4 < j by omega)]

theorem filled_set {E : List Nat → Nat → Nat}
    (hE : ∀ a b j, Agree j a b → E a j = E b j) {n : Nat} {kg : List Nat}
    (h : Filled E n kg) (hn : n < kg.length) {i m v : Nat} (hv : v = E kg n) (hi : i = n)
    (hm : m = n + 1) : Filled E m (kg.set i v) := by
  subst hi hm
  intro j hj
  have hag : Agree j kg (kg.set i v) := agree_mono (agree_set_self kg i v) (by omega)
  rw [← hE _ _ j hag, getD_set_eq]
  by_cases hji : i = j
  · subst hji
    rw [if_pos ⟨rfl, hn⟩, hv]
  · rw [if_neg (fun c => hji c.1)]
    exact h j (by omega)

theorem filled_fill {E : List Nat → Nat → Nat}
    (hE : ∀ a b j, Agree j a b → E a j = E b j) (base : Nat) (f : List Nat → Nat → Nat)
    (s0 s1 : Nat) (hf : ∀ kg x, s0 ≤ x → x < s1 → f kg x = E kg (base + x)) :
    ∀ (len s : Nat) (kg : List Nat), s0 ≤ s → s + len ≤ s1 → base + s + len ≤ kg.length →
      Filled E (base + s) kg →
      Filled E (base + s + len)
        ((List.range' s len).foldl (fun kg x => kg.set (base + x) (f kg x)) kg) := by
  intro len
  induction len with
  | zero => intro s kg _ _ _ h; simpa using h
  | succ len ih =>
    intro s kg hs hs1 hl h
    rw [List.range'_succ, List.foldl_cons]
    have h1 : Filled E (base + (s + 1)) (kg.set (base + s) (f kg s)) :=
      filled_set hE h (by omega) (hf kg s hs (by omega)) rfl rfl
    have h2 := ih (s + 1) _ (by omega) (by omega) (by rw [List.length_set]; omega) h1
    have e : base + (s + 1) + len = base + s + (len + 1) := by omega
    rw [e] at h2
    exact h2

theorem Generate_Key_load_filled (keys : CryptoKeys) (kg : List Nat) (K : Nat)
    (hl : kg.length = 176) :
    Filled (schedByte (selectedKey keys K)) 16 (Generate_Key_load keys kg K) := by
  rw [Generate_Key_load_eq]
  refine filled_fill (schedByte_local _) 0 _ 0 16 ?_ 16 0 kg (Nat.le_refl 0) (by omega)
    (by omega) ?_
  · intro kg x _ hx
    simp only [schedByte, Nat.zero_add, if_pos hx]
  · intro j hj; omega

theorem Generate_Key_round_filled (key : List Nat) {ii : Nat} (h1 : 1 ≤ ii) (h10 : ii ≤ 10)
    {kg : List Nat} (hl : kg.length = 176) (h : Filled (schedByte key) (ii * 16) kg) :
    Filled (schedByte key) (ii * 16 + 16) (Generate_Key_round kg ii) := by
  simp only [Generate_Key_round, MAX_LENGTH]
  have e : ii * 16 + 16 = ii * 16 + 4 + 12 := by omega
  rw [e]
  refine filled_fill (schedByte_local key) (ii * 16) _ 4 16 ?_ 12 4 _ (Nat.le_refl 4)
    (by omega) (by simp only [List.length_set, List.foldl_cons, List.foldl_nil]; omega) ?_
  · intro kg x hx hx16
    have e1 : ¬ ii * 16 + x < 16 := by omega
    have e2 : (ii * 16 + x) % 16 = x := by omega
    have e3 : ¬ x = 0 := by omega
    have e4 : ¬ x < 3 := by omega
    have e5 : ¬ x = 3 := by omega
    simp only [schedByte, if_neg e1, e2, if_neg e3, if_neg e4, if_neg e5]
    rw [show ii * 16 + x - 16 = (ii - 1) * 16 + x by omega,
      show ii * 16 + x - 4 = ii * 16 + (x - 4) by omega]
  refine filled_set (schedByte_local key) (n := ii * 16 + 3) ?_
    (by simp only [List.length_set, List.foldl_cons, List.foldl_nil]; omega) ?_ rfl rfl
  · have e2 : ii * 16 + 3 = ii * 16 + 1 + 2 := by omega
    rw [e2]
    refine filled_fill (schedByte_local key) (ii * 16) _ 1 3 ?_ 2 1 _ (Nat.le_refl 1)
      (by omega) (by simp only [List.length_set]; omega) ?_
    · intro kg x hx hx3
      have e1 : ¬ ii * 16 + x < 16 := by omega
      have e2 : (ii * 16 + x) % 16 = x := by omega
      have e3 : ¬ x = 0 := by omega
      simp only [schedByte, if_neg e1, e2, if_neg e3, if_pos hx3]
      rw [show ii * 16 + x - 16 = (ii - 1) * 16 + x by omega,
        show ii * 16 + x - 3 = ii * 16 - (3 - x) by omega]
    · refine filled_set (schedByte_local key) (n := ii * 16) h (by omega) ?_ rfl rfl
      have e1 : ¬ ii * 16 < 16 := by omega
      have e2 : (ii * 16) % 16 = 0 := by omega
      simp only [schedByte, if_neg e1, e2, if_true]
      rw [show ii * 16 - 16 = (ii - 1) * 16 + 0 by omega,
        show ii * 16 / 16 = ii by omega]
  · have hX : ∀ X : List Nat, Agree (ii * 16) kg X →
        S_Box.getD (kg.getD (ii * 16 - 4) 0) 0 ^^^ X.getD ((ii - 1) * 16 + 3) 0 =
          schedByte key X (ii * 16 + 3) := by
      intro X hag
      have e1 : ¬ ii * 16 + 3 < 16 := by omega
      have e2 : (ii * 16 + 3) % 16 = 3 := by omega
      simp only [schedByte, if_neg e1, e2]
      rw [show ii * 16 + 3 - 16 = (ii - 1) * 16 + 3 by omega,
        show ii * 16 + 3 - 7 = ii * 16 - 4 by omega,
        agree_getD hag (show ii * 16 - 4 < ii * 16 by omega)]
      simp
    simp only [List.foldl_cons, List.foldl_nil]
    exact hX _ (agree_set_right (agree_set_right (agree_set_right (agree_rfl _ _) (by omega) _)
      (by omega) _) (by omega) _)

theorem Generate_Key_rounds_filled (key : List Nat) :
    ∀ (len s : Nat) (kg : List Nat), 1 ≤ s → s + len ≤ 11 → kg.length = 176 →
      Filled (schedByte key) (s * 16) kg →
      Filled (schedByte key) ((s + len) * 16) ((List.range' s len).foldl Generate_Key_round kg) := by
  intro len
  induction len with
  | zero => intro s kg _ _ _ h; simpa using h
  | succ len ih =>
    intro s kg hs hs11 hl h
    rw [List.range'_succ, List.foldl_cons]
    have h1 := Generate_Key_round_filled key hs (by omega) hl h
    have e1 : s * 16 + 16 = (s + 1) * 16 := by omega
    rw [e1] at h1
    have h2 := ih (s + 1) _ (by omega) (by omega)
      (by rw [Generate_Key_round_length]; exact hl) h1
    have e2 : (s + 1 + len) * 16 = (s + (len + 1)) * 16 := by omega
    rw [← e2]
    exact h2

theorem Generate_Key_filled (keys : CryptoKeys) (kg : List Nat) (K : Nat)
    (hl : kg.length = 176) :
    Filled (schedByte (selectedKey keys K)) 176 (Generate_Key keys kg K) := by
  rw [Generate_Key_eq_foldl]
  have h0 := Generate_Key_load_filled keys kg K hl
  have hl0 : (Generate_Key_load keys kg K).length = 176 := by
    rw [Generate_Key_load_eq, foldl_length_eq _ (fun l x => List.length_set l _ _)]
    exact hl
  exact Generate_Key_rounds_filled _ 10 1 _ (Nat.le_refl 1) (by omega) hl0 h0

theorem R_Con_eq_Rcon (q : Nat) (h1 : 1 ≤ q) (h10 : q ≤ 10) : R_Con.getD q 0 = Rcon q := by
  interval_cases q <;> rfl

/-- The schedule that `Generate_Key` builds satisfies the word recurrence of FIPS-197. -/
theorem Generate_Key_word_rec (keys : CryptoKeys) (kg : List Nat) (K : Nat)
    (hl : kg.length = 176) (i : Nat) (h4 : 4 ≤ i) (h44 : i < 44) :
    word (Generate_Key keys kg K) i =
      if i % 4 = 0 then
        xorWord (xorWord (word (Generate_Key keys kg K) (i - 4))
          (SubWord (RotWord (word (Generate_Key keys kg K) (i - 1))))) [Rcon (i / 4), 0, 0, 0]
      else xorWord (word (Generate_Key keys kg K) (i - 4)) (word (Generate_Key keys kg K) (i - 1)) := by
  have hF := Generate_Key_filled keys kg K hl
  generalize Generate_Key keys kg K = G at hF ⊢
  have b0 := hF (4 * i) (by omega)
  have b1 := hF (4 * i + 1) (by omega)
  have b2 := hF (4 * i + 2) (by omega)
  have b3 := hF (4 * i + 3) (by omega)
  have n0 : ¬ 4 * i < 16 := by omega
  have n1 : ¬ 4 * i + 1 < 16 := by omega
  have n2 : ¬ 4 * i + 2 < 16 := by omega
  have n3 : ¬ 4 * i + 3 < 16 := by omega
  simp only [schedByte, if_neg n0, if_neg n1, if_neg n2, if_neg n3] at b0 b1 b2 b3
  by_cases hi : i % 4 = 0
  · have m0 : (4 * i) % 16 = 0 := by omega
    have m1 : (4 * i + 1) % 16 = 1 := by omega
    have m2 : (4 * i + 2) % 16 = 2 := by omega
    have m3 : (4 * i + 3) % 16 = 3 := by omega
    have q : 4 * i / 16 = i / 4 := by omega
    simp only [m0, m1, m2, m3, if_true, q, R_Con_eq_Rcon (i / 4) (by omega) (by omega),
      show ¬ (1 : Nat) = 0 by decide, show (1 : Nat) < 3 by decide, if_false,
      show ¬ (2 : Nat) = 0 by decide, show (2 : Nat) < 3 by decide,
      show ¬ (3 : Nat) = 0 by decide, show ¬ (3 : Nat) < 3 by decide] at b0 b1 b2 b3
    rw [if_pos hi]
    simp only [word, RotWord, SubWord, xorWord, List.zipWith_cons_cons, List.zipWith_nil_left,
      List.map_cons, List.map_nil, List.getD_cons_zero, List.getD_cons_succ, Nat.xor_zero]
    rw [b0, b1, b2, b3,
      show 4 * i - 3 = 4 * (i - 1) + 1 by omega, show 4 * i + 1 - 3 = 4 * (i - 1) + 2 by omega,
      show 4 * i + 2 - 3 = 4 * (i - 1) + 3 by omega, show 4 * i + 3 - 7 = 4 * (i - 1) by omega,
      show 4 * i - 16 = 4 * (i - 4) by omega, show 4 * i + 1 - 16 = 4 * (i - 4) + 1 by omega,
      show 4 * i + 2 - 16 = 4 * (i - 4) + 2 by omega,
      show 4 * i + 3 - 16 = 4 * (i - 4) + 3 by omega]
    simp only [Nat.xor_comm]
  · have m0 : ¬ (4 * i) % 16 = 0 := by omega
    have m1 : ¬ (4 * i + 1) % 16 = 0 := by omega
    have m2 : ¬ (4 * i + 2) % 16 = 0 := by omega
    have m3 : ¬ (4 * i + 3) % 16 = 0 := by omega
    have k0 : ¬ (4 * i) % 16 < 3 := by omega
    have k1 : ¬ (4 * i + 1) % 16 < 3 := by omega
    have k2 : ¬ (4 * i + 2) % 16 < 3 := by omega
    have k3 : ¬ (4 * i + 3) % 16 < 3 := by omega
    have l0 : ¬ (4 * i) % 16 = 3 := by omega
    have l1 : ¬ (4 * i + 1) % 16 = 3 := by omega
    have l2 : ¬ (4 * i + 2) % 16 = 3 := by omega
    have l3 : ¬ (4 * i + 3) % 16 = 3 := by omega
    simp only [if_neg m0, if_neg m1, if_neg m2, if_neg m3, if_neg k0, if_neg k1, if_neg k2,
      if_neg k3, if_neg l0, if_neg l1, if_neg l2, if_neg l3] at b0 b1 b2 b3
    rw [if_neg hi]
    simp only [word, xorWord, List.zipWith_cons_cons, List.zipWith_nil_left]
    rw [b0, b1, b2, b3,
      show 4 * i - 4 = 4 * (i - 1) by omega, show 4 * i + 1 - 4 = 4 * (i - 1) + 1 by omega,
      show 4 * i + 2 - 4 = 4 * (i - 1) + 2 by omega, show 4 * i + 3 - 4 = 4 * (i - 1) + 3 by omega,
      show 4 * i - 16 = 4 * (i - 4) by omega, show 4 * i + 1 - 16 = 4 * (i - 4) + 1 by omega,
      show 4 * i + 2 - 16 = 4 * (i - 4) + 2 by omega,
      show 4 * i + 3 - 16 = 4 * (i - 4) + 3 by omega]

theorem take_succ_getD (l : List Nat) (n : Nat) (h : n < l.length) :
    l.take (n + 1) = l.take n ++ [l.getD n 0] := by
  rw [List.take_succ, List.getD_eq_getElem?_getD, List.getElem?_eq_getElem h]
  simp

theorem getD_take_of_lt (l : List Nat) {m j : Nat} (h : j < m) :
    (l.take m).getD j 0 = l.getD j 0 := by
  rw [List.getD_eq_getElem?_getD, List.getD_eq_getElem?_getD, List.getElem?_take_of_lt h]

theorem take_word (l : List Nat) (i : Nat) (h : 4 * i + 4 ≤ l.length) :
    l.take (4 * (i + 1)) = l.take (4 * i) ++ word l i := by
  rw [show 4 * (i + 1) = 4 * i + 1 + 1 + 1 + 1 by omega, take_succ_getD _ _ (by omega),
    take_succ_getD _ _ (by omega), take_succ_getD _ _ (by omega), take_succ_getD _ _ (by omega)]
  simp [word, Nat.add_assoc]

theorem word_take (l : List Nat) {m i : Nat} (h : 4 * i + 4 ≤ m) :
    word (l.take m) i = word l i := by
  simp only [word]
  rw [getD_take_of_lt l (show 4 * i < m by omega), getD_take_of_lt l (show 4 * i + 1 < m by omega),
    getD_take_of_lt l (show 4 * i + 2 < m by omega), getD_take_of_lt l (show 4 * i + 3 < m by omega)]

theorem xorWord_assoc_word (l : List Nat) (i : Nat) (b c : List Nat) :
    xorWord (xorWord (word l i) b) c = xorWord (word l i) (xorWord b c) := by
  simp only [word, xorWord]
  rcases b with _ | ⟨b0, _ | ⟨b1, _ | ⟨b2, _ | ⟨b3, b⟩⟩⟩⟩ <;>
    rcases c with _ | ⟨c0, _ | ⟨c1, _ | ⟨c2, _ | ⟨c3, c⟩⟩⟩⟩ <;>
    simp [Nat.xor_assoc]

theorem Generate_Key_take_16 (keys : CryptoKeys) (kg : List Nat) (K : Nat)
    (hk : (selectedKey keys K).length = 16) (hl : kg.length = 176) :
    (Generate_Key keys kg K).take 16 = selectedKey keys K := by
  have hF := Generate_Key_filled keys kg K hl
  have hG := Generate_Key_length keys kg K
  apply List.ext_getElem
  · rw [List.length_take, hG, hl, hk]; rfl
  · intro j h1 h2
    have hj : j < 16 := by rw [hk] at h2; exact h2
    have e := hF j (by omega)
    simp only [schedByte, if_pos hj] at e
    rw [List.getD_eq_getElem?_getD, List.getD_eq_getElem?_getD,
      List.getElem?_eq_getElem (by rw [hG, hl]; omega), List.getElem?_eq_getElem h2] at e
    simp only [Option.getD_some] at e
    rw [List.getElem_take]
    exact e

theorem KeyExpansion_steps (G : List Nat) (hG : G.length = 176)
    (hrec : ∀ i, 4 ≤ i → i < 44 → word G i =
      if i % 4 = 0 then
        xorWord (xorWord (word G (i - 4)) (SubWord (RotWord (word G (i - 1)))))
          [Rcon (i / 4), 0, 0, 0]
      else xorWord (word G (i - 4)) (word G (i - 1))) :
    ∀ n, n ≤ 40 →
      (List.range' 4 n).foldl (fun w i =>
        let temp := word w (i - 1)
        let temp :=
          if i % 4 = 0 then xorWord (SubWord (RotWord temp)) [Rcon (i / 4), 0, 0, 0] else temp
        w ++ xorWord (word w (i - 4)) temp) (G.take 16) = G.take (4 * (4 + n)) := by
  intro n
  induction n with
  | zero => intro _; rfl
  | succ n ih =>
    intro hn
    rw [List.range'_concat, List.foldl_append, ih (by omega)]
    simp only [List.foldl_cons, List.foldl_nil, Nat.one_mul]
    rw [word_take G (show 4 * (4 + n - 1) + 4 ≤ 4 * (4 + n) by omega),
      word_take G (show 4 * (4 + n - 4) + 4 ≤ 4 * (4 + n) by omega),
      show 4 + (n + 1) = (4 + n) + 1 by omega, take_word G (4 + n) (by omega),
      hrec (4 + n) (by omega) (by omega)]
    by_cases h : (4 + n) % 4 = 0
    · rw [if_pos h, if_pos h, xorWord_assoc_word]
    · rw [if_neg h, if_neg h]

theorem Generate_Key_eq_KeyExpansion (keys : CryptoKeys) (kg : List Nat) (K : Nat)
    (hk : (selectedKey keys K).length = 16) (hl : kg.length = 176) :
    Generate_Key keys kg K = KeyExpansion (selectedKey keys K) := by
  have hG : (Generate_Key keys kg K).length = 176 := by rw [Generate_Key_length, hl]
  have h := KeyExpansion_steps (Generate_Key keys kg K) hG
    (fun i h4 h44 => Generate_Key_word_rec keys kg K hl i h4 h44) 40 (Nat.le_refl 40)
  rw [Generate_Key_take_16 keys kg K hk hl] at h
  unfold KeyExpansion
  rw [h, List.take_of_length_le (by rw [hG])]

theorem xorWord_comm_word (l : List Nat) (i : Nat) (b : List Nat) :
    xorWord (word l i) b = xorWord b (word l i) := by
  simp only [word, xorWord]
  rcases b with _ | ⟨b0, _ | ⟨b1, _ | ⟨b2, _ | ⟨b3, b⟩⟩⟩⟩ <;> simp [Nat.xor_comm]

theorem KeyExpansion_fips_last_round_key :
    (KeyExpansion fipsKey).drop 160 =
      [0x13, 0x11, 0x1d, 0x7f, 0xe3, 0x94, 0x4a, 0x17, 0xf3, 0x07, 0xa7, 0x8b, 0x4d, 0x2b,
        0x30, 0xc5] := by
  decide!

/-- C12: for every 16-byte key, the schedule built by `Generate_Key` is the FIPS-197 AES-128
`KeyExpansion` of the selected key: its bytes 0..15 are the raw key, and, as 44 four-byte
words, each word `i` in 4..43 is `w[i-4] XOR SubWord(RotWord(w[i-1])) XOR (Rcon[i/4],0,0,0)`
when `i % 4 = 0` and `w[i-4] XOR w[i-1]` otherwise. -/
theorem Generate_Key_is_KeyExpansion (keys : CryptoKeys) (KeyGen : List Nat) (K i : Nat)
    (hkeys : keys.WF) (hKeyGen : KeyGen.length = 176) (h4 : 4 ≤ i) (h44 : i < 44) :
    Generate_Key keys KeyGen K = KeyExpansion (selectedKey keys K) ∧
      (Generate_Key keys KeyGen K).length = 176 ∧
      (Generate_Key keys KeyGen K).take 16 = selectedKey keys K ∧
      word (Generate_Key keys KeyGen K) i =
        (if i % 4 = 0 then
          xorWord (xorWord (word (Generate_Key keys KeyGen K) (i - 4))
            (SubWord (RotWord (word (Generate_Key keys KeyGen K) (i - 1)))))
            [Rcon (i / 4), 0, 0, 0]
        else
          xorWord (word (Generate_Key keys KeyGen K) (i - 4))
            (word (Generate_Key keys KeyGen K) (i - 1))) :=
  ⟨Generate_Key_eq_KeyExpansion keys KeyGen K (selectedKey_isBytes keys hkeys K).1 hKeyGen,
    by rw [Generate_Key_length, hKeyGen],
    Generate_Key_take_16 keys KeyGen K (selectedKey_isBytes keys hkeys K).1 hKeyGen,
    Generate_Key_word_rec keys KeyGen K hKeyGen i h4 h44⟩

theorem Generate_Key_is_KeyExpansion_witness :
    CryptoKeys.WF ⟨fipsKey, fipsCipher⟩ ∧ (List.replicate 176 0).length = 176 ∧
    (4 : Nat) ≤ 40 ∧ (40 : Nat) < 44 ∧
    (Generate_Key ⟨fipsKey, fipsCipher⟩ (List.replicate 176 0) 0
        = KeyExpansion (selectedKey ⟨fipsKey, fipsCipher⟩ 0) ∧
      (Generate_Key ⟨fipsKey, fipsCipher⟩ (List.replicate 176 0) 0).length = 176 ∧
      (Generate_Key ⟨fipsKey, fipsCipher⟩ (List.replicate 176 0) 0).take 16
        = selectedKey ⟨fipsKey, fipsCipher⟩ 0 ∧
      word (Generate_Key ⟨fipsKey, fipsCipher⟩ (List.replicate 176 0) 0) 40 =
        (if 40 % 4 = 0 then
          xorWord (xorWord (word (Generate_Key ⟨fipsKey, fipsCipher⟩ (List.replicate 176 0) 0)
              (40 - 4))
            (SubWord (RotWord (word (Generate_Key ⟨fipsKey, fipsCipher⟩ (List.replicate 176 0) 0)
              (40 - 1)))))
            [Rcon (40 / 4), 0, 0, 0]
        else
          xorWord (word (Generate_Key ⟨fipsKey, fipsCipher⟩ (List.replicate 176 0) 0) (40 - 4))
            (word (Generate_Key ⟨fipsKey, fipsCipher⟩ (List.replicate 176 0) 0) (40 - 1)))) :=
  ⟨by decide, by decide, by decide, by decide,
    Generate_Key_is_KeyExpansion ⟨fipsKey, fipsCipher⟩ (List.replicate 176 0) 0 40 (by decide)
      (by decide) (by decide) (by decide)⟩

/-- C13 as stated fails: for the FIPS-197 reference key the first word of round key 2 is not
the rotated and substituted last word of round key 1 XORed with the first word of round key 0
(two rounds back) and `R_Con[2]`. -/
theorem first_word_not_from_two_rounds_back :
    word (Generate_Key ⟨fipsKey, fipsCipher⟩ (List.replicate 176 0) 0) (4 * 2) ≠
      firstWordRule (Generate_Key ⟨fipsKey, fipsCipher⟩ (List.replicate 176 0) 0) 2 2 := by
  decide!

/-- C13, amended: in the schedule built by `Generate_Key`, for each round `r = 1..10`, the
first four-byte word of round key `r` is the byte-rotated, S-box-substituted last word of
round key `r - 1`, XORed with the first word of round key `r - 1` (one round back) and with
`R_Con[r]` in its first byte. -/
theorem first_word_from_previous_round (keys : CryptoKeys) (KeyGen : List Nat) (K r : Nat)
    (hKeyGen : KeyGen.length = 176) (h1 : 1 ≤ r) (h10 : r ≤ 10) :
    word (Generate_Key keys KeyGen K) (4 * r) = firstWordRule (Generate_Key keys KeyGen K) r 1 := by
  rw [Generate_Key_word_rec keys KeyGen K hKeyGen (4 * r) (by omega) (by omega),
    if_pos (by omega), firstWordRule, R_Con_eq_Rcon r h1 h10,
    show 4 * r / 4 = r by omega, show 4 * r - 4 = 4 * (r - 1) by omega,
    xorWord_comm_word]

theorem first_word_from_previous_round_witness :
    (List.replicate 176 0).length = 176 ∧ (1 : Nat) ≤ 2 ∧ (2 : Nat) ≤ 10 ∧
    word (Generate_Key ⟨fipsKey, fipsCipher⟩ (List.replicate 176 0) 0) (4 * 2) =
      firstWordRule (Generate_Key ⟨fipsKey, fipsCipher⟩ (List.replicate 176 0) 0) 2 1 :=
  ⟨by decide, by decide, by decide,
    first_word_from_previous_round ⟨fipsKey, fipsCipher⟩ (List.replicate 176 0) 0 2 (by decide)
      (by decide) (by decide)⟩

end AES128

/-! ## AES-128: arithmetic in GF(2^8) and the column mix -/

namespace AES128

theorem G_Multiply_table : ∀ v < 256,
    (G_Multiply v = if v.testBit 7 then ((v <<< 1) % 256) ^^^ 0x1B else v <<< 1) ∧
      G_Multiply v = reduce9 v ∧ G_Multiply v = gfMul v 2 ∧ G_Multiply v = gfMul 2 v ∧
      G_Multiply v ^^^ v = gfMul 3 v := by
  decide!

/-- C18: for every byte `v`, `G_Multiply v` is `(v << 1) mod 256` XOR `0x1B` when bit 7 of `v`
is set and `v << 1` otherwise; it is the 9-bit value `2 * v` reduced by `0x11B`; it is the
product of `v` and 2 in GF(2^8) modulo `0x11B`; and it is a byte. -/
theorem G_Multiply_is_gf_double (v : Nat) (hv : v < 256) :
    (G_Multiply v = if v.testBit 7 then ((v <<< 1) % 256) ^^^ 0x1B else v <<< 1) ∧
      G_Multiply v = reduce9 v ∧ G_Multiply v = gfMul v 2 ∧ G_Multiply v < 256 :=
  ⟨(G_Multiply_table v hv).1, (G_Multiply_table v hv).2.1, (G_Multiply_table v hv).2.2.1,
    G_Multiply_lt v⟩

theorem G_Multiply_is_gf_double_witness :
    (0x57 : Nat) < 256 ∧
    ((G_Multiply 0x57 = if (0x57 : Nat).testBit 7 then ((0x57 <<< 1) % 256) ^^^ 0x1B
        else 0x57 <<< 1) ∧
      G_Multiply 0x57 = reduce9 0x57 ∧ G_Multiply 0x57 = gfMul 0x57 2 ∧ G_Multiply 0x57 < 256) :=
  ⟨by decide, G_Multiply_is_gf_double 0x57 (by decide)⟩

theorem mixByte_gf0 (a b c d : Nat) (ha : a < 256) (hb : b < 256) :
    mixByte a b (a ^^^ b ^^^ c ^^^ d) = gfMul 2 a ^^^ gfMul 3 b ^^^ c ^^^ d := by
  rw [← (G_Multiply_table a ha).2.2.2.1, ← (G_Multiply_table b hb).2.2.2.2]
  simp only [mixByte, G_Multiply_xor, Nat.xor_assoc]
  simp only [Nat.xor_comm, xor_left_comm, Nat.xor_self, Nat.xor_zero, Nat.xor_cancel_left]

theorem mixByte_gf1 (a b c d : Nat) (ha : a < 256) (hb : b < 256) :
    mixByte a b (d ^^^ a ^^^ b ^^^ c) = gfMul 2 a ^^^ gfMul 3 b ^^^ c ^^^ d := by
  rw [← mixByte_gf0 a b c d ha hb]
  congr 1
  simp only [Nat.xor_assoc]
  simp only [Nat.xor_comm, xor_left_comm]

theorem mixByte_gf2 (a b c d : Nat) (ha : a < 256) (hb : b < 256) :
    mixByte a b (c ^^^ d ^^^ a ^^^ b) = gfMul 2 a ^^^ gfMul 3 b ^^^ c ^^^ d := by
  rw [← mixByte_gf0 a b c d ha hb]
  congr 1
  simp only [Nat.xor_assoc]
  simp only [Nat.xor_comm, xor_left_comm]

theorem mixByte_gf3 (a b c d : Nat) (ha : a < 256) (hb : b < 256) :
    mixByte a b (b ^^^ c ^^^ d ^^^ a) = gfMul 2 a ^^^ gfMul 3 b ^^^ c ^^^ d := by
  rw [← mixByte_gf0 a b c d ha hb]
  congr 1
  simp only [Nat.xor_assoc]
  simp only [Nat.xor_comm, xor_left_comm]

/-- C16: for every 16-byte state, `mix_column` transforms each column `c` (bytes `4c .. 4c+3`)
on its own: byte `i` of the column becomes `old[i] XOR xtime(old[i] XOR old[(i+1) mod 4]) XOR
(old[0] XOR old[1] XOR old[2] XOR old[3])`, all taken before the call, and this is the
FIPS-197 MixColumns product `2*old[i] + 3*old[i+1] + old[i+2] + old[i+3]` over GF(2^8). -/
theorem mix_column_is_MixColumns (s : List Nat) (hs : IsBytes 16 s) (c i : Nat) (hc : c < 4)
    (hi : i < 4) :
    (mix_column s).getD (4 * c + i) 0 =
        s.getD (4 * c + i) 0
          ^^^ G_Multiply (s.getD (4 * c + i) 0 ^^^ s.getD (4 * c + (i + 1) % 4) 0)
          ^^^ (s.getD (4 * c) 0 ^^^ s.getD (4 * c + 1) 0 ^^^ s.getD (4 * c + 2) 0
            ^^^ s.getD (4 * c + 3) 0) ∧
      (mix_column s).getD (4 * c + i) 0 =
        gfMul 2 (s.getD (4 * c + i) 0) ^^^ gfMul 3 (s.getD (4 * c + (i + 1) % 4) 0)
          ^^^ s.getD (4 * c + (i + 2) % 4) 0 ^^^ s.getD (4 * c + (i + 3) % 4) 0 := by
  obtain ⟨hl, hb⟩ := hs
  obtain ⟨a0, a1, a2, a3, a4, a5, a6, a7, a8, a9, a10, a11, a12, a13, a14, a15, rfl⟩ :=
    exists_of_length_16 s hl
  simp only [List.mem_cons, List.mem_singleton, forall_eq_or_imp, forall_eq, List.not_mem_nil,
    IsEmpty.forall_iff, implies_true, and_true] at hb
  obtain ⟨h0, h1, h2, h3, h4, h5, h6, h7, h8, h9, h10, h11, h12, h13, h14, h15⟩ := hb
  rw [mix_column_explicit]
  interval_cases c <;> interval_cases i <;>
    simp only [Nat.reduceMul, Nat.reduceAdd, Nat.reduceMod, Nat.add_zero, Nat.zero_add,
      List.getD_cons_zero, List.getD_cons_succ] <;>
    first
    | exact ⟨rfl, mixByte_gf0 _ _ _ _ (by assumption) (by assumption)⟩
    | exact ⟨rfl, mixByte_gf1 _ _ _ _ (by assumption) (by assumption)⟩
    | exact ⟨rfl, mixByte_gf2 _ _ _ _ (by assumption) (by assumption)⟩
    | exact ⟨rfl, mixByte_gf3 _ _ _ _ (by assumption) (by assumption)⟩

theorem mix_column_is_MixColumns_witness :
    IsBytes 16 fipsPlain ∧ (2 : Nat) < 4 ∧ (3 : Nat) < 4 ∧
    ((mix_column fipsPlain).getD (4 * 2 + 3) 0 =
        fipsPlain.getD (4 * 2 + 3) 0
          ^^^ G_Multiply (fipsPlain.getD (4 * 2 + 3) 0 ^^^ fipsPlain.getD (4 * 2 + (3 + 1) % 4) 0)
          ^^^ (fipsPlain.getD (4 * 2) 0 ^^^ fipsPlain.getD (4 * 2 + 1) 0
            ^^^ fipsPlain.getD (4 * 2 + 2) 0 ^^^ fipsPlain.getD (4 * 2 + 3) 0) ∧
      (mix_column fipsPlain).getD (4 * 2 + 3) 0 =
        gfMul 2 (fipsPlain.getD (4 * 2 + 3) 0) ^^^ gfMul 3 (fipsPlain.getD (4 * 2 + (3 + 1) % 4) 0)
          ^^^ fipsPlain.getD (4 * 2 + (3 + 2) % 4) 0 ^^^ fipsPlain.getD (4 * 2 + (3 + 3) % 4) 0) :=
  ⟨by decide, by decide, by decide,
    mix_column_is_MixColumns fipsPlain (by decide) 2 3 (by decide) (by decide)⟩

/-- C17: the inverse diffusion of `decipher_AES` inverts `mix_column`: for every 16-byte state
`s`, the doubling pre-step followed by `mix_column`, applied to `mix_column s`, gives `s`. -/
theorem inverse_diffusion_inverts_mix_column (s : List Nat) (hs : s.length = 16) :
    mix_column (inv_mix_prestep (mix_column s)) = s :=
  mix_prestep_mix s hs

theorem inverse_diffusion_inverts_mix_column_witness :
    fipsPlain.length = 16 ∧ mix_column (inv_mix_prestep (mix_column fipsPlain)) = fipsPlain :=
  ⟨by decide, inverse_diffusion_inverts_mix_column fipsPlain (by decide)⟩

end AES128

/-! ## AES-128: the cipher as separate FIPS-197 steps; the rounds of decryption -/

namespace AES128

theorem roundKey_explicit (w : List Nat) (r : Nat) :
    roundKey w r =
      [w.getD (r * 16 + 0) 0, w.getD (r * 16 + 1) 0, w.getD (r * 16 + 2) 0, w.getD (r * 16 + 3) 0,
       w.getD (r * 16 + 4) 0, w.getD (r * 16 + 5) 0, w.getD (r * 16 + 6) 0, w.getD (r * 16 + 7) 0,
       w.getD (r * 16 + 8) 0, w.getD (r * 16 + 9) 0, w.getD (r * 16 + 10) 0,
       w.getD (r * 16 + 11) 0, w.getD (r * 16 + 12) 0, w.getD (r * 16 + 13) 0,
       w.getD (r * 16 + 14) 0, w.getD (r * 16 + 15) 0] := by
  have e : List.range 16 = [0, 1, 2, 3, 4, 5, 6, 7, 8, 9, 10, 11, 12, 13, 14, 15] := by decide
  simp only [roundKey, e, List.map_cons, List.map_nil, Nat.mul_comm 16 r]

theorem ShiftRows_explicit (a0 a1 a2 a3 a4 a5 a6 a7 a8 a9 a10 a11 a12 a13 a14 a15 : Nat) :
    ShiftRows [a0, a1, a2, a3, a4, a5, a6, a7, a8, a9, a10, a11, a12, a13, a14, a15] =
      [a0, a5, a10, a15, a4, a9, a14, a3, a8, a13, a2, a7, a12, a1, a6, a11] := by
  have e : List.range 16 = [0, 1, 2, 3, 4, 5, 6, 7, 8, 9, 10, 11, 12, 13, 14, 15] := by decide
  simp only [ShiftRows, e, List.map_cons, List.map_nil, Nat.reduceDiv, Nat.reduceMod,
    Nat.reduceAdd, Nat.reduceMul, List.getD_cons_zero, List.getD_cons_succ]

theorem add_S_Box_and_shift_explicit (kg : List Nat) (t : Nat)
    (a0 a1 a2 a3 a4 a5 a6 a7 a8 a9 a10 a11 a12 a13 a14 a15 : Nat) :
    add_S_Box_and_shift kg [a0, a1, a2, a3, a4, a5, a6, a7, a8, a9, a10, a11, a12, a13, a14, a15] t
      = SubBytes (ShiftRows (AddRoundKey
          [a0, a1, a2, a3, a4, a5, a6, a7, a8, a9, a10, a11, a12, a13, a14, a15]
          (roundKey kg t))) := by
  rw [roundKey_explicit]
  simp only [AddRoundKey, List.zipWith_cons_cons, List.zipWith_nil_left, ShiftRows_explicit,
    SubBytes, List.map_cons, List.map_nil]
  simp only [add_S_Box_and_shift, MAX_LENGTH, List.foldl_cons, List.foldl_nil,
    List.set_cons_zero, List.set_cons_succ, List.getD_cons_zero, List.getD_cons_succ,
    Nat.add_zero, Nat.reduceAdd, Nat.reduceSub, Nat.add_assoc]
  rw [show t * 16 + 7 - 4 = t * 16 + 3 by omega, show t * 16 + 11 - 4 = t * 16 + 7 by omega,
    show t * 16 + 15 - 4 = t * 16 + 11 by omega]

theorem add_S_Box_and_shift_fused (kg pd : List Nat) (t : Nat) (h : pd.length = 16) :
    add_S_Box_and_shift kg pd t = SubBytes (ShiftRows (AddRoundKey pd (roundKey kg t))) := by
  obtain ⟨a0, a1, a2, a3, a4, a5, a6, a7, a8, a9, a10, a11, a12, a13, a14, a15, rfl⟩ :=
    exists_of_length_16 pd h
  exact add_S_Box_and_shift_explicit kg t _ _ _ _ _ _ _ _ _ _ _ _ _ _ _ _

theorem SubBytes_ShiftRows (s : List Nat) (h : s.length = 16) :
    SubBytes (ShiftRows s) = ShiftRows (SubBytes s) := by
  obtain ⟨a0, a1, a2, a3, a4, a5, a6, a7, a8, a9, a10, a11, a12, a13, a14, a15, rfl⟩ :=
    exists_of_length_16 s h
  simp only [SubBytes, List.map_cons, List.map_nil, ShiftRows_explicit]

theorem roundKey_length (w : List Nat) (r : Nat) : (roundKey w r).length = 16 := by
  simp [roundKey]

theorem AddRoundKey_length (s rk : List Nat) (hs : s.length = 16) (hrk : rk.length = 16) :
    (AddRoundKey s rk).length = 16 := by
  simp [AddRoundKey, hs, hrk]

theorem SubBytes_length (s : List Nat) : (SubBytes s).length = s.length := by
  simp [SubBytes]

theorem ShiftRows_length (s : List Nat) : (ShiftRows s).length = 16 := by
  simp [ShiftRows]

theorem SubBytes_lt (s : List Nat) : ∀ x ∈ SubBytes s, x < 256 := by
  intro x hx
  simp only [SubBytes, List.mem_map] at hx
  obtain ⟨b, _, rfl⟩ := hx
  exact S_Box_getD_lt b

theorem MixColumns_explicit (a0 a1 a2 a3 a4 a5 a6 a7 a8 a9 a10 a11 a12 a13 a14 a15 : Nat) :
    MixColumns [a0, a1, a2, a3, a4, a5, a6, a7, a8, a9, a10, a11, a12, a13, a14, a15] =
      [gfMul 2 a0 ^^^ gfMul 3 a1 ^^^ a2 ^^^ a3, gfMul 2 a1 ^^^ gfMul 3 a2 ^^^ a3 ^^^ a0,
       gfMul 2 a2 ^^^ gfMul 3 a3 ^^^ a0 ^^^ a1, gfMul 2 a3 ^^^ gfMul 3 a0 ^^^ a1 ^^^ a2,
       gfMul 2 a4 ^^^ gfMul 3 a5 ^^^ a6 ^^^ a7, gfMul 2 a5 ^^^ gfMul 3 a6 ^^^ a7 ^^^ a4,
       gfMul 2 a6 ^^^ gfMul 3 a7 ^^^ a4 ^^^ a5, gfMul 2 a7 ^^^ gfMul 3 a4 ^^^ a5 ^^^ a6,
       gfMul 2 a8 ^^^ gfMul 3 a9 ^^^ a10 ^^^ a11, gfMul 2 a9 ^^^ gfMul 3 a10 ^^^ a11 ^^^ a8,
       gfMul 2 a10 ^^^ gfMul 3 a11 ^^^ a8 ^^^ a9, gfMul 2 a11 ^^^ gfMul 3 a8 ^^^ a9 ^^^ a10,
       gfMul 2 a12 ^^^ gfMul 3 a13 ^^^ a14 ^^^ a15, gfMul 2 a13 ^^^ gfMul 3 a14 ^^^ a15 ^^^ a12,
       gfMul 2 a14 ^^^ gfMul 3 a15 ^^^ a12 ^^^ a13,
       gfMul 2 a15 ^^^ gfMul 3 a12 ^^^ a13 ^^^ a14] := by
  have e : List.range 16 = [0, 1, 2, 3, 4, 5, 6, 7, 8, 9, 10, 11, 12, 13, 14, 15] := by decide
  simp only [MixColumns, e, List.map_cons, List.map_nil, Nat.reduceDiv, Nat.reduceMod,
    Nat.reduceAdd, Nat.reduceMul, List.getD_cons_zero, List.getD_cons_succ]

theorem mix_column_eq_MixColumns (s : List Nat) (hs : IsBytes 16 s) :
    mix_column s = MixColumns s := by
  obtain ⟨hl, hb⟩ := hs
  obtain ⟨a0, a1, a2, a3, a4, a5, a6, a7, a8, a9, a10, a11, a12, a13, a14, a15, rfl⟩ :=
    exists_of_length_16 s hl
  simp only [List.mem_cons, List.mem_singleton, forall_eq_or_imp, forall_eq, List.not_mem_nil,
    IsEmpty.forall_iff, implies_true, and_true] at hb
  obtain ⟨h0, h1, h2, h3, h4, h5, h6, h7, h8, h9, h10, h11, h12, h13, h14, h15⟩ := hb
  rw [mix_column_explicit, MixColumns_explicit,
    mixByte_gf0 a0 a1 a2 a3 h0 h1, mixByte_gf1 a1 a2 a3 a0 h1 h2, mixByte_gf2 a2 a3 a0 a1 h2 h3,
    mixByte_gf3 a3 a0 a1 a2 h3 h0,
    mixByte_gf0 a4 a5 a6 a7 h4 h5, mixByte_gf1 a5 a6 a7 a4 h5 h6, mixByte_gf2 a6 a7 a4 a5 h6 h7,
    mixByte_gf3 a7 a4 a5 a6 h7 h4,
    mixByte_gf0 a8 a9 a10 a11 h8 h9, mixByte_gf1 a9 a10 a11 a8 h9 h10,
    mixByte_gf2 a10 a11 a8 a9 h10 h11, mixByte_gf3 a11 a8 a9 a10 h11 h8,
    mixByte_gf0 a12 a13 a14 a15 h12 h13, mixByte_gf1 a13 a14 a15 a12 h13 h14,
    mixByte_gf2 a14 a15 a12 a13 h14 h15, mixByte_gf3 a15 a12 a13 a14 h15 h12]

/-- One round of the loop of `cipher_AES` followed by the next AddRoundKey is one round of
the FIPS-197 cipher. -/
theorem cipher_round_eq (kg pd : List Nat) (t : Nat) (h : pd.length = 16) :
    AddRoundKey (mix_column (add_S_Box_and_shift kg pd t)) (roundKey kg (t + 1)) =
      AddRoundKey (MixColumns (ShiftRows (SubBytes (AddRoundKey pd (roundKey kg t)))))
        (roundKey kg (t + 1)) := by
  have hA : (AddRoundKey pd (roundKey kg t)).length = 16 :=
    AddRoundKey_length _ _ h (roundKey_length _ _)
  rw [add_S_Box_and_shift_fused kg pd t h,
    mix_column_eq_MixColumns _ ⟨by rw [SubBytes_length, ShiftRows_length], SubBytes_lt _⟩,
    SubBytes_ShiftRows _ hA]

theorem cipher_rounds_eq (kg : List Nat) : ∀ (n s : Nat) (pd : List Nat), pd.length = 16 →
    AddRoundKey ((List.range' s n).foldl (fun Plain_Data turn =>
        mix_column (add_S_Box_and_shift kg Plain_Data turn)) pd) (roundKey kg (s + n)) =
      (List.range' (s + 1) n).foldl (fun state r =>
        AddRoundKey (MixColumns (ShiftRows (SubBytes state))) (roundKey kg r))
        (AddRoundKey pd (roundKey kg s)) ∧
    ((List.range' s n).foldl (fun Plain_Data turn =>
        mix_column (add_S_Box_and_shift kg Plain_Data turn)) pd).length = 16 := by
  intro n
  induction n with
  | zero => intro s pd h; exact ⟨rfl, h⟩
  | succ n ih =>
    intro s pd h
    rw [List.range'_succ, List.range'_succ, List.foldl_cons, List.foldl_cons,
      ← cipher_round_eq kg pd s h, show s + (n + 1) = s + 1 + n by omega]
    exact ih (s + 1) _ (mix_column_isBytes _ (add_S_Box_and_shift_isBytes kg pd s h)).1

theorem add_last_key_eq (kg pd : List Nat) (h : pd.length = 16) :
    add_last_key kg pd = AddRoundKey pd (roundKey kg 10) := by
  obtain ⟨a0, a1, a2, a3, a4, a5, a6, a7, a8, a9, a10, a11, a12, a13, a14, a15, rfl⟩ :=
    exists_of_length_16 pd h
  rw [add_last_key_explicit, roundKey_explicit]
  simp only [AddRoundKey, List.zipWith_cons_cons, List.zipWith_nil_left, Nat.reduceMul,
    Nat.reduceAdd]

/-- The block that `cipher_AES` computes is the FIPS-197 cipher on the schedule it built. -/
theorem cipher_AES_eq_Cipher (keys : CryptoKeys) (kg pd : List Nat) (K : Nat)
    (h : pd.length = 16) :
    (cipher_AES keys kg pd K).2 = Cipher pd (Generate_Key keys kg K) := by
  rw [cipher_AES_snd]
  generalize Generate_Key keys kg K = G
  obtain ⟨h1, h2⟩ := cipher_rounds_eq G 9 0 pd h
  have e9 : List.range 9 = List.range' 0 9 := by decide
  have e19 : ([1, 2, 3, 4, 5, 6, 7, 8, 9] : List Nat) = List.range' (0 + 1) 9 := by decide
  rw [← e9] at h1 h2
  rw [add_last_key_eq _ _ (add_S_Box_and_shift_isBytes G _ 9 h2).1,
    add_S_Box_and_shift_fused G _ 9 h2,
    SubBytes_ShiftRows _ (AddRoundKey_length _ _ h2 (roundKey_length _ _))]
  simp only [Cipher]
  rw [e19, ← h1]

theorem Cipher_fips197_vector : Cipher fipsPlain (KeyExpansion fipsKey) = fipsCipher := by
  decide!

/-- C14: for every 16-byte block and every key, the block that `cipher_AES` computes is the
FIPS-197 `Cipher` built from the separate steps on the schedule of the selected key
(AddRoundKey with round key 0; for `r = 1..9` SubBytes, ShiftRows, MixColumns, AddRoundKey
with round key `r`; then SubBytes, ShiftRows, AddRoundKey with round key 10), the block
being a column-major 4x4 matrix; and each fused `add_S_Box_and_shift` on a 16-byte state is
SubBytes of ShiftRows of AddRoundKey with round key `turn`. -/
theorem cipher_AES_is_fips197_Cipher (keys : CryptoKeys) (KeyGen P state : List Nat)
    (K turn : Nat) (hkeys : keys.WF) (hKeyGen : KeyGen.length = 176) (hP : P.length = 16)
    (hstate : state.length = 16) :
    (cipher_AES keys KeyGen P K).2 = Cipher P (KeyExpansion (selectedKey keys K)) ∧
      (cipher_AES keys KeyGen P K).2 = Cipher P (cipher_AES keys KeyGen P K).1 ∧
      add_S_Box_and_shift KeyGen state turn
        = SubBytes (ShiftRows (AddRoundKey state (roundKey KeyGen turn))) := by
  refine ⟨?_, ?_, add_S_Box_and_shift_fused KeyGen state turn hstate⟩
  · rw [cipher_AES_eq_Cipher keys KeyGen P K hP,
      Generate_Key_eq_KeyExpansion keys KeyGen K (selectedKey_isBytes keys hkeys K).1 hKeyGen]
  · rw [cipher_AES_eq_Cipher keys KeyGen P K hP, cipher_AES_fst]

theorem cipher_AES_is_fips197_Cipher_witness :
    CryptoKeys.WF ⟨fipsKey, fipsCipher⟩ ∧ (List.replicate 176 0).length = 176 ∧
    fipsPlain.length = 16 ∧ fipsCipher.length = 16 ∧
    ((cipher_AES ⟨fipsKey, fipsCipher⟩ (List.replicate 176 0) fipsPlain 0).2
        = Cipher fipsPlain (KeyExpansion (selectedKey ⟨fipsKey, fipsCipher⟩ 0)) ∧
      (cipher_AES ⟨fipsKey, fipsCipher⟩ (List.replicate 176 0) fipsPlain 0).2
        = Cipher fipsPlain (cipher_AES ⟨fipsKey, fipsCipher⟩ (List.replicate 176 0) fipsPlain 0).1 ∧
      add_S_Box_and_shift (List.replicate 176 0) fipsCipher 3
        = SubBytes (ShiftRows (AddRoundKey fipsCipher (roundKey (List.replicate 176 0) 3)))) :=
  ⟨by decide, by decide, by decide, by decide,
    cipher_AES_is_fips197_Cipher ⟨fipsKey, fipsCipher⟩ (List.replicate 176 0) fipsPlain fipsCipher
      0 3 (by decide) (by decide) (by decide) (by decide)⟩

theorem decipher_loop_eq_foldl (kg : List Nat) : ∀ (n : Nat) (s : List Nat),
    decipher_loop kg n s =
      (List.range (n + 1)).reverse.foldl (fun state t =>
        inv_add_S_Box_and_shift kg (mix_column (inv_mix_prestep state)) t) s := by
  intro n
  induction n with
  | zero =>
    intro s
    have e : (List.range (0 + 1)).reverse = [0] := by decide
    rw [e, List.foldl_cons, List.foldl_nil, decipher_loop, decipher_round]
  | succ n ih =>
    intro s
    rw [List.range_succ, List.reverse_append, List.reverse_singleton, List.singleton_append,
      List.foldl_cons, ← ih, decipher_loop, decipher_round]

theorem decipher_loop_8 (kg s : List Nat) :
    decipher_loop kg 8 s =
      [8, 7, 6, 5, 4, 3, 2, 1, 0].foldl (fun state t =>
        inv_add_S_Box_and_shift kg (mix_column (inv_mix_prestep state)) t) s := by
  rw [decipher_loop_eq_foldl]
  have e : (List.range (8 + 1)).reverse = [8, 7, 6, 5, 4, 3, 2, 1, 0] := by decide
  rw [e]

/-- C15 as stated fails: on the FIPS-197 reference ciphertext, `decipher_AES` does not give
the block obtained with ten iterations, one for each of the rounds 9 down to 0. -/
theorem decipher_AES_not_ten_iterations :
    (decipher_AES ⟨fipsKey, fipsCipher⟩ (List.replicate 176 0) fipsCipher 0).2 ≠
      decipher_by_rounds (Generate_Key ⟨fipsKey, fipsCipher⟩ (List.replicate 176 0) 0) fipsCipher
        [9, 8, 7, 6, 5, 4, 3, 2, 1, 0] := by
  decide!

/-- C15, amended: on a 16-byte block, `decipher_AES` performs, in order: AddRoundKey with
round key 10 (schedule bytes 160..175); the fused inverse final round, with round key 9;
then, for each of the rounds 8 down to 0 (nine iterations), the inverse diffusion followed
by the fused InvShiftRows+InvSubBytes+AddRoundKey with that round's key. -/
theorem decipher_AES_nine_iterations (keys : CryptoKeys) (KeyGen P : List Nat) (K : Nat)
    (hP : P.length = 16) :
    (decipher_AES keys KeyGen P K).2 =
      decipher_by_rounds (Generate_Key keys KeyGen K) P [8, 7, 6, 5, 4, 3, 2, 1, 0] := by
  rw [decipher_AES_snd, decipher_loop_8, add_last_key_eq _ _ hP]
  simp only [decipher_by_rounds]

theorem decipher_AES_nine_iterations_witness :
    fipsCipher.length = 16 ∧
    (decipher_AES ⟨fipsKey, fipsCipher⟩ (List.replicate 176 0) fipsCipher 0).2 =
      decipher_by_rounds (Generate_Key ⟨fipsKey, fipsCipher⟩ (List.replicate 176 0) 0) fipsCipher
        [8, 7, 6, 5, 4, 3, 2, 1, 0] :=
  ⟨by decide,
    decipher_AES_nine_iterations ⟨fipsKey, fipsCipher⟩ (List.replicate 176 0) fipsCipher 0
      (by decide)⟩

end AES128

/-! ## Keccak: termination of the sponge driver -/

namespace SHA3

theorem Keccak_xorBlock_zero (state input : List Nat) : Keccak_xorBlock state input 0 = state := by
  simp [Keccak_xorBlock]

theorem Keccak_absorb_rate_zero : ∀ (fuel : Nat) (state input : List Nat) (len bs : Nat),
    0 < len → Keccak_absorb 0 fuel state input len bs = none := by
  intro fuel
  induction fuel with
  | zero => intro state input len bs h; simp [Keccak_absorb, h]
  | succ f ih =>
    intro state input len bs h
    simp only [Keccak_absorb, h, if_true, Nat.min_zero, Nat.sub_zero, List.drop_zero]
    exact ih _ _ _ _ h

theorem Keccak_squeeze_terminates (r : Nat) : ∀ (fuel : Nat) (state output : List Nat)
    (pos n : Nat), n ≤ fuel * r → ∃ res, Keccak_squeeze r fuel state output pos n = some res := by
  intro fuel
  induction fuel with
  | zero =>
    intro state output pos n h
    have h0 : n = 0 := by omega
    subst h0
    exact ⟨output, by simp [Keccak_squeeze]⟩
  | succ f ih =>
    intro state output pos n h
    have hs : (f + 1) * r = f * r + r := Nat.succ_mul f r
    by_cases hn : n > 0
    · simp only [Keccak_squeeze, hn, if_true]
      split
      · exact ih _ _ _ _ (by omega)
      · exact ih _ _ _ _ (by omega)
    · exact ⟨output, by simp [Keccak_squeeze, hn]⟩

theorem Keccak_terminates_of_fuel (fuel rate capacity : Nat) (input : List Nat)
    (inputByteLen delimitedSuffix : Nat) (output : List Nat) (n : Nat)
    (hin : inputByteLen ≤ fuel * (rate / 8)) (hout : n ≤ fuel * (rate / 8)) :
    ∃ res, Keccak fuel rate capacity input inputByteLen delimitedSuffix output n = some res := by
  by_cases h : Keccak_rejects rate capacity = true
  · exact ⟨output, Keccak_of_rejects fuel rate capacity input inputByteLen delimitedSuffix output n h⟩
  · have h' : Keccak_rejects rate capacity = false := by simpa using h
    obtain ⟨⟨state, blockSize⟩, ha⟩ :=
      Keccak_absorb_terminates (rate / 8) fuel (List.replicate 200 0) input inputByteLen 0 hin
    rw [Keccak_of_absorb fuel rate capacity input inputByteLen delimitedSuffix output n state
      blockSize h' ha]
    exact Keccak_squeeze_terminates _ _ _ _ _ _ hout

/-- C11: the parameters `rate = 0`, `capacity = 1600` pass the validation of `Keccak`, and with
them the absorbing loop never ends on a one-byte input: whatever the number of iterations
allowed, the call has not returned. -/
theorem Keccak_rate_zero_never_returns :
    Keccak_rejects 0 1600 = false ∧
      ∀ fuel : Nat, Keccak fuel 0 1600 [0x61] 1 0x06 [0] 0 = none := by
  refine ⟨by decide, fun fuel => ?_⟩
  simp only [Keccak, show Keccak_rejects 0 1600 = false by decide, Nat.zero_div]
  rw [Keccak_absorb_rate_zero fuel _ _ 1 0 (by decide)]
  simp

end SHA3

/-! ## Keccak: the iota constants and the rho and pi steps -/

namespace SHA3

theorem iotaMask_table : ∀ i < 24,
    iotaMask (LFSRsteps (7 * i) 0x01) = (LFSRsteps (7 * (i + 1)) 0x01, RC.getD i 0) := by
  decide!

theorem digit_of_bytes (b0 b1 b2 b3 b4 b5 b6 b7 : Nat) (h0 : b0 < 256) (h1 : b1 < 256)
    (h2 : b2 < 256) (h3 : b3 < 256) (h4 : b4 < 256) (h5 : b5 < 256) (h6 : b6 < 256)
    (h7 : b7 < 256) (k : Nat) (hk : k < 8) :
    ((b0 + 256 * (b1 + 256 * (b2 + 256 * (b3 + 256 * (b4 + 256 * (b5 + 256 * (b6 + 256 * b7)))))))
        >>> (8 * k)) % 256 = [b0, b1, b2, b3, b4, b5, b6, b7].getD k 0 ∧
      b0 + 256 * (b1 + 256 * (b2 + 256 * (b3 + 256 * (b4 + 256 * (b5 + 256 * (b6 + 256 * b7))))))
        < 2 ^ 64 := by
  refine ⟨?_, by omega⟩
  interval_cases k <;> simp only [Nat.shiftRight_eq_div_pow, List.getD_cons_zero,
    List.getD_cons_succ, Nat.reduceMul, Nat.reducePow] <;> omega

theorem laneOfBytes_digit (S : List Nat) (off : Nat) (hS : ∀ j, S.getD j 0 < 256) (k : Nat)
    (hk : k < 8) :
    (laneOfBytes S off >>> (8 * k)) % 256 = S.getD (off + k) 0 ∧ laneOfBytes S off < 2 ^ 64 := by
  have h := digit_of_bytes (S.getD off 0) (S.getD (off + 1) 0) (S.getD (off + 2) 0)
    (S.getD (off + 3) 0) (S.getD (off + 4) 0) (S.getD (off + 5) 0) (S.getD (off + 6) 0)
    (S.getD (off + 7) 0) (hS _) (hS _) (hS _) (hS _) (hS _) (hS _) (hS _) (hS _) k hk
  refine ⟨?_, h.2⟩
  rw [laneOfBytes, h.1]
  interval_cases k <;> rfl

theorem lanesOfBytes_getD (S : List Nat) (k : Nat) (hk : k < 25) :
    (lanesOfBytes S).getD k 0 = laneOfBytes S (8 * k) := by
  simp only [lanesOfBytes, List.getD_eq_getElem?_getD, List.getElem?_map]
  rw [List.getElem?_range hk]
  rfl

theorem lanesOfBytes_lanes (S : List Nat) (hS : ∀ j, S.getD j 0 < 256) :
    Lanes (lanesOfBytes S) := by
  refine ⟨by simp [lanesOfBytes], ?_⟩
  intro v hv
  simp only [lanesOfBytes, List.mem_map] at hv
  obtain ⟨k, _, rfl⟩ := hv
  exact (laneOfBytes_digit S (8 * k) hS 0 (by decide)).2

/-- Every 200-byte state is the byte view of its 25 lanes. -/
theorem sim_lanesOfBytes (S : List Nat) (hS : AES128.IsBytes 200 S) : Sim S (lanesOfBytes S) := by
  have hb : ∀ j, S.getD j 0 < 256 := fun j => AES128.isBytes_getD hS j
  refine ⟨?_, lanesOfBytes_lanes S hb⟩
  apply ext_getD
  · rw [bytesOfLanes_length, hS.1]; simp [lanesOfBytes]
  · intro j
    rw [bytesOfLanes_getD]
    by_cases hj : j < 200
    · rw [lanesOfBytes_getD S (j / 8) (by omega),
        (laneOfBytes_digit S (8 * (j / 8)) hb (j % 8) (Nat.mod_lt _ (by decide))).1,
        Nat.div_add_mod]
    · rw [List.getD_eq_default _ _ (by rw [hS.1]; omega),
        List.getD_eq_default _ _ (by simp [lanesOfBytes]; omega)]
      simp

theorem iotaL_eq_mask (l : Nat) (L : List Nat) (hL : 0 < L.length) :
    iotaL (l, L) = ((iotaMask l).1, L.set 0 (L.getD 0 0 ^^^ (iotaMask l).2)) := by
  have h0 : L.set 0 (L.getD 0 0 ^^^ 0) = L := by
    cases L with
    | nil => exact absurd hL (by decide)
    | cons a L => simp
  have key := foldl_rel
    (fun (a : Nat × List Nat) (b : Nat × Nat) => a.1 = b.1 ∧ a.2 = L.set 0 (L.getD 0 0 ^^^ b.2))
    (fun (s : Nat × List Nat) j =>
      let bitPosition := (1 <<< j) - 1
      let (result, LFSRstate) := LFSR86540 s.1
      if result ≠ 0 then (LFSRstate, xorL s.2 0 0 ((1 <<< bitPosition) % 2 ^ 64))
      else (LFSRstate, s.2))
    (fun (s : Nat × Nat) j =>
      let bitPosition := (1 <<< j) - 1
      let (result, LFSRstate) := LFSR86540 s.1
      if result ≠ 0 then (LFSRstate, s.2 ^^^ ((1 <<< bitPosition) % 2 ^ 64))
      else (LFSRstate, s.2))
    (List.range 7) (by
      intro a b j _ hab
      obtain ⟨la, A⟩ := a
      obtain ⟨lb, m⟩ := b
      obtain ⟨h1, h2⟩ := hab
      simp only at h1 h2
      subst h1 h2
      simp only
      split
      · refine ⟨rfl, ?_⟩
        simp only [xorL, show laneIndex 0 0 = 0 from rfl, AES128.getD_set_eq, List.set_set,
          Nat.mod_mod, Nat.xor_assoc, hL, and_self, if_true]
      · exact ⟨rfl, rfl⟩)
    (l, L) (l, 0) ⟨rfl, h0.symm⟩
  exact Prod.ext key.1 key.2

theorem iota_fst (s : Nat × List Nat) : (iota s).1 = LFSRsteps 7 s.1 := by
  unfold iota LFSRsteps
  refine foldl_rel (fun (a : Nat × List Nat) (b : Nat) => a.1 = b) _ _ (List.range 7) ?_ s s.1 rfl
  intro a b j _ hab
  simp only at hab
  subst hab
  simp only
  split <;> rfl

theorem LFSRsteps_eq_iterate (n l : Nat) :
    LFSRsteps n l = (fun l => (LFSR86540 l).2)^[n] l := by
  unfold LFSRsteps
  rw [List.foldl_const, List.length_range]

theorem LFSRsteps_add (n m l : Nat) : LFSRsteps (n + m) l = LFSRsteps m (LFSRsteps n l) := by
  rw [LFSRsteps_eq_iterate, LFSRsteps_eq_iterate, LFSRsteps_eq_iterate, Nat.add_comm,
    Function.iterate_add_apply]

theorem keccakRound_fst (s : Nat × List Nat) : (keccakRound s).1 = LFSRsteps 7 s.1 := by
  unfold keccakRound
  rw [iota_fst]

theorem rounds_fst (l : Nat) (S : List Nat) : ∀ i,
    ((List.range i).foldl (fun s _ => keccakRound s) (l, S)).1 = LFSRsteps (7 * i) l := by
  intro i
  induction i with
  | zero => rfl
  | succ i ih =>
    rw [List.range_succ, List.foldl_append, List.foldl_cons, List.foldl_nil, keccakRound_fst, ih,
      ← LFSRsteps_add]
    rfl

theorem readL_set_zero (L : List Nat) (v x y : Nat) (hL : 0 < L.length) (hx : x < 5) :
    readL (L.set 0 v) x y = if x = 0 ∧ y = 0 then v else readL L x y := by
  simp only [readL, laneIndex, AES128.getD_set_eq]
  by_cases h : x = 0 ∧ y = 0
  · obtain ⟨rfl, rfl⟩ := h
    simp [hL]
  · rw [if_neg h, if_neg]
    intro c
    apply h
    omega

/-- C19: for every round index `i` in 0..23 of `KeccakF1600_StatePermute`, the LFSR register
at the start of round `i` is the seed `0x01` stepped `7 i` times; the value assembled by the
iota step from the seven LFSR output bits at bit positions `2^j - 1` is the FIPS-202 round
constant `RC[i]`; and on every 200-byte state the iota step of round `i` XORs `RC[i]` into
lane (0,0) and leaves the other lanes as they are. -/
theorem iota_xors_round_constant (i : Nat) (hi : i < 24) (S X : List Nat) (x y : Nat)
    (hX : AES128.IsBytes 200 X) (hx : x < 5) (_hy : y < 5) :
    ((List.range i).foldl (fun s _ => keccakRound s) (0x01, S)).1 = LFSRsteps (7 * i) 0x01 ∧
      iotaMask (LFSRsteps (7 * i) 0x01) = (LFSRsteps (7 * (i + 1)) 0x01, RC.getD i 0) ∧
      (iota (LFSRsteps (7 * i) 0x01, X)).1 = LFSRsteps (7 * (i + 1)) 0x01 ∧
      readLane (iota (LFSRsteps (7 * i) 0x01, X)).2 x y =
        (if x = 0 ∧ y = 0 then readLane X 0 0 ^^^ RC.getD i 0 else readLane X x y) := by
  have hsim := sim_lanesOfBytes X hX
  have hlen : 0 < (lanesOfBytes X).length := by rw [hsim.2.1]; decide
  have hi2 := sim_iota_pair (LFSRsteps (7 * i) 0x01) hsim
  have hm := iotaMask_table i hi
  rw [iotaL_eq_mask _ _ hlen, hm] at hi2
  refine ⟨rounds_fst 1 S i, hm, hi2.1, ?_⟩
  rw [sim_readLane hi2.2, sim_readLane hsim, sim_readLane hsim]
  exact readL_set_zero _ _ x y hlen hx

theorem iota_xors_round_constant_witness :
    (1 : Nat) < 24 ∧ AES128.IsBytes 200 zeroStateImage ∧ (0 : Nat) < 5 ∧
    (((List.range 1).foldl (fun s _ => keccakRound s) (0x01, zeroStateImage)).1
        = LFSRsteps (7 * 1) 0x01 ∧
      iotaMask (LFSRsteps (7 * 1) 0x01) = (LFSRsteps (7 * (1 + 1)) 0x01, RC.getD 1 0) ∧
      (iota (LFSRsteps (7 * 1) 0x01, zeroStateImage)).1 = LFSRsteps (7 * (1 + 1)) 0x01 ∧
      readLane (iota (LFSRsteps (7 * 1) 0x01, zeroStateImage)).2 0 0 =
        (if (0 : Nat) = 0 ∧ (0 : Nat) = 0 then readLane zeroStateImage 0 0 ^^^ RC.getD 1 0
          else readLane zeroStateImage 0 0)) :=
  ⟨by decide, by decide, by decide,
    iota_xors_round_constant 1 (by decide) zeroStateImage zeroStateImage 0 0
      (by decide) (by decide) (by decide)⟩

theorem rhoPiCoord_table :
    ((List.range 24).map rhoPiCoord).Nodup ∧
      (∀ x < 5, ∀ y < 5, ((x, y) ∈ (List.range 24).map rhoPiCoord ↔ (x, y) ≠ (0, 0))) ∧
      rhoPiCoord 24 = (1, 0) := by
  decide

theorem ROL64_lt (a r : Nat) (ha : a < 2 ^ 64) : ROL64 a r < 2 ^ 64 := by
  unfold ROL64
  refine Nat.xor_lt_two_pow (Nat.mod_lt _ (by decide)) ?_
  rw [Nat.shiftRight_eq_div_pow]
  exact Nat.lt_of_le_of_lt (Nat.div_le_self _ _) ha

theorem exists_of_length_25 (L : List Nat) (h : L.length = 25) :
    ∃ l0 l1 l2 l3 l4 l5 l6 l7 l8 l9 l10 l11 l12 l13 l14 l15 l16 l17 l18 l19 l20 l21 l22 l23 l24,
      L = [l0, l1, l2, l3, l4, l5, l6, l7, l8, l9, l10, l11, l12, l13, l14, l15, l16, l17, l18,
        l19, l20, l21, l22, l23, l24] := by
  match L, h with
  | [l0, l1, l2, l3, l4, l5, l6, l7, l8, l9, l10, l11, l12, l13, l14, l15, l16, l17, l18,
      l19, l20, l21, l22, l23, l24], _ =>
    exact ⟨l0, l1, l2, l3, l4, l5, l6, l7, l8, l9, l10, l11, l12, l13, l14, l15, l16, l17, l18,
      l19, l20, l21, l22, l23, l24, rfl⟩

theorem rhoPiL_explicit
    (l0 l1 l2 l3 l4 l5 l6 l7 l8 l9 l10 l11 l12 l13 l14 l15 l16 l17 l18 l19 l20 l21 l22 l23
      l24 : Nat) :
    rhoPiL [l0, l1, l2, l3, l4, l5, l6, l7, l8, l9, l10, l11, l12, l13, l14, l15, l16, l17, l18,
        l19, l20, l21, l22, l23, l24] =
      [l0, ROL64 l6 44 % 2 ^ 64, ROL64 l12 43 % 2 ^ 64, ROL64 l18 21 % 2 ^ 64,
        ROL64 l24 14 % 2 ^ 64, ROL64 l3 28 % 2 ^ 64, ROL64 l9 20 % 2 ^ 64, ROL64 l10 3 % 2 ^ 64,
        ROL64 l16 45 % 2 ^ 64, ROL64 l22 61 % 2 ^ 64, ROL64 l1 1 % 2 ^ 64, ROL64 l7 6 % 2 ^ 64,
        ROL64 l13 25 % 2 ^ 64, ROL64 l19 8 % 2 ^ 64, ROL64 l20 18 % 2 ^ 64,
        ROL64 l4 27 % 2 ^ 64, ROL64 l5 36 % 2 ^ 64, ROL64 l11 10 % 2 ^ 64,
        ROL64 l17 15 % 2 ^ 64, ROL64 l23 56 % 2 ^ 64, ROL64 l2 62 % 2 ^ 64,
        ROL64 l8 55 % 2 ^ 64, ROL64 l14 39 % 2 ^ 64, ROL64 l15 41 % 2 ^ 64,
        ROL64 l21 2 % 2 ^ 64] := by
  have e : List.range 24 = [0, 1, 2, 3, 4, 5, 6, 7, 8, 9, 10, 11, 12, 13, 14, 15, 16, 17, 18, 19,
    20, 21, 22, 23] := by decide
  simp only [rhoPiL, rhoPiStepL, e, List.foldl_cons, List.foldl_nil, readL, writeL, laneIndex,
    Nat.reduceMul, Nat.reduceAdd, Nat.reduceMod, Nat.reduceDiv, List.set_cons_zero,
    List.set_cons_succ, List.getD_cons_zero, List.getD_cons_succ]

theorem rhoPiCoord_values :
    (List.range 25).map rhoPiCoord =
      [(1, 0), (0, 2), (2, 1), (1, 2), (2, 3), (3, 3), (3, 0), (0, 1), (1, 3), (3, 1), (1, 4),
        (4, 4), (4, 0), (0, 3), (3, 4), (4, 3), (3, 2), (2, 2), (2, 0), (0, 4), (4, 2), (2, 4),
        (4, 1), (1, 1), (1, 0)] := by
  decide

theorem rhoPiCoord_getD (t : Nat) (ht : t < 25) :
    rhoPiCoord t = ((List.range 25).map rhoPiCoord).getD t (0, 0) := by
  rw [List.getD_eq_getElem?_getD, List.getElem?_map, List.getElem?_range ht]
  rfl

/-- The lane view of the rho and pi steps moves each lane along the cycle of coordinates and
rotates it. -/
theorem rhoPiL_moves (L : List Nat) (hL : Lanes L) (t : Nat) (ht : t < 24) :
    readL (rhoPiL L) 0 0 = readL L 0 0 ∧
      readL (rhoPiL L) (rhoPiCoord (t + 1)).1 (rhoPiCoord (t + 1)).2 =
        ROL64 (readL L (rhoPiCoord t).1 (rhoPiCoord t).2) (((t + 1) * (t + 2) / 2) % 64) := by
  obtain ⟨hlen, hb⟩ := hL
  obtain ⟨l0, l1, l2, l3, l4, l5, l6, l7, l8, l9, l10, l11, l12, l13, l14, l15, l16, l17, l18,
    l19, l20, l21, l22, l23, l24, rfl⟩ := exists_of_length_25 L hlen
  have hm : ∀ v r, v ∈ [l0, l1, l2, l3, l4, l5, l6, l7, l8, l9, l10, l11, l12, l13, l14, l15,
      l16, l17, l18, l19, l20, l21, l22, l23, l24] → ROL64 v r % 2 ^ 64 = ROL64 v r :=
    fun v r hv => Nat.mod_eq_of_lt (ROL64_lt v r (hb v hv))
  rw [rhoPiL_explicit, rhoPiCoord_getD t (by omega), rhoPiCoord_getD (t + 1) (by omega),
    rhoPiCoord_values]
  refine ⟨rfl, ?_⟩
  interval_cases t <;>
    simp only [Nat.reduceAdd, Nat.reduceMul, Nat.reduceDiv, Nat.reduceMod, readL, laneIndex,
      List.getD_cons_zero, List.getD_cons_succ] <;>
    exact hm _ _ (by simp)

theorem rhoPi_loop_coord (S : List Nat) (cur : Nat) : ∀ t,
    (((List.range t).foldl rhoPiStep (1, 0, cur, S)).1,
      ((List.range t).foldl rhoPiStep (1, 0, cur, S)).2.1) = rhoPiCoord t := by
  intro t
  induction t with
  | zero => rfl
  | succ t ih =>
    rw [List.range_succ, List.foldl_append, List.foldl_cons, List.foldl_nil]
    generalize (List.range t).foldl rhoPiStep (1, 0, cur, S) = s at ih
    obtain ⟨x, y, c, st⟩ := s
    simp only at ih
    simp only [rhoPiStep, rhoPiCoord, piMove, ← ih]

/-- C20: the rho and pi steps are a rotated permutation of the lanes: the 24 coordinates that
the loop visits from `(1, 0)` by `(x, y) -> (y, (2x + 3y) mod 5)` are pairwise distinct and are
exactly the coordinates other than `(0, 0)`; lane `(0, 0)` is left as it is; and for
`t = 0..23` the lane held at the `t`-th coordinate before the step ends at the next
coordinate, rotated left by `((t+1)(t+2)/2) mod 64` bits. -/
theorem rhoPi_is_rotated_permutation (S : List Nat) (t x y : Nat)
    (hS : AES128.IsBytes 200 S) (ht : t < 24) (hx : x < 5) (hy : y < 5) :
    (((List.range t).foldl rhoPiStep (1, 0, readLane S 1 0, S)).1,
        ((List.range t).foldl rhoPiStep (1, 0, readLane S 1 0, S)).2.1) = rhoPiCoord t ∧
      ((List.range 24).map rhoPiCoord).Nodup ∧
      ((x, y) ∈ (List.range 24).map rhoPiCoord ↔ (x, y) ≠ (0, 0)) ∧
      readLane (rhoPi S) 0 0 = readLane S 0 0 ∧
      readLane (rhoPi S) (rhoPiCoord (t + 1)).1 (rhoPiCoord (t + 1)).2 =
        ROL64 (readLane S (rhoPiCoord t).1 (rhoPiCoord t).2) (((t + 1) * (t + 2) / 2) % 64) := by
  have hsim := sim_lanesOfBytes S hS
  have h := rhoPiL_moves (lanesOfBytes S) hsim.2 t ht
  refine ⟨rhoPi_loop_coord S _ t, rhoPiCoord_table.1, rhoPiCoord_table.2.1 x hx y hy, ?_, ?_⟩
  · rw [sim_readLane (sim_rhoPi hsim), sim_readLane hsim]
    exact h.1
  · rw [sim_readLane (sim_rhoPi hsim), sim_readLane hsim]
    exact h.2

theorem rhoPi_is_rotated_permutation_witness :
    AES128.IsBytes 200 zeroStateImage ∧ (23 : Nat) < 24 ∧ (2 : Nat) < 5 ∧ (3 : Nat) < 5 ∧
    ((((List.range 23).foldl rhoPiStep
          (1, 0, readLane zeroStateImage 1 0, zeroStateImage)).1,
        ((List.range 23).foldl rhoPiStep
          (1, 0, readLane zeroStateImage 1 0, zeroStateImage)).2.1)
          = rhoPiCoord 23 ∧
      ((List.range 24).map rhoPiCoord).Nodup ∧
      ((2, 3) ∈ (List.range 24).map rhoPiCoord ↔ ((2, 3) : Nat × Nat) ≠ (0, 0)) ∧
      readLane (rhoPi zeroStateImage) 0 0 = readLane zeroStateImage 0 0 ∧
      readLane (rhoPi zeroStateImage) (rhoPiCoord (23 + 1)).1 (rhoPiCoord (23 + 1)).2 =
        ROL64 (readLane zeroStateImage (rhoPiCoord 23).1 (rhoPiCoord 23).2)
          (((23 + 1) * (23 + 2) / 2) % 64)) :=
  ⟨by decide, by decide, by decide, by decide,
    rhoPi_is_rotated_permutation zeroStateImage 23 2 3 (by decide) (by decide)
      (by decide) (by decide)⟩

end SHA3

/-! ## AES-128: the substitution tables -/

namespace AES128

theorem S_Box_inv_S_Box : ∀ x < 256, S_Box.getD (inv_S_Box.getD x 0) 0 = x := by decide!

/-- C25: the two substitution tables are mutually inverse on the bytes: for every byte `b`,
`inv_S_Box[S_Box[b]] = b` and `S_Box[inv_S_Box[b]] = b`; and for every round index `t`, every
schedule of bytes and every 16-byte state `s`, `inv_add_S_Box_and_shift` undoes
`add_S_Box_and_shift` for the same round. -/
theorem S_Box_tables_mutually_inverse (b : Nat) (KeyGen s : List Nat) (t : Nat)
    (hb : b < 256) (hKeyGen : IsBytes 176 KeyGen) (hs : IsBytes 16 s) (_ht : t ≤ 9) :
    inv_S_Box.getD (S_Box.getD b 0) 0 = b ∧ S_Box.getD (inv_S_Box.getD b 0) 0 = b ∧
      S_Box.getD b 0 < 256 ∧ inv_S_Box.getD b 0 < 256 ∧
      inv_add_S_Box_and_shift KeyGen (add_S_Box_and_shift KeyGen s t) t = s :=
  ⟨inv_S_Box_S_Box b hb, S_Box_inv_S_Box b hb, S_Box_getD_lt b,
    isBytes_getD (show IsBytes 256 inv_S_Box from by decide) b,
    inv_add_add KeyGen s t hs (fun i => isBytes_getD hKeyGen i)⟩

theorem S_Box_tables_mutually_inverse_witness :
    (0x53 : Nat) < 256 ∧ IsBytes 176 (Generate_Key ⟨fipsKey, fipsCipher⟩ (List.replicate 176 0) 0) ∧
    IsBytes 16 fipsPlain ∧ (9 : Nat) ≤ 9 ∧
    (inv_S_Box.getD (S_Box.getD 0x53 0) 0 = 0x53 ∧ S_Box.getD (inv_S_Box.getD 0x53 0) 0 = 0x53 ∧
      S_Box.getD 0x53 0 < 256 ∧ inv_S_Box.getD 0x53 0 < 256 ∧
      inv_add_S_Box_and_shift (Generate_Key ⟨fipsKey, fipsCipher⟩ (List.replicate 176 0) 0)
        (add_S_Box_and_shift (Generate_Key ⟨fipsKey, fipsCipher⟩ (List.replicate 176 0) 0)
          fipsPlain 9) 9 = fipsPlain) :=
  ⟨by decide, by decide, by decide, by decide,
    S_Box_tables_mutually_inverse 0x53 (Generate_Key ⟨fipsKey, fipsCipher⟩ (List.replicate 176 0) 0)
      fipsPlain 9 (by decide) (by decide) (by decide) (by decide)⟩

end AES128

/-! ## Keccak: the rotation offsets -/

namespace SHA3

theorem rhoOffset_range : ∀ t < 24, 0 < rhoOffset t ∧ rhoOffset t < 64 := by decide

theorem rhoPiStep_offset (x y current : Nat) (state : List Nat) (t : Nat) :
    rhoPiStep (x, y, current, state) t =
      (y, (2 * x + 3 * y) % 5, readLane state y ((2 * x + 3 * y) % 5),
        writeLane state y ((2 * x + 3 * y) % 5) (ROL64 current (rhoOffset t))) := rfl

theorem testBit_of_lt_two_pow_64 (a j : Nat) (ha : a < 2 ^ 64) (hj : 64 ≤ j) :
    a.testBit j = false :=
  Nat.testBit_eq_false_of_lt (Nat.lt_of_lt_of_le ha (Nat.pow_le_pow_right (by decide) hj))

/-- For an offset in 1..63 the macro is the left rotation of a 64-bit lane: bit `i` of the
result is bit `(i - r) mod 64` of the operand. -/
theorem ROL64_testBit (a r i : Nat) (ha : a < 2 ^ 64) (hr0 : 0 < r) (hr : r < 64) :
    (ROL64 a r).testBit i = (decide (i < 64) && a.testBit ((i + 64 - r) % 64)) := by
  unfold ROL64
  rw [Nat.testBit_xor, Nat.testBit_mod_two_pow, Nat.testBit_shiftLeft, Nat.testBit_shiftRight]
  by_cases hi : i < 64
  · by_cases hri : r ≤ i
    · have e : (i + 64 - r) % 64 = i - r := by omega
      rw [e, testBit_of_lt_two_pow_64 a (64 - r + i) ha (by omega)]
      simp [hi, hri]
    · have e : (i + 64 - r) % 64 = 64 - r + i := by omega
      rw [e]
      simp [hi, hri]
  · rw [testBit_of_lt_two_pow_64 a (64 - r + i) ha (by omega)]
    simp [hi]

/-- C24: every rotation of `KeccakF1600_StatePermute` has an offset strictly between 0 and 64:
theta rotates by 1, and in iteration `t = 0..23` of the rho and pi loop the offset
`((t+1)(t+2)/2) mod 64` is in 1..63, so the right shift by `64 - offset` in `ROL64` is by 1..63
bits and `ROL64` is the left rotation of the 64-bit lane at these offsets. -/
theorem rotation_offsets_strictly_inside (t a i x y current : Nat) (state : List Nat)
    (ht : t < 24) (ha : a < 2 ^ 64) :
    rhoPiStep (x, y, current, state) t =
        (y, (2 * x + 3 * y) % 5, readLane state y ((2 * x + 3 * y) % 5),
          writeLane state y ((2 * x + 3 * y) % 5) (ROL64 current (rhoOffset t))) ∧
      rhoOffset t = ((t + 1) * (t + 2) / 2) % 64 ∧
      0 < rhoOffset t ∧ rhoOffset t < 64 ∧ 0 < 64 - rhoOffset t ∧ 64 - rhoOffset t < 64 ∧
      (ROL64 a (rhoOffset t)).testBit i
        = (decide (i < 64) && a.testBit ((i + 64 - rhoOffset t) % 64)) ∧
      (ROL64 a 1).testBit i = (decide (i < 64) && a.testBit ((i + 64 - 1) % 64)) := by
  have h := rhoOffset_range t ht
  exact ⟨rfl, rfl, h.1, h.2, by omega, by omega, ROL64_testBit a _ i ha h.1 h.2,
    ROL64_testBit a 1 i ha (by decide) (by decide)⟩

theorem rotation_offsets_strictly_inside_witness :
    (23 : Nat) < 24 ∧ (0x8000000000000001 : Nat) < 2 ^ 64 ∧
    (rhoPiStep (4, 1, 0x8000000000000001, zeroStateImage) 23 =
        (1, (2 * 4 + 3 * 1) % 5, readLane zeroStateImage 1 ((2 * 4 + 3 * 1) % 5),
          writeLane zeroStateImage 1 ((2 * 4 + 3 * 1) % 5)
            (ROL64 0x8000000000000001 (rhoOffset 23))) ∧
      rhoOffset 23 = ((23 + 1) * (23 + 2) / 2) % 64 ∧
      0 < rhoOffset 23 ∧ rhoOffset 23 < 64 ∧ 0 < 64 - rhoOffset 23 ∧ 64 - rhoOffset 23 < 64 ∧
      (ROL64 0x8000000000000001 (rhoOffset 23)).testBit 44
        = (decide (44 < 64) && (0x8000000000000001 : Nat).testBit ((44 + 64 - rhoOffset 23) % 64)) ∧
      (ROL64 0x8000000000000001 1).testBit 44
        = (decide (44 < 64) && (0x8000000000000001 : Nat).testBit ((44 + 64 - 1) % 64))) :=
  ⟨by decide, by decide,
    rotation_offsets_strictly_inside 23 0x8000000000000001 44 4 1 0x8000000000000001
      zeroStateImage (by decide) (by decide)⟩

end SHA3

/-! ## Keccak: prefix consistency of the squeezed output -/

namespace SHA3

/-- The bytes squeezed for a shorter output are a prefix of those squeezed for a longer one. -/
theorem squeezeBytes_prefix (r : Nat) :
    ∀ (fuel : Nat) (state : List Nat) (n m : Nat), n ≤ m →
      squeezeBytes r fuel state n = (squeezeBytes r fuel state m).take n := by
  intro fuel
  induction fuel with
  | zero => intro state n m _; simp [squeezeBytes]
  | succ f ih =>
    intro state n m hnm
    by_cases hn : n > 0
    · have hm : m > 0 := by omega
      simp only [squeezeBytes, hn, hm, if_true]
      rcases Nat.lt_or_ge r n with hrn | hrn
      · have e1 : min n r = r := Nat.min_eq_right (by omega)
        have e2 : min m r = r := Nat.min_eq_right (by omega)
        have h1 : n - r > 0 := by omega
        have h2 : m - r > 0 := by omega
        rw [e1, e2, if_pos h1, if_pos h2, List.take_append_eq_append_take,
          List.take_of_length_le (by rw [List.length_map, List.length_range]; omega), List.length_map, List.length_range,
          ← ih _ (n - r) (m - r) (by omega)]
      · have e1 : min n r = n := Nat.min_eq_left hrn
        have hle : n ≤ min m r := Nat.le_min.2 ⟨hnm, hrn⟩
        rw [e1, Nat.sub_self, if_neg (by decide), List.append_nil,
          List.take_append_of_le_length (by rw [List.length_map, List.length_range]; exact hle), ← List.map_take, List.take_range,
          Nat.min_eq_left hle]
    · have h0 : n = 0 := by omega
      subst h0
      rw [squeezeBytes_zero]
      rfl

theorem Keccak_prefix (fuel rate capacity : Nat) (input : List Nat)
    (inputByteLen delimitedSuffix : Nat) (out1 out2 : List Nat) (n m : Nat)
    (hv : Keccak_rejects rate capacity = false)
    (hin : inputByteLen ≤ fuel * (rate / 8)) (hm : m ≤ fuel * (rate / 8)) (hnm : n ≤ m)
    (h1 : n ≤ out1.length) (h2 : m ≤ out2.length) :
    ∃ d : List Nat, d.length = m ∧
      Keccak fuel rate capacity input inputByteLen delimitedSuffix out2 m
        = some (d ++ out2.drop m) ∧
      Keccak fuel rate capacity input inputByteLen delimitedSuffix out1 n
        = some (d.take n ++ out1.drop n) := by
  obtain ⟨⟨state, blockSize⟩, ha⟩ :=
    Keccak_absorb_terminates (rate / 8) fuel (List.replicate 200 0) input inputByteLen 0 hin
  refine ⟨squeezeBytes (rate / 8) fuel (Keccak_pad (rate / 8) state blockSize delimitedSuffix) m,
    squeezeBytes_length _ _ _ _ hm, ?_, ?_⟩
  · rw [Keccak_of_absorb fuel rate capacity input inputByteLen delimitedSuffix out2 m state
      blockSize hv ha, Keccak_squeeze_eq (rate / 8) fuel _ out2 0 m hm (by omega)]
    simp
  · rw [Keccak_of_absorb fuel rate capacity input inputByteLen delimitedSuffix out1 n state
      blockSize hv ha, Keccak_squeeze_eq (rate / 8) fuel _ out1 0 n (by omega) (by omega),
      ← squeezeBytes_prefix _ _ _ n m hnm]
    simp

theorem toULL_natCast (m : Nat) (h : m < 2 ^ 64) : toULL (m : Int) = m := by
  rw [toULL_of_nonneg _ (Int.ofNat_nonneg m) (by exact_mod_cast h)]
  exact Int.toNat_ofNat m

theorem le_mul_of_le_fuel {k fuel r : Nat} (hk : k ≤ fuel) (hr : 1 ≤ r) : k ≤ fuel * r :=
  Nat.le_trans hk (Nat.le_mul_of_pos_right fuel hr)

/-- C22: extendable output is prefix-consistent: for every input and all output lengths
`0 <= n <= m`, with fuel for the input and for `m` bytes, the `n` bytes that
`FIPS202_SHAKE128` writes for length `n` are the first `n` of the `m` bytes it writes for
length `m`; likewise for `FIPS202_SHAKE256` and for `Keccak` with any valid parameters
(`rate + capacity = 1600` without wrap-around, `rate` a multiple of 8) with `rate >= 8`, for
which the call is accepted and the rate in bytes is in 1..200. -/
theorem SHAKE_output_prefix_consistent (fuel rate capacity : Nat) (input : List Nat)
    (inputByteLen delimitedSuffix : Nat) (out1 out2 : List Nat) (n m : Nat)
    (hsum : rate + capacity = 1600) (hmul : rate % 8 = 0) (hr : 8 ≤ rate)
    (hin : inputByteLen ≤ fuel) (hm : m ≤ fuel) (hnm : n ≤ m) (h1 : n ≤ out1.length)
    (h2 : m ≤ out2.length) (h64 : m < 2 ^ 64) :
    (∃ d : List Nat, d.length = m ∧
        FIPS202_SHAKE128 fuel input inputByteLen out2 (m : Int) = some (d ++ out2.drop m) ∧
        FIPS202_SHAKE128 fuel input inputByteLen out1 (n : Int)
          = some (d.take n ++ out1.drop n)) ∧
      (∃ d : List Nat, d.length = m ∧
        FIPS202_SHAKE256 fuel input inputByteLen out2 (m : Int) = some (d ++ out2.drop m) ∧
        FIPS202_SHAKE256 fuel input inputByteLen out1 (n : Int)
          = some (d.take n ++ out1.drop n)) ∧
      (Keccak_rejects rate capacity = false ∧ 1 ≤ rate / 8 ∧ rate / 8 ≤ 200) ∧
      (∃ d : List Nat, d.length = m ∧
        Keccak fuel rate capacity input inputByteLen delimitedSuffix out2 m
          = some (d ++ out2.drop m) ∧
        Keccak fuel rate capacity input inputByteLen delimitedSuffix out1 n
          = some (d.take n ++ out1.drop n)) := by
  have hv := Keccak_rejects_of_valid rate capacity hsum hmul
  have hrange := rateInBytes_range_of_valid rate capacity hsum hr
  have hr8 : 1 ≤ rate / 8 := hrange.1
  refine ⟨?_, ?_, ⟨hv, hrange.1, hrange.2⟩, ?_⟩
  · unfold FIPS202_SHAKE128
    rw [toULL_natCast m h64, toULL_natCast n (by omega)]
    exact Keccak_prefix fuel 1344 256 input inputByteLen 0x1F out1 out2 n m (by decide)
      (le_mul_of_le_fuel hin (by decide)) (le_mul_of_le_fuel hm (by decide)) hnm h1 h2
  · unfold FIPS202_SHAKE256
    rw [toULL_natCast m h64, toULL_natCast n (by omega)]
    exact Keccak_prefix fuel 1088 512 input inputByteLen 0x1F out1 out2 n m (by decide)
      (le_mul_of_le_fuel hin (by decide)) (le_mul_of_le_fuel hm (by decide)) hnm h1 h2
  · exact Keccak_prefix fuel rate capacity input inputByteLen delimitedSuffix out1 out2 n m hv
      (le_mul_of_le_fuel hin hr8) (le_mul_of_le_fuel hm hr8) hnm h1 h2

theorem SHAKE_output_prefix_consistent_witness :
    576 + 1024 = 1600 ∧ 576 % 8 = 0 ∧ (8 : Nat) ≤ 576 ∧ (3 : Nat) ≤ 200 ∧ (200 : Nat) ≤ 200 ∧
    (5 : Nat) ≤ 200 ∧ 5 ≤ (List.replicate 5 0).length ∧ 200 ≤ (List.replicate 200 7).length ∧
    (200 : Nat) < 2 ^ 64 ∧
    ((∃ d : List Nat, d.length = 200 ∧
        FIPS202_SHAKE128 200 [0x61, 0x62, 0x63] 3 (List.replicate 200 7) ((200 : Nat) : Int)
          = some (d ++ (List.replicate 200 7).drop 200) ∧
        FIPS202_SHAKE128 200 [0x61, 0x62, 0x63] 3 (List.replicate 5 0) ((5 : Nat) : Int)
          = some (d.take 5 ++ (List.replicate 5 0).drop 5)) ∧
      (∃ d : List Nat, d.length = 200 ∧
        FIPS202_SHAKE256 200 [0x61, 0x62, 0x63] 3 (List.replicate 200 7) ((200 : Nat) : Int)
          = some (d ++ (List.replicate 200 7).drop 200) ∧
        FIPS202_SHAKE256 200 [0x61, 0x62, 0x63] 3 (List.replicate 5 0) ((5 : Nat) : Int)
          = some (d.take 5 ++ (List.replicate 5 0).drop 5)) ∧
      (Keccak_rejects 576 1024 = false ∧ 1 ≤ 576 / 8 ∧ 576 / 8 ≤ 200) ∧
      (∃ d : List Nat, d.length = 200 ∧
        Keccak 200 576 1024 [0x61, 0x62, 0x63] 3 0x1F (List.replicate 200 7) 200
          = some (d ++ (List.replicate 200 7).drop 200) ∧
        Keccak 200 576 1024 [0x61, 0x62, 0x63] 3 0x1F (List.replicate 5 0) 5
          = some (d.take 5 ++ (List.replicate 5 0).drop 5))) :=
  ⟨by decide, by decide, by decide, by decide, by decide, by decide, by decide, by decide,
    by decide,
    SHAKE_output_prefix_consistent 200 576 1024 [0x61, 0x62, 0x63] 3 0x1F (List.replicate 5 0)
      (List.replicate 200 7) 5 200 (by decide) (by decide) (by decide) (by decide) (by decide)
      (by decide) (by decide) (by decide) (by decide)⟩

end SHA3

/-! ## Keccak: accepted parameters and the bounds of the state -/

namespace SHA3

/-- When the sum `rate + capacity` does not wrap and `rate` is at least 8, an accepted pair
has its rate in bytes in 1..200. -/
theorem rateInBytes_range_of_no_wrap (rate capacity : Nat)
    (hv : Keccak_rejects rate capacity = false) (h8 : 8 ≤ rate) (hsum : rate + capacity < 2 ^ 32) :
    1 ≤ rate / 8 ∧ rate / 8 ≤ 200 := by
  have h : ¬ ((rate + capacity) % 2 ^ 32 ≠ 1600 ∨ rate % 8 ≠ 0) := by
    rw [← Keccak_rejects_iff, hv]; decide
  rw [Nat.mod_eq_of_lt hsum] at h
  omega

/-- C23 fails in the code: the pairs `(0, 1600)` and `(1608, 2^32 - 8)`, as 32-bit unsigned
values, pass the validation of `Keccak`, but the rate in bytes is 0 for the first, so the
padding index `rateInBytes - 1` wraps to `2^32 - 1`, and 201 for the second, so a block of
201 bytes is absorbed and the padding index is 200: indices outside the 200-byte state. -/
theorem accepted_rate_outside_state :
    (Keccak_rejects 0 1600 = false ∧ 0 / 8 = 0 ∧ ¬ (1 ≤ 0 / 8) ∧
        ¬ ((0 / 8 + 2 ^ 32 - 1) % 2 ^ 32 < (List.replicate 200 0).length)) ∧
      (Keccak_rejects 1608 4294967288 = false ∧ 1608 / 8 = 201 ∧ ¬ (1608 / 8 ≤ 200) ∧
        ¬ (min 201 (1608 / 8) - 1 < (List.replicate 200 0).length) ∧
        ¬ ((1608 / 8 + 2 ^ 32 - 1) % 2 ^ 32 < (List.replicate 200 0).length)) := by
  decide

end SHA3

/-! ## Keccak: padding at the end of the rate window -/

namespace SHA3

theorem Keccak_xorBlock_succ (state input : List Nat) (k : Nat) :
    Keccak_xorBlock state input (k + 1) =
      (Keccak_xorBlock state input k).set k
        ((Keccak_xorBlock state input k).getD k 0 ^^^ input.getD k 0) := by
  simp only [Keccak_xorBlock, List.range_succ, List.foldl_append, List.foldl_cons, List.foldl_nil]

theorem Keccak_xorBlock_congr (state a b : List Nat) :
    ∀ k, (∀ i < k, a.getD i 0 = b.getD i 0) → Keccak_xorBlock state a k = Keccak_xorBlock state b k := by
  intro k
  induction k with
  | zero => intro _; rfl
  | succ k ih =>
    intro h
    rw [Keccak_xorBlock_succ, Keccak_xorBlock_succ, ih (fun i hi => h i (by omega)),
      h k (by omega)]

theorem getD_drop (l : List Nat) (n i : Nat) : (l.drop n).getD i 0 = l.getD (n + i) 0 := by
  rw [List.getD_eq_getElem?_getD, List.getD_eq_getElem?_getD, List.getElem?_drop]

theorem absorbBlocks_zero (r : Nat) (msg state : List Nat) : absorbBlocks r msg 0 state = state := rfl

theorem absorbBlocks_succ_last (r : Nat) (k : Nat) (msg state : List Nat) :
    absorbBlocks r msg (k + 1) state =
      KeccakF1600_StatePermute
        (Keccak_xorBlock (absorbBlocks r msg k state) (msg.drop (k * r)) r) := by
  unfold absorbBlocks
  rw [List.range_succ, List.foldl_append, List.foldl_cons, List.foldl_nil]

theorem absorbBlocks_succ (r : Nat) : ∀ (k : Nat) (msg state : List Nat),
    absorbBlocks r msg (k + 1) state =
      absorbBlocks r (msg.drop r) k (KeccakF1600_StatePermute (Keccak_xorBlock state msg r)) := by
  intro k
  induction k with
  | zero =>
    intro msg state
    rw [absorbBlocks_succ_last, absorbBlocks_zero, absorbBlocks_zero, Nat.zero_mul, List.drop_zero]
  | succ k ih =>
    intro msg state
    have hs : (k + 1) * r = r + k * r := by rw [Nat.succ_mul, Nat.add_comm]
    rw [absorbBlocks_succ_last, ih, absorbBlocks_succ_last r k (msg.drop r), List.drop_drop, hs]

theorem absorbBlocks_congr (r : Nat) : ∀ (k : Nat) (a b state : List Nat),
    (∀ i < k * r, a.getD i 0 = b.getD i 0) → absorbBlocks r a k state = absorbBlocks r b k state := by
  intro k
  induction k with
  | zero => intro a b state _; rw [absorbBlocks_zero, absorbBlocks_zero]
  | succ k ih =>
    intro a b state h
    have hs : (k + 1) * r = k * r + r := Nat.succ_mul k r
    rw [absorbBlocks_succ_last, absorbBlocks_succ_last, ih a b state (fun i hi => h i (by omega))]
    congr 1
    apply Keccak_xorBlock_congr
    intro i hi
    rw [getD_drop, getD_drop]
    exact h _ (by omega)

theorem Keccak_absorb_boundary (r : Nat) (hr : 1 ≤ r) :
    ∀ (k fuel : Nat) (state input : List Nat), k + 1 ≤ fuel →
      Keccak_absorb r fuel state input (k * r + (r - 1)) 0 =
        some (Keccak_xorBlock (absorbBlocks r input k state) (input.drop (k * r)) (r - 1),
          r - 1) := by
  intro k
  induction k with
  | zero =>
    intro fuel state input hf
    obtain ⟨f, rfl⟩ : ∃ f, fuel = f + 1 := ⟨fuel - 1, by omega⟩
    rw [Nat.zero_mul, Nat.zero_add, absorbBlocks_zero, List.drop_zero]
    by_cases h0 : 0 < r - 1
    · exact Keccak_absorb_partial r f state input (r - 1) 0 h0 (by omega)
    · have e : r - 1 = 0 := by omega
      rw [e, Keccak_absorb_zero, Keccak_xorBlock_zero]
  | succ k ih =>
    intro fuel state input hf
    obtain ⟨f, rfl⟩ : ∃ f, fuel = f + 1 := ⟨fuel - 1, by omega⟩
    have hs : (k + 1) * r = k * r + r := Nat.succ_mul k r
    have hs2 : (k + 1) * r = r + k * r := by omega
    have hpos : (k + 1) * r + (r - 1) > 0 := by omega
    have hmin : min ((k + 1) * r + (r - 1)) r = r := Nat.min_eq_right (by omega)
    have hsub : (k + 1) * r + (r - 1) - r = k * r + (r - 1) := by omega
    simp only [Keccak_absorb, hpos, hmin, if_true, hsub]
    rw [ih f _ _ (by omega), absorbBlocks_succ, List.drop_drop, hs2]

theorem Keccak_pad_boundary (r suffix : Nat) (st : List Nat) (hr1 : 1 ≤ r) (hr : r < 2 ^ 32)
    (hs : suffix = 0x06 ∨ suffix = 0x1F) :
    Keccak_pad r st (r - 1) suffix =
      KeccakF1600_StatePermute (st.set (r - 1) (st.getD (r - 1) 0 ^^^ (suffix ||| 0x80))) := by
  have e : (r + 2 ^ 32 - 1) % 2 ^ 32 = r - 1 := by omega
  have h0 : suffix &&& 0x80 = 0 := by
    rcases hs with rfl | rfl <;> rfl
  have h80 : ¬ (suffix &&& 0x80 ≠ 0 ∧ True) := fun c => c.1 h0
  have hx : ∀ x : Nat, x ^^^ suffix ^^^ 0x80 = x ^^^ (suffix ||| 0x80) := by
    intro x
    rw [Nat.xor_assoc]
    rcases hs with rfl | rfl <;> rfl
  simp only [Keccak_pad, e, if_neg h80, List.set_set]
  by_cases hi : r - 1 < st.length
  · rw [AES128.getD_set_eq, if_pos ⟨rfl, hi⟩, hx]
  · rw [List.set_eq_of_length_le (Nat.le_of_not_lt hi),
      List.set_eq_of_length_le (Nat.le_of_not_lt hi)]

theorem absorbBlocks_padded (r p : Nat) (input state : List Nat) (k : Nat) (hr : 1 ≤ r)
    (hn : input.length = k * r + (r - 1)) :
    absorbBlocks r (input ++ [p]) (k + 1) state =
      KeccakF1600_StatePermute
        ((Keccak_xorBlock (absorbBlocks r input k state) (input.drop (k * r)) (r - 1)).set (r - 1)
          ((Keccak_xorBlock (absorbBlocks r input k state) (input.drop (k * r)) (r - 1)).getD
            (r - 1) 0 ^^^ p)) := by
  have hA : absorbBlocks r (input ++ [p]) k state = absorbBlocks r input k state :=
    absorbBlocks_congr r k _ _ state (fun i hi => List.getD_append _ _ _ i (by omega))
  have hM : Keccak_xorBlock (absorbBlocks r input k state) ((input ++ [p]).drop (k * r)) (r - 1)
      = Keccak_xorBlock (absorbBlocks r input k state) (input.drop (k * r)) (r - 1) := by
    apply Keccak_xorBlock_congr
    intro i hi
    rw [getD_drop, getD_drop, List.getD_append _ _ _ _ (by omega)]
  have hp : ((input ++ [p]).drop (k * r)).getD (r - 1) 0 = p := by
    rw [getD_drop, List.getD_append_right _ _ _ _ (by omega), ← hn, Nat.sub_self]
    rfl
  have hx := Keccak_xorBlock_succ (absorbBlocks r input k state) ((input ++ [p]).drop (k * r))
    (r - 1)
  rw [Nat.sub_add_cancel hr] at hx
  rw [absorbBlocks_succ_last, hA, hx, hM, hp]

theorem wrapper_parameters_facts (rate capacity suffix : Nat)
    (hw : (rate, capacity, suffix) ∈
      [(1344, 256, 0x1F), (1088, 512, 0x1F), (1152, 448, 0x06), (1088, 512, 0x06),
        (832, 768, 0x06), (576, 1024, 0x06)]) :
    Keccak_rejects rate capacity = false ∧ 1 ≤ rate / 8 ∧ rate / 8 ≤ 200 ∧
      (suffix = 0x06 ∨ suffix = 0x1F) := by
  simp only [List.mem_cons, List.mem_singleton, Prod.mk.injEq, List.not_mem_nil, or_false] at hw
  rcases hw with h | h | h | h | h | h <;>
    (obtain ⟨h1, h2, h3⟩ := h; subst h1 h2 h3; decide)

/-- C21: padding at the window boundary, for the parameters of the six wrappers (suffix
`0x06` or `0x1F`, rate `r` bytes) and every input whose length `n` satisfies
`n mod r = r - 1`: the absorbing loop ends after the `n / r` full blocks and the `r - 1`
trailing bytes with `blockSize = r - 1`; the extra-permutation branch is not taken; the
padding XORs `suffix OR 0x80` (`0x86` or `0x9F`) into byte `r - 1` and applies one
permutation; so the state that is squeezed is the one obtained by absorbing the
`n / r + 1` whole blocks of `input || (suffix OR 0x80)`. -/
theorem padding_at_window_boundary (fuel rate capacity suffix : Nat) (input output : List Nat)
    (outputByteLen : Nat)
    (hw : (rate, capacity, suffix) ∈
      [(1344, 256, 0x1F), (1088, 512, 0x1F), (1152, 448, 0x06), (1088, 512, 0x06),
        (832, 768, 0x06), (576, 1024, 0x06)])
    (hn : input.length % (rate / 8) = rate / 8 - 1)
    (hfuel : input.length / (rate / 8) + 1 ≤ fuel) :
    Keccak_absorb (rate / 8) fuel (List.replicate 200 0) input input.length 0 =
        some (Keccak_xorBlock
            (absorbBlocks (rate / 8) input (input.length / (rate / 8)) (List.replicate 200 0))
            (input.drop (input.length / (rate / 8) * (rate / 8))) (rate / 8 - 1),
          rate / 8 - 1) ∧
      ¬ (suffix &&& 0x80 ≠ 0 ∧ rate / 8 - 1 = (rate / 8 + 2 ^ 32 - 1) % 2 ^ 32) ∧
      suffix ||| 0x80 = (if suffix = 0x06 then 0x86 else 0x9F) ∧
      rate / 8 - 1 < 200 ∧
      (∀ st : List Nat, Keccak_pad (rate / 8) st (rate / 8 - 1) suffix =
        KeccakF1600_StatePermute
          (st.set (rate / 8 - 1) (st.getD (rate / 8 - 1) 0 ^^^ (suffix ||| 0x80)))) ∧
      (input ++ [suffix ||| 0x80]).length = (input.length / (rate / 8) + 1) * (rate / 8) ∧
      Keccak fuel rate capacity input input.length suffix output outputByteLen =
        Keccak_squeeze (rate / 8) fuel
          (absorbBlocks (rate / 8) (input ++ [suffix ||| 0x80]) (input.length / (rate / 8) + 1)
            (List.replicate 200 0))
          output 0 outputByteLen := by
  obtain ⟨hv, hr1, hr200, hs⟩ := wrapper_parameters_facts rate capacity suffix hw
  generalize hr : rate / 8 = r at hn hfuel hr1 hr200 ⊢
  have hlen : input.length = input.length / r * r + (r - 1) := by
    have h := Nat.div_add_mod input.length r
    rw [hn, Nat.mul_comm] at h
    exact h.symm
  have hA := Keccak_absorb_boundary r hr1 (input.length / r) fuel (List.replicate 200 0) input hfuel
  rw [← hlen] at hA
  have h0 : suffix &&& 0x80 = 0 := by rcases hs with rfl | rfl <;> rfl
  have hK := Keccak_of_absorb fuel rate capacity input input.length suffix output outputByteLen
    _ _ hv (by rw [hr]; exact hA)
  rw [hr] at hK
  refine ⟨hA, fun c => c.1 h0, by rcases hs with rfl | rfl <;> rfl, by omega,
    fun st => Keccak_pad_boundary r suffix st hr1 (by omega) hs, ?_, ?_⟩
  · rw [List.length_append, List.length_singleton, Nat.succ_mul]
    omega
  · rw [hK, Keccak_pad_boundary r suffix _ hr1 (by omega) hs,
      absorbBlocks_padded r (suffix ||| 0x80) input _ (input.length / r) hr1 hlen]

theorem padding_at_window_boundary_witness :
    ((576, 1024, 0x06) : Nat × Nat × Nat) ∈
      [(1344, 256, 0x1F), (1088, 512, 0x1F), (1152, 448, 0x06), (1088, 512, 0x06),
        (832, 768, 0x06), (576, 1024, 0x06)] ∧
    (List.replicate 143 0x61).length % (576 / 8) = 576 / 8 - 1 ∧
    (List.replicate 143 0x61).length / (576 / 8) + 1 ≤ 2 ∧
    (Keccak_absorb (576 / 8) 2 (List.replicate 200 0) (List.replicate 143 0x61)
          (List.replicate 143 0x61).length 0 =
        some (Keccak_xorBlock
            (absorbBlocks (576 / 8) (List.replicate 143 0x61)
              ((List.replicate 143 0x61).length / (576 / 8)) (List.replicate 200 0))
            ((List.replicate 143 0x61).drop ((List.replicate 143 0x61).length / (576 / 8) * (576 / 8)))
            (576 / 8 - 1),
          576 / 8 - 1) ∧
      ¬ (0x06 &&& 0x80 ≠ 0 ∧ 576 / 8 - 1 = (576 / 8 + 2 ^ 32 - 1) % 2 ^ 32) ∧
      0x06 ||| 0x80 = (if (0x06 : Nat) = 0x06 then 0x86 else 0x9F) ∧
      576 / 8 - 1 < 200 ∧
      (∀ st : List Nat, Keccak_pad (576 / 8) st (576 / 8 - 1) 0x06 =
        KeccakF1600_StatePermute
          (st.set (576 / 8 - 1) (st.getD (576 / 8 - 1) 0 ^^^ (0x06 ||| 0x80)))) ∧
      (List.replicate 143 0x61 ++ [0x06 ||| 0x80]).length
        = ((List.replicate 143 0x61).length / (576 / 8) + 1) * (576 / 8) ∧
      Keccak 2 576 1024 (List.replicate 143 0x61) (List.replicate 143 0x61).length 0x06
          (List.replicate 64 0) 64 =
        Keccak_squeeze (576 / 8) 2
          (absorbBlocks (576 / 8) (List.replicate 143 0x61 ++ [0x06 ||| 0x80])
            ((List.replicate 143 0x61).length / (576 / 8) + 1) (List.replicate 200 0))
          (List.replicate 64 0) 0 64) :=
  ⟨by decide, by decide, by decide,
    padding_at_window_boundary 2 576 1024 0x06 (List.replicate 143 0x61) (List.replicate 64 0) 64
      (by decide) (by decide) (by decide)⟩

end SHA3
